import Mathlib

/-!
Verification development for a Python-like front-end compiler pipeline
(lexer, recursive-descent parser, three-address IR generator).

The definitions below are a shallow embedding of the source modules
`lexer/lexer.py`, `parser/parser.py` and `intermediate/ir_generator.py`.
Python's dynamically typed values that flow through the pipeline are
modelled by closed inductive types; exceptions are modelled by `Except`;
the mutable cursor objects are modelled by explicit state passing.
-/

namespace PyC

/-- A dynamic Python value as stored in tokens, AST literal nodes and IR
constants.  Floats keep the literal's textual spelling: no claim depends
on float arithmetic and `float(...)` is applied to the scanned digits
verbatim. -/
inductive PyVal where
  | int (n : Nat)
  | str (s : String)
  | float (raw : String)
  | bool (b : Bool)
  | none
deriving Repr, DecidableEq

/-- `TokenType` from `lexer/token.py` (the closed token-kind universe). -/
inductive TokKind where
  | kwDef | kwIf | kwElse | kwElif | kwWhile | kwFor | kwIn | kwReturn
  | kwImport | kwFrom | kwAs | kwClass | kwPass | kwBreak | kwContinue
  | kwNot | kwAnd | kwOr | kwTrue | kwFalse | kwNone | kwWith
  | identifier | intLit | floatLit | strLit
  | plus | minus | mul | div | mod | power
  | eqq | neq | lt | gt | lte | gte
  | assign | plusAssign | minusAssign | mulAssign | divAssign
  | dot | comma | colon | semicolon
  | lparen | rparen | lbrack | rbrack | lbrace | rbrace
  | indent | dedent | newline | endTok
deriving Repr, DecidableEq

/-- `Token` from `lexer/token.py`: kind, value (lexeme or typed literal),
1-based line and column. -/
structure Token where
  kind : TokKind
  val : PyVal
  line : Nat
  col : Nat
deriving Repr, DecidableEq

/-! ## Character classification

ASCII fragments of the Python `str` predicates used by the lexer
(`isdigit`, `isalpha`, `isalnum`, `isspace`).  All lexer inputs in this
development are ASCII. -/

def pyIsDigit (c : Char) : Bool := '0' ≤ c && c ≤ '9'

def pyIsAlpha (c : Char) : Bool := ('a' ≤ c && c ≤ 'z') || ('A' ≤ c && c ≤ 'Z')

def pyIsAlnum (c : Char) : Bool := pyIsAlpha c || pyIsDigit c

def pyIsSpace (c : Char) : Bool :=
  c = ' ' || c = '\t' || c = '\n' || c = '\r' || c = '\x0b' || c = '\x0c'

/-! ## Lexer state (`Lexer.__init__`)

`rest` is the unread suffix of the source (Python's `source[position:]`);
`indentLevels` is the indentation stack with its TOP AT THE HEAD (Python
appends to and reads from the end of the list). -/

structure LexState where
  rest : List Char
  line : Nat
  col : Nat
  indentLevels : List Nat
  atLineStart : Bool
deriving Repr, DecidableEq

/-- `Lexer.peek`: `'\0'` past the end of input. -/
def peekc (st : LexState) : Char :=
  match st.rest with
  | [] => '\x00'
  | c :: _ => c

/-- `Lexer.peek_next`. -/
def peekNext (st : LexState) : Char :=
  match st.rest with
  | _ :: c :: _ => c
  | _ => '\x00'

/-- `self.source[self.position + 2]` guarded by `self.position + 2 < len`. -/
def peek2 (st : LexState) : Option Char :=
  match st.rest with
  | _ :: _ :: c :: _ => some c
  | _ => Option.none

/-- `Lexer.advance`: consume one character, updating line/column and
setting `at_line_start` after a newline. -/
def advancec (st : LexState) : Char × LexState :=
  match st.rest with
  | [] => ('\x00', st)
  | c :: r =>
    if c = '\n' then (c, ⟨r, st.line + 1, 1, st.indentLevels, true⟩)
    else (c, ⟨r, st.line, st.col + 1, st.indentLevels, st.atLineStart⟩)

theorem advancec_rest_length_lt (st : LexState) (h : st.rest ≠ []) :
    (advancec st).2.rest.length < st.rest.length := by
  match st, h with
  | ⟨c :: r, line, col, ind, als⟩, _ =>
    simp only [advancec]
    split <;> simp

theorem peekc_ne_nul_rest_ne_nil {st : LexState} (h : peekc st ≠ '\x00') :
    st.rest ≠ [] := by
  intro hnil
  apply h
  simp [peekc, hnil]

/-!  The character-consuming loops below take an explicit fuel argument
so that they reduce structurally; every iteration consumes at least one
character, so a fuel equal to the remaining input length makes the fueled
function agree with the Python loop (when the fuel hits zero the input is
already exhausted and the loop condition is false anyway).  Call sites
always pass the current `st.rest.length`. -/

/-- Body loop of `Lexer.skip_whitespace`. -/
def skipWs (fuel : Nat) (st : LexState) : LexState :=
  match fuel with
  | 0 => st
  | fuel + 1 =>
    if peekc st ≠ '\n' ∧ pyIsSpace (peekc st) then skipWs fuel (advancec st).2 else st

/-- `Lexer.skip_whitespace` (early-returns at line start). -/
def skipWhitespace (st : LexState) : LexState :=
  if st.atLineStart then st else skipWs st.rest.length st

/-- Body loop of `Lexer.skip_comment`. -/
def skipCommentLoop (fuel : Nat) (st : LexState) : LexState :=
  match fuel with
  | 0 => st
  | fuel + 1 =>
    if peekc st ≠ '\n' ∧ peekc st ≠ '\x00' then skipCommentLoop fuel (advancec st).2 else st

/-- `Lexer.skip_comment`. -/
def skipComment (st : LexState) : LexState :=
  skipCommentLoop st.rest.length st

/-- Leading-whitespace count at line start: spaces count 1, tabs count 4. -/
def countIndentLoop (fuel : Nat) (st : LexState) (acc : Nat) : Nat × LexState :=
  match fuel with
  | 0 => (acc, st)
  | fuel + 1 =>
    if peekc st = ' ' then countIndentLoop fuel (advancec st).2 (acc + 1)
    else if peekc st = '\t' then countIndentLoop fuel (advancec st).2 (acc + 4)
    else (acc, st)

/-- The dedent pop loop: pop levels strictly greater than `cur`, counting
pops.  (Python indexes `indentation_levels[-1]`, our list head.) -/
def popLevels (levels : List Nat) (cur : Nat) : List Nat × Nat :=
  match levels with
  | [] => ([], 0)
  | top :: rest =>
    if cur < top then
      let (l, k) := popLevels rest cur
      (l, k + 1)
    else (top :: rest, 0)

/-- Lexer error conditions (`SyntaxError`s raised by `lexer.py`, plus the
`ValueError` Python's `int(_, 16)` can raise inside the unicode escape,
and an `internal` marker for Python-level crashes that the indentation
stack invariant keeps unreachable). -/
inductive LexErr where
  | inconsistentDedent
  | unterminated
  | badEscape
  | badUnicode
  | valueError
  | unknownChar
  | badBang
  | fuel
  | internal
deriving Repr, DecidableEq

/-- `Lexer.handle_indentation`. -/
def handleIndentation (st : LexState) : Except LexErr (List Token × LexState) :=
  let (cur, st1) := countIndentLoop st.rest.length st 0
  -- If line is empty or comment, don't change indentation (at_line_start stays set)
  if peekc st1 = '\n' ∨ peekc st1 = '#' ∨ peekc st1 = '\x00' then .ok ([], st1)
  else
    match st1.indentLevels with
    | [] => .error .internal
    | prev :: below =>
      if cur > prev then
        .ok ([⟨.indent, .str "", st1.line, st1.col⟩],
             ⟨st1.rest, st1.line, st1.col, cur :: prev :: below, false⟩)
      else if cur < prev then
        let (lev, k) := popLevels (prev :: below) cur
        match lev with
        | [] => .error .internal
        | newTop :: _ =>
          if cur = newTop then
            .ok (List.replicate k ⟨.dedent, .str "", st1.line, st1.col⟩,
                 ⟨st1.rest, st1.line, st1.col, lev, false⟩)
          else .error .inconsistentDedent
      else
        .ok ([], ⟨st1.rest, st1.line, st1.col, prev :: below, false⟩)

/-- Digit-collecting loop of `Lexer.parse_number`. -/
def digitsLoopF (fuel : Nat) (st : LexState) (acc : List Char) : List Char × LexState :=
  match fuel with
  | 0 => (acc, st)
  | fuel + 1 =>
    if pyIsDigit (peekc st) then
      digitsLoopF fuel (advancec st).2 (acc ++ [peekc st])
    else (acc, st)

def digitsLoop (st : LexState) (acc : List Char) : List Char × LexState :=
  digitsLoopF st.rest.length st acc

/-- `int(number)` on the collected digit characters. -/
def digitsToNat (ds : List Char) : Nat :=
  ds.foldl (fun a c => a * 10 + (c.toNat - '0'.toNat)) 0

/-- `Lexer.parse_number`. -/
def parseNumber (st : LexState) : Token × LexState :=
  let startCol := st.col
  let (ds, st1) := digitsLoop st []
  -- decimal part
  let hasDec : Bool := peekc st1 = '.' && pyIsDigit (peekNext st1)
  let (numA, stA) :=
    if hasDec then
      let st2 := (advancec st1).2
      let (ds2, st3) := digitsLoop st2 []
      (ds ++ '.' :: ds2, st3)
    else (ds, st1)
  -- scientific notation
  let expOK : Bool :=
    (peekc stA = 'e' || peekc stA = 'E') &&
      (pyIsDigit (peekNext stA) ||
        ((peekNext stA = '+' || peekNext stA = '-') &&
          (match peek2 stA with
           | some c => pyIsDigit c
           | Option.none => false)))
  let (hasExp, numB, stB) :=
    if expOK then
      let eC := peekc stA
      let st2 := (advancec stA).2
      let (sgn, st3) :=
        if peekc st2 = '+' || peekc st2 = '-' then ([peekc st2], (advancec st2).2)
        else ([], st2)
      let (ds3, st4) := digitsLoop st3 []
      (true, numA ++ eC :: (sgn ++ ds3), st4)
    else (false, numA, stA)
  let isFloat := hasDec || hasExp
  if isFloat then
    (⟨.floatLit, .float (String.mk numB), stB.line, startCol⟩, stB)
  else
    (⟨.intLit, .int (digitsToNat numB), stB.line, startCol⟩, stB)

/-- The keyword table from `Lexer.__init__`. -/
def kwLookup (s : String) : TokKind :=
  if s = "def" then .kwDef else if s = "if" then .kwIf
  else if s = "else" then .kwElse else if s = "elif" then .kwElif
  else if s = "while" then .kwWhile else if s = "for" then .kwFor
  else if s = "in" then .kwIn else if s = "return" then .kwReturn
  else if s = "import" then .kwImport else if s = "from" then .kwFrom
  else if s = "as" then .kwAs else if s = "class" then .kwClass
  else if s = "pass" then .kwPass else if s = "break" then .kwBreak
  else if s = "continue" then .kwContinue else if s = "not" then .kwNot
  else if s = "and" then .kwAnd else if s = "or" then .kwOr
  else if s = "True" then .kwTrue else if s = "False" then .kwFalse
  else if s = "None" then .kwNone else if s = "with" then .kwWith
  else .identifier

/-- Identifier-tail loop of `Lexer.parse_identifier`. -/
def identLoopF (fuel : Nat) (st : LexState) (acc : List Char) : List Char × LexState :=
  match fuel with
  | 0 => (acc, st)
  | fuel + 1 =>
    if pyIsAlnum (peekc st) || peekc st = '_' then
      identLoopF fuel (advancec st).2 (acc ++ [peekc st])
    else (acc, st)

def identLoop (st : LexState) (acc : List Char) : List Char × LexState :=
  identLoopF st.rest.length st acc

/-- `Lexer.parse_identifier`. -/
def parseIdentifier (st : LexState) : Token × LexState :=
  let startCol := st.col
  let (first, st1) :=
    if pyIsAlpha (peekc st) || peekc st = '_' then ([peekc st], (advancec st).2)
    else ([], st)
  let (cs, st2) := identLoop st1 first
  let name := String.mk cs
  (⟨kwLookup name, .str name, st2.line, startCol⟩, st2)

end PyC

namespace PyC

/-- Hex digit value as accepted by Python's `int(_, 16)`. -/
def hexDigitVal (c : Char) : Option Nat :=
  if '0' ≤ c ∧ c ≤ '9' then some (c.toNat - '0'.toNat)
  else if 'a' ≤ c ∧ c ≤ 'f' then some (c.toNat - 'a'.toNat + 10)
  else if 'A' ≤ c ∧ c ≤ 'F' then some (c.toNat - 'A'.toNat + 10)
  else Option.none

/-- `int(hex_code, 16)`; `Option.none` models the `ValueError` raised on a
non-hex alphanumeric. -/
def hexVal (cs : List Char) : Option Nat :=
  cs.foldl (fun acc c =>
    match acc, hexDigitVal c with
    | some a, some v => some (a * 16 + v)
    | _, _ => Option.none) (some 0)

/-- The bounded `for _ in range(4)` loop collecting unicode-escape digits
(breaks early at a non-alphanumeric). -/
def hexCollect : Nat → LexState → List Char × LexState
  | 0, st => ([], st)
  | n + 1, st =>
    if pyIsAlnum (peekc st) then
      let (c, st1) := advancec st
      let (cs, st2) := hexCollect n st1
      (c :: cs, st2)
    else ([], st)

/-- `Lexer.parse_escape_sequence`. -/
def parseEscape (st : LexState) : Except LexErr (Char × LexState) :=
  let st1 := (advancec st).2
  let c := peekc st1
  if c = 'n' then .ok ('\n', (advancec st1).2)
  else if c = 't' then .ok ('\t', (advancec st1).2)
  else if c = 'r' then .ok ('\r', (advancec st1).2)
  else if c = '\\' then .ok ('\\', (advancec st1).2)
  else if c = '\'' then .ok ('\'', (advancec st1).2)
  else if c = '"' then .ok ('"', (advancec st1).2)
  else if c = 'u' then
    if (hexCollect 4 (advancec st1).2).1.length ≠ 4 then .error .badUnicode
    else
      match hexVal (hexCollect 4 (advancec st1).2).1 with
      | some v => .ok (Char.ofNat v, (hexCollect 4 (advancec st1).2).2)
      | Option.none => .error .valueError
  else .error .badEscape

theorem advancec_rest_tail (st : LexState) : (advancec st).2.rest = st.rest.tail := by
  rcases st with ⟨_ | ⟨c, r⟩, line, col, ind, als⟩
  · rfl
  · simp only [advancec]
    split <;> rfl

theorem advancec_rest_length_le (st : LexState) :
    (advancec st).2.rest.length ≤ st.rest.length := by
  rw [advancec_rest_tail]
  cases st.rest <;> simp

theorem hexCollect_rest_length_le (n : Nat) (st : LexState) :
    (hexCollect n st).2.rest.length ≤ st.rest.length := by
  induction n generalizing st with
  | zero => simp [hexCollect]
  | succ n ih =>
    rw [hexCollect]
    split
    · refine le_trans ?_ (advancec_rest_length_le st)
      exact ih (advancec st).2
    · simp

theorem parseEscape_rest_lt {st : LexState} {c : Char} {st' : LexState}
    (h : parseEscape st = .ok (c, st')) : st'.rest.length < st.rest.length := by
  rcases hr : st.rest with _ | ⟨b, r⟩
  · exfalso
    have h1 : (advancec st).2 = st := by
      rcases st with ⟨rest, line, col, ind, als⟩
      simp only at hr
      subst hr
      rfl
    rw [parseEscape] at h
    rw [h1] at h
    have hp : peekc st = '\x00' := by simp [peekc, hr]
    rw [hp] at h
    simp at h
  · have hlen : st.rest.length = r.length + 1 := by rw [hr]; rfl
    have h1 : (advancec st).2.rest = r := by rw [advancec_rest_tail, hr]; rfl
    have hle1 : (advancec (advancec st).2).2.rest.length ≤ r.length := by
      rw [advancec_rest_tail, h1]
      cases r <;> simp
    rw [parseEscape] at h
    split at h
    · cases h; simp only [List.length_cons]; omega
    · split at h
      · cases h; simp only [List.length_cons]; omega
      · split at h
        · cases h; simp only [List.length_cons]; omega
        · split at h
          · cases h; simp only [List.length_cons]; omega
          · split at h
            · cases h; simp only [List.length_cons]; omega
            · split at h
              · cases h; simp only [List.length_cons]; omega
              · split at h
                · -- unicode branch
                  split at h
                  · cases h
                  · split at h
                    · cases h
                      have h3 := hexCollect_rest_length_le 4 (advancec (advancec st).2).2
                      simp only [List.length_cons]
                      omega
                    · cases h
                · cases h

/-- End-of-scan test of the `while True` loop in `Lexer.parse_string`:
closing quote(s) seen, or the terminator the post-loop check turns into an
unterminated-string error. -/
def strBreak (q : Char) (isTriple : Bool) (st : LexState) : Bool :=
  if !isTriple then peekc st = q || peekc st = '\x00' || peekc st = '\n'
  else
    (peekc st = q && peekNext st = q &&
      (match peek2 st with | some c => c = q | Option.none => false)) ||
    peekc st = '\x00'

theorem strBreak_of_peek_nul (q : Char) (isTriple : Bool) (st : LexState)
    (h : peekc st = '\x00') : strBreak q isTriple st = true := by
  cases isTriple <;> simp [strBreak, h]

/-- Body loop of `Lexer.parse_string` (the `while True` scan).  When the
fuel hits zero the input is exhausted (each iteration consumes at least
one character) and the loop exit below coincides with the break on
`'\x00'`. -/
def scanStr (fuel : Nat) (q : Char) (isTriple : Bool) (st : LexState) (acc : List Char) :
    Except LexErr (List Char × LexState) :=
  match fuel with
  | 0 => .ok (acc, st)
  | fuel + 1 =>
    if strBreak q isTriple st then .ok (acc, st)
    else if peekc st = '\\' then
      match parseEscape st with
      | .error e => .error e
      | .ok (c, st') => scanStr fuel q isTriple st' (acc ++ [c])
    else
      scanStr fuel q isTriple (advancec st).2 (acc ++ [peekc st])

/-- `Lexer.parse_string`.  (The computed `is_f_string` flag is discarded:
the source never stores it in the produced token.) -/
def parseString (st : LexState) : Except LexErr (Token × LexState) :=
  let startCol := st.col
  let st1 := if peekc st = 'f' || peekc st = 'F' then (advancec st).2 else st
  let (q, st2) := advancec st1
  let isTriple : Bool := peekc st2 = q && peekNext st2 = q
  let st3 := if isTriple then (advancec (advancec st2).2).2 else st2
  match scanStr st3.rest.length q isTriple st3 [] with
  | .error e => .error e
  | .ok (cs, st4) =>
    if peekc st4 = '\x00' || (!isTriple && peekc st4 = '\n') then
      .error .unterminated
    else
      let st5 := if !isTriple then (advancec st4).2
                 else (advancec (advancec (advancec st4).2).2).2
      .ok (⟨.strLit, .str (String.mk cs), st5.line, startCol⟩, st5)

end PyC

namespace PyC

/-- One- and two-character consumption helpers used by the operator arms
of `Lexer.tokenize` (each `self.advance()` call in sequence). -/
def adv1 (st : LexState) : LexState := (advancec st).2

def adv2 (st : LexState) : LexState := (advancec (advancec st).2).2

/-- The operator / punctuation arm of the scan loop (`Lexer.tokenize`,
the cascade of two- and one-character operator checks ending in the
single-character punctuation table and the unknown-character error). -/
def opDispatch (st1 : LexState) : Except LexErr (Option Token × LexState) :=
  let c := peekc st1
  let startCol := st1.col
  if c = '+' then
    if peekNext st1 = '=' then
      Except.ok (some (⟨.plusAssign, .str "+=", st1.line, startCol⟩ : Token), adv2 st1)
    else .ok (some ⟨.plus, .str "+", st1.line, startCol⟩, adv1 st1)
  else if c = '-' then
    if peekNext st1 = '=' then
      .ok (some ⟨.minusAssign, .str "-=", st1.line, startCol⟩, adv2 st1)
    else .ok (some ⟨.minus, .str "-", st1.line, startCol⟩, adv1 st1)
  else if c = '*' then
    if peekNext st1 = '*' then
      .ok (some ⟨.power, .str "**", st1.line, startCol⟩, adv2 st1)
    else if peekNext st1 = '=' then
      .ok (some ⟨.mulAssign, .str "*=", st1.line, startCol⟩, adv2 st1)
    else .ok (some ⟨.mul, .str "*", st1.line, startCol⟩, adv1 st1)
  else if c = '/' then
    if peekNext st1 = '=' then
      .ok (some ⟨.divAssign, .str "/=", st1.line, startCol⟩, adv2 st1)
    else if peekNext st1 = '/' then
      -- `//` maps to the same DIV kind as `/`
      .ok (some ⟨.div, .str "//", st1.line, startCol⟩, adv2 st1)
    else .ok (some ⟨.div, .str "/", st1.line, startCol⟩, adv1 st1)
  else if c = '%' then
    .ok (some ⟨.mod, .str "%", st1.line, startCol⟩, adv1 st1)
  else if c = '=' then
    if peekNext st1 = '=' then
      .ok (some ⟨.eqq, .str "==", st1.line, startCol⟩, adv2 st1)
    else .ok (some ⟨.assign, .str "=", st1.line, startCol⟩, adv1 st1)
  else if c = '!' then
    if peekNext st1 = '=' then
      .ok (some ⟨.neq, .str "!=", st1.line, startCol⟩, adv2 st1)
    else .error .badBang
  else if c = '<' then
    if peekNext st1 = '=' then
      .ok (some ⟨.lte, .str "<=", st1.line, startCol⟩, adv2 st1)
    else .ok (some ⟨.lt, .str "<", st1.line, startCol⟩, adv1 st1)
  else if c = '>' then
    if peekNext st1 = '=' then
      .ok (some ⟨.gte, .str ">=", st1.line, startCol⟩, adv2 st1)
    else .ok (some ⟨.gt, .str ">", st1.line, startCol⟩, adv1 st1)
  else
    -- single-character punctuation (or unknown character)
    let pk : Option TokKind :=
      if c = '.' then some .dot
      else if c = ',' then some .comma
      else if c = ':' then some .colon
      else if c = ';' then some .semicolon
      else if c = '(' then some .lparen
      else if c = ')' then some .rparen
      else if c = '[' then some .lbrack
      else if c = ']' then some .rbrack
      else if c = '{' then some .lbrace
      else if c = '}' then some .rbrace
      else Option.none
    match pk with
    | some k => .ok (some ⟨k, .str (String.mk [c]), st1.line, startCol⟩, adv1 st1)
    | Option.none => .error .unknownChar

/-- The main scanning loop of `Lexer.tokenize` (`while self.position <
len(self.source)`), with fuel for termination; each iteration consumes at
least one character, so the fuel supplied by `tokenize` never runs out. -/
def tokenizeLoop (fuel : Nat) (st : LexState) : Except LexErr (List Token × LexState) :=
  match fuel with
  | 0 => .error .fuel
  | fuel + 1 =>
    if st.rest = [] then .ok ([], st)
    else do
      let (itoks, st1) ← if st.atLineStart then handleIndentation st else .ok ([], st)
      let c := peekc st1
      if c = '\x00' then .ok (itoks, st1)
      else
        let startCol := st1.col
        if c = '#' then do
          let (ts, st') ← tokenizeLoop fuel (skipComment st1)
          .ok (itoks ++ ts, st')
        else if c = '\n' then do
          let tok : Token := ⟨.newline, .str "\\n", st1.line, startCol⟩
          let st2 := adv1 st1
          let (ts, st') ← tokenizeLoop fuel ⟨st2.rest, st2.line, st2.col, st2.indentLevels, true⟩
          .ok (itoks ++ tok :: ts, st')
        else if !st1.atLineStart && pyIsSpace c then do
          let (ts, st') ← tokenizeLoop fuel (skipWhitespace st1)
          .ok (itoks ++ ts, st')
        else if st1.atLineStart then do
          -- dead in practice: the indentation handler above cleared at_line_start
          let (itoks2, st2) ← handleIndentation st1
          let (ts, st') ← tokenizeLoop fuel st2
          .ok (itoks ++ itoks2 ++ ts, st')
        else if pyIsDigit c then do
          let (tok, st2) := parseNumber st1
          let (ts, st') ← tokenizeLoop fuel st2
          .ok (itoks ++ tok :: ts, st')
        else if pyIsAlpha c || c = '_' then do
          let (tok, st2) := parseIdentifier st1
          let (ts, st') ← tokenizeLoop fuel st2
          .ok (itoks ++ tok :: ts, st')
        else if c = '"' || c = '\'' ||
            ((c = 'f' || c = 'F') && (peekNext st1 = '"' || peekNext st1 = '\'')) then do
          let (tok, st2) ← parseString st1
          let (ts, st') ← tokenizeLoop fuel st2
          .ok (itoks ++ tok :: ts, st')
        else do
          let (tok?, st2) ← opDispatch st1
          let (ts, st') ← tokenizeLoop fuel st2
          match tok? with
          | some tok => .ok (itoks ++ tok :: ts, st')
          | Option.none => .ok (itoks ++ ts, st')

/-- `Lexer.tokenize`: run the scan loop, then close all still-open
indentation levels with DEDENTs and emit the final END token. -/
def tokenize (src : String) : Except LexErr (List Token) :=
  match tokenizeLoop (src.data.length + 2) ⟨src.data, 1, 1, [0], true⟩ with
  | .error e => .error e
  | .ok (toks, st) =>
    .ok (toks ++
      List.replicate (st.indentLevels.length - 1) ⟨.dedent, .str "", st.line, st.col⟩ ++
      [⟨.endTok, .str "", st.line, st.col⟩])

end PyC

namespace PyC

/-- AST nodes from `parser/ast_nodes.py`, as one closed variant (the
Python classes share the `ASTNode` base and flow through untyped fields).
`nix` stands for a Python `None` stored in an AST field (absent default
value, absent return value, the absent right operand of `not`). -/
inductive Ast where
  | intLit (v : PyVal)
  | floatLit (v : PyVal)
  | strLit (v : PyVal) (isF : Bool)
  | boolLit (b : Bool)
  | noneLit
  | ident (name : String)
  | binop (op : String) (left right : Ast)
  | assign (target value : Ast)
  | fncall (callee : Ast) (args : List Ast) (kwargs : List (String × Ast))
  | attr (value : Ast) (a : String)
  | subscript (value index : Ast)
  | listlit (elems : List Ast)
  | dictlit (items : List (Ast × Ast))
  | param (name : String) (default : Ast)
  | fndef (name : String) (params : List Ast) (body : List Ast)
  | classdef (name : String) (bases : List Ast) (body : List Ast)
  | ifS (cond : Ast) (thenB elseB : List Ast)
  | whileS (cond : Ast) (body : List Ast)
  | forS (target iter : Ast) (body : List Ast)
  | ret (value : Ast)
  | importS (modl aliasN : String)
  | fromImport (modl : String) (imports : List (String × String))
  | passS
  | breakS
  | continueS
  | nix
deriving Repr

/-- Rendering of a token value into the string fields of AST nodes.  The
lexer stores a `.str` in every identifier and string token, so on every
token list the lexer can produce this is the identity on the stored
string; the other arms only make the function total. -/
def valStr : PyVal → String
  | .str s => s
  | .int n => Nat.repr n
  | .float r => r
  | .bool b => if b then "True" else "False"
  | .none => "None"

/-- Parser failure: `SyntaxError`s raised by `parser.py`, the
`AttributeError` from calling `.type` on `peek() = None`, plus the fuel
artifact of the embedding.  `rest` is the token cursor at the raise
point (Python keeps `self.current` where the exception was thrown, and
`synchronize` resumes from there). -/
inductive PErrKind where
  | expected
  | unexpected
  | noneType
  | fuel
deriving Repr, DecidableEq

structure PErr where
  kind : PErrKind
  rest : List Token
deriving Repr, DecidableEq

/-- `Parser.expect`. -/
def expectTok (k : TokKind) (ts : List Token) : Except PErr (Token × List Token) :=
  match ts with
  | t :: r => if t.kind = k then .ok (t, r) else .error ⟨.expected, ts⟩
  | [] => .error ⟨.expected, []⟩

/-- `Parser.match` on a single kind (returns `none` and consumes nothing
when the head differs or the stream is exhausted). -/
def matchTok (k : TokKind) (ts : List Token) : Option (Token × List Token) :=
  match ts with
  | t :: r => if t.kind = k then some (t, r) else Option.none
  | [] => Option.none

/-- `self.advance()` used blindly to consume a known leading token. -/
def dropTok (ts : List Token) : List Token := ts.tail

/-- Head kind of the token stream, if any (`self.peek()`). -/
def peekKind (ts : List Token) : Option TokKind :=
  match ts with
  | t :: _ => some t.kind
  | [] => Option.none

/-- Keyword-argument map update (`kwargs[name] = value` on a Python dict:
replace an existing key in place, else append preserving order). -/
def dictInsert (l : List (String × Ast)) (k : String) (v : Ast) : List (String × Ast) :=
  match l with
  | [] => [(k, v)]
  | (k', v') :: r => if k' = k then (k, v) :: r else (k', v') :: dictInsert r k v

/-- `Parser.synchronize`: advance to the next NEWLINE/SEMICOLON/END and
skip the NEWLINE/SEMICOLON. -/
def synchronize (ts : List Token) : List Token :=
  match ts with
  | [] => []
  | t :: r =>
    if t.kind = .newline ∨ t.kind = .semicolon then r
    else if t.kind = .endTok then t :: r
    else synchronize r

end PyC

namespace PyC

/-- `self.match(k)` used for its side effect only. -/
def optMatch (k : TokKind) (ts : List Token) : List Token :=
  match matchTok k ts with
  | some (_, r) => r
  | Option.none => ts

/-- The keyword-argument test in `Parser.finish_identifier`:
`isinstance(arg, BinaryOpNode) and arg.op == "=" and
isinstance(arg.left, IdentifierNode)` routes the argument to the keyword
map, anything else to the positional list. -/
def classifyArg (arg : Ast) (args : List Ast) (kwargs : List (String × Ast)) :
    List Ast × List (String × Ast) :=
  match arg with
  | .binop "=" (.ident n) r => (args, dictInsert kwargs n r)
  | _ => (args ++ [arg], kwargs)

mutual

/-- `Parser.parse_statement`. -/
def parseStatement (fuel : Nat) (ts : List Token) :
    Except PErr (Option Ast × List Token) :=
  match fuel with
  | 0 => .error ⟨.fuel, ts⟩
  | fuel + 1 =>
    match ts with
    | [] => .error ⟨.noneType, []⟩
    | t :: _ =>
      if t.kind = .kwDef then do
        let (n, ts') ← parseFunctionDef fuel ts
        .ok (some n, ts')
      else if t.kind = .kwClass then do
        let (n, ts') ← parseClassDef fuel ts
        .ok (some n, ts')
      else if t.kind = .kwIf then do
        let (n, ts') ← parseIfStatement fuel ts
        .ok (some n, ts')
      else if t.kind = .kwWhile then do
        let (n, ts') ← parseWhileLoop fuel ts
        .ok (some n, ts')
      else if t.kind = .kwFor then do
        let (n, ts') ← parseForLoop fuel ts
        .ok (some n, ts')
      else if t.kind = .kwReturn then do
        let (n, ts') ← parseReturn fuel ts
        .ok (some n, ts')
      else if t.kind = .kwImport then do
        let (n, ts') ← parseImport fuel ts
        .ok (some n, ts')
      else if t.kind = .kwFrom then do
        let (n, ts') ← parseFromImport fuel ts
        .ok (some n, ts')
      else if t.kind = .kwPass then
        .ok (some .passS, optMatch .newline (dropTok ts))
      else if t.kind = .kwBreak then
        .ok (some .breakS, optMatch .newline (dropTok ts))
      else if t.kind = .kwContinue then
        .ok (some .continueS, optMatch .newline (dropTok ts))
      else if t.kind = .newline then
        .ok (Option.none, dropTok ts)
      else do
        let (e, ts') ← parseExpression fuel ts
        .ok (some e, optMatch .newline ts')

/-- `Parser.parse_block`. -/
def parseBlock (fuel : Nat) (ts : List Token) :
    Except PErr (List Ast × List Token) :=
  match fuel with
  | 0 => .error ⟨.fuel, ts⟩
  | fuel + 1 => do
    let (_, ts1) ← expectTok .colon ts
    let ts2 := optMatch .newline ts1
    match matchTok .indent ts2 with
    | Option.none => do
      -- single-line block like `if x: pass`
      let (s?, ts3) ← parseStatement fuel ts2
      .ok ((match s? with | some s => [s] | Option.none => []), ts3)
    | some (_, ts3) => do
      let (stmts, ts4) ← parseBlockLoop fuel ts3 []
      .ok (stmts, optMatch .dedent ts4)

/-- Statement loop of `Parser.parse_block` (until DEDENT or exhaustion). -/
def parseBlockLoop (fuel : Nat) (ts : List Token) (acc : List Ast) :
    Except PErr (List Ast × List Token) :=
  match fuel with
  | 0 => .error ⟨.fuel, ts⟩
  | fuel + 1 =>
    match ts with
    | [] => .ok (acc, [])
    | t :: _ =>
      if t.kind = .dedent then .ok (acc, ts)
      else do
        let (s?, ts1) ← parseStatement fuel ts
        parseBlockLoop fuel ts1 (acc ++ (match s? with | some s => [s] | Option.none => []))

/-- `Parser.parse_function_def`. -/
def parseFunctionDef (fuel : Nat) (ts : List Token) :
    Except PErr (Ast × List Token) :=
  match fuel with
  | 0 => .error ⟨.fuel, ts⟩
  | fuel + 1 => do
    let ts0 := dropTok ts
    let (nameTok, ts1) ← expectTok .identifier ts0
    let (_, ts2) ← expectTok .lparen ts1
    let (params, ts3) ← parseParameters fuel ts2
    let (_, ts4) ← expectTok .rparen ts3
    let (body, ts5) ← parseBlock fuel ts4
    .ok (.fndef (valStr nameTok.val) params body, ts5)

/-- `Parser.parse_parameters`. -/
def parseParameters (fuel : Nat) (ts : List Token) :
    Except PErr (List Ast × List Token) :=
  match fuel with
  | 0 => .error ⟨.fuel, ts⟩
  | fuel + 1 =>
    match peekKind ts with
    | Option.none => .error ⟨.noneType, ts⟩
    | some k =>
      if k = .rparen then .ok ([], ts)
      else do
        let (p, ts1) ← parseParameter fuel ts
        parseParamLoop fuel ts1 [p]

/-- Comma loop of `Parser.parse_parameters`. -/
def parseParamLoop (fuel : Nat) (ts : List Token) (acc : List Ast) :
    Except PErr (List Ast × List Token) :=
  match fuel with
  | 0 => .error ⟨.fuel, ts⟩
  | fuel + 1 =>
    match matchTok .comma ts with
    | Option.none => .ok (acc, ts)
    | some (_, ts1) => do
      let (p, ts2) ← parseParameter fuel ts1
      parseParamLoop fuel ts2 (acc ++ [p])

/-- `Parser.parse_parameter`. -/
def parseParameter (fuel : Nat) (ts : List Token) :
    Except PErr (Ast × List Token) :=
  match fuel with
  | 0 => .error ⟨.fuel, ts⟩
  | fuel + 1 => do
    let (nameTok, ts1) ← expectTok .identifier ts
    match matchTok .assign ts1 with
    | some (_, ts2) => do
      let (d, ts3) ← parseExpression fuel ts2
      .ok (.param (valStr nameTok.val) d, ts3)
    | Option.none => .ok (.param (valStr nameTok.val) .nix, ts1)

/-- `Parser.parse_class_def`. -/
def parseClassDef (fuel : Nat) (ts : List Token) :
    Except PErr (Ast × List Token) :=
  match fuel with
  | 0 => .error ⟨.fuel, ts⟩
  | fuel + 1 => do
    let ts0 := dropTok ts
    let (nameTok, ts1) ← expectTok .identifier ts0
    let (bases, ts2) ←
      match matchTok .lparen ts1 with
      | Option.none => Except.ok (([] : List Ast), ts1)
      | some (_, tsA) =>
        match peekKind tsA with
        | Option.none => Except.error ⟨.noneType, tsA⟩
        | some k => do
          let (bs, tsB) ←
            if k = .rparen then Except.ok (([] : List Ast), tsA)
            else do
              let (b, ts') ← parseExpression fuel tsA
              parseBasesLoop fuel ts' [b]
          let (_, tsC) ← expectTok .rparen tsB
          Except.ok (bs, tsC)
    let (body, ts3) ← parseBlock fuel ts2
    .ok (.classdef (valStr nameTok.val) bases body, ts3)

/-- Comma loop of the base-class list in `Parser.parse_class_def`. -/
def parseBasesLoop (fuel : Nat) (ts : List Token) (acc : List Ast) :
    Except PErr (List Ast × List Token) :=
  match fuel with
  | 0 => .error ⟨.fuel, ts⟩
  | fuel + 1 =>
    match matchTok .comma ts with
    | Option.none => .ok (acc, ts)
    | some (_, ts1) => do
      let (b, ts2) ← parseExpression fuel ts1
      parseBasesLoop fuel ts2 (acc ++ [b])

/-- `Parser.parse_if_statement`.  Note the unconditional `self.advance()`
at entry: when re-entered on a trailing `else`, the `else` token itself is
consumed as if it were `if`. -/
def parseIfStatement (fuel : Nat) (ts : List Token) :
    Except PErr (Ast × List Token) :=
  match fuel with
  | 0 => .error ⟨.fuel, ts⟩
  | fuel + 1 => do
    let ts0 := dropTok ts
    let (cond, ts1) ← parseExpression fuel ts0
    let (thenB, ts2) ← parseBlock fuel ts1
    match matchTok .kwElse ts2 with
    | some (_, ts3) => do
      let (elseB, ts4) ← parseBlock fuel ts3
      .ok (.ifS cond thenB elseB, ts4)
    | Option.none =>
      match matchTok .kwElif ts2 with
      | some (_, ts3) => do
        let (cond2, ts4) ← parseExpression fuel ts3
        let (then2, ts5) ← parseBlock fuel ts4
        let (else2, ts6) ←
          match peekKind ts5 with
          | some .kwElif => do
            let (s, ts') ← parseIfStatement fuel ts5
            Except.ok ([s], ts')
          | some .kwElse => do
            let (s, ts') ← parseIfStatement fuel ts5
            Except.ok ([s], ts')
          | _ => Except.ok (([] : List Ast), ts5)
        .ok (.ifS cond thenB [.ifS cond2 then2 else2], ts6)
      | Option.none => .ok (.ifS cond thenB [], ts2)

/-- `Parser.parse_while_loop`. -/
def parseWhileLoop (fuel : Nat) (ts : List Token) :
    Except PErr (Ast × List Token) :=
  match fuel with
  | 0 => .error ⟨.fuel, ts⟩
  | fuel + 1 => do
    let (cond, ts1) ← parseExpression fuel (dropTok ts)
    let (body, ts2) ← parseBlock fuel ts1
    .ok (.whileS cond body, ts2)

/-- `Parser.parse_for_loop`. -/
def parseForLoop (fuel : Nat) (ts : List Token) :
    Except PErr (Ast × List Token) :=
  match fuel with
  | 0 => .error ⟨.fuel, ts⟩
  | fuel + 1 => do
    let (target, ts1) ← parseExpression fuel (dropTok ts)
    let (_, ts2) ← expectTok .kwIn ts1
    let (iter, ts3) ← parseExpression fuel ts2
    let (body, ts4) ← parseBlock fuel ts3
    .ok (.forS target iter body, ts4)

/-- `Parser.parse_return`. -/
def parseReturn (fuel : Nat) (ts : List Token) :
    Except PErr (Ast × List Token) :=
  match fuel with
  | 0 => .error ⟨.fuel, ts⟩
  | fuel + 1 => do
    let ts0 := dropTok ts
    match peekKind ts0 with
    | Option.none => .error ⟨.noneType, ts0⟩
    | some k => do
      let (value, ts1) ←
        if k ≠ .newline ∧ k ≠ .semicolon then parseExpression fuel ts0
        else Except.ok (Ast.nix, ts0)
      .ok (.ret value, optMatch .newline ts1)

/-- `Parser.parse_import`. -/
def parseImport (fuel : Nat) (ts : List Token) :
    Except PErr (Ast × List Token) :=
  match fuel with
  | 0 => .error ⟨.fuel, ts⟩
  | fuel + 1 => do
    let (modTok, ts1) ← expectTok .identifier (dropTok ts)
    match matchTok .kwAs ts1 with
    | some (_, ts2) => do
      let (aTok, ts3) ← expectTok .identifier ts2
      .ok (.importS (valStr modTok.val) (valStr aTok.val), optMatch .newline ts3)
    | Option.none =>
      .ok (.importS (valStr modTok.val) "", optMatch .newline ts1)

/-- `Parser.parse_from_import`. -/
def parseFromImport (fuel : Nat) (ts : List Token) :
    Except PErr (Ast × List Token) :=
  match fuel with
  | 0 => .error ⟨.fuel, ts⟩
  | fuel + 1 => do
    let (modTok, ts1) ← expectTok .identifier (dropTok ts)
    let (_, ts2) ← expectTok .kwImport ts1
    match matchTok .mul ts2 with
    | some (_, ts3) =>
      .ok (.fromImport (valStr modTok.val) [("*", "")], optMatch .newline ts3)
    | Option.none => do
      let (nTok, ts3) ← expectTok .identifier ts2
      let (a, ts4) ←
        match matchTok .kwAs ts3 with
        | some (_, ts') => do
          let (aTok, ts'') ← expectTok .identifier ts'
          Except.ok (valStr aTok.val, ts'')
        | Option.none => Except.ok ("", ts3)
      let (imports, ts5) ← parseFromLoop fuel ts4 [(valStr nTok.val, a)]
      .ok (.fromImport (valStr modTok.val) imports, optMatch .newline ts5)

/-- Comma loop of `Parser.parse_from_import`. -/
def parseFromLoop (fuel : Nat) (ts : List Token) (acc : List (String × String)) :
    Except PErr (List (String × String) × List Token) :=
  match fuel with
  | 0 => .error ⟨.fuel, ts⟩
  | fuel + 1 =>
    match matchTok .comma ts with
    | Option.none => .ok (acc, ts)
    | some (_, ts1) => do
      let (nTok, ts2) ← expectTok .identifier ts1
      let (a, ts3) ←
        match matchTok .kwAs ts2 with
        | some (_, ts') => do
          let (aTok, ts'') ← expectTok .identifier ts'
          Except.ok (valStr aTok.val, ts'')
        | Option.none => Except.ok ("", ts2)
      parseFromLoop fuel ts3 (acc ++ [(valStr nTok.val, a)])

/-- `Parser.parse_expression` (assignment level, incl. the compound
assignment desugaring). -/
def parseExpression (fuel : Nat) (ts : List Token) :
    Except PErr (Ast × List Token) :=
  match fuel with
  | 0 => .error ⟨.fuel, ts⟩
  | fuel + 1 => do
    let (expr, ts1) ← parseLogicalOr fuel ts
    match matchTok .assign ts1 with
    | some (_, ts2) => do
      let (v, ts3) ← parseExpression fuel ts2
      .ok (.assign expr v, ts3)
    | Option.none =>
      match matchTok .plusAssign ts1 with
      | some (_, ts2) => do
        let (v, ts3) ← parseExpression fuel ts2
        .ok (.assign expr (.binop "+" expr v), ts3)
      | Option.none =>
        match matchTok .minusAssign ts1 with
        | some (_, ts2) => do
          let (v, ts3) ← parseExpression fuel ts2
          .ok (.assign expr (.binop "-" expr v), ts3)
        | Option.none =>
          match matchTok .mulAssign ts1 with
          | some (_, ts2) => do
            let (v, ts3) ← parseExpression fuel ts2
            .ok (.assign expr (.binop "*" expr v), ts3)
          | Option.none =>
            match matchTok .divAssign ts1 with
            | some (_, ts2) => do
              let (v, ts3) ← parseExpression fuel ts2
              .ok (.assign expr (.binop "/" expr v), ts3)
            | Option.none => .ok (expr, ts1)

/-- `Parser.parse_logical_or`. -/
def parseLogicalOr (fuel : Nat) (ts : List Token) :
    Except PErr (Ast × List Token) :=
  match fuel with
  | 0 => .error ⟨.fuel, ts⟩
  | fuel + 1 => do
    let (expr, ts1) ← parseLogicalAnd fuel ts
    parseOrLoop fuel expr ts1

def parseOrLoop (fuel : Nat) (expr : Ast) (ts : List Token) :
    Except PErr (Ast × List Token) :=
  match fuel with
  | 0 => .error ⟨.fuel, ts⟩
  | fuel + 1 =>
    match matchTok .kwOr ts with
    | Option.none => .ok (expr, ts)
    | some (_, ts1) => do
      let (right, ts2) ← parseLogicalAnd fuel ts1
      parseOrLoop fuel (.binop "or" expr right) ts2

/-- `Parser.parse_logical_and`. -/
def parseLogicalAnd (fuel : Nat) (ts : List Token) :
    Except PErr (Ast × List Token) :=
  match fuel with
  | 0 => .error ⟨.fuel, ts⟩
  | fuel + 1 => do
    let (expr, ts1) ← parseEquality fuel ts
    parseAndLoop fuel expr ts1

def parseAndLoop (fuel : Nat) (expr : Ast) (ts : List Token) :
    Except PErr (Ast × List Token) :=
  match fuel with
  | 0 => .error ⟨.fuel, ts⟩
  | fuel + 1 =>
    match matchTok .kwAnd ts with
    | Option.none => .ok (expr, ts)
    | some (_, ts1) => do
      let (right, ts2) ← parseEquality fuel ts1
      parseAndLoop fuel (.binop "and" expr right) ts2

/-- `Parser.parse_equality`. -/
def parseEquality (fuel : Nat) (ts : List Token) :
    Except PErr (Ast × List Token) :=
  match fuel with
  | 0 => .error ⟨.fuel, ts⟩
  | fuel + 1 => do
    let (expr, ts1) ← parseComparison fuel ts
    parseEqLoop fuel expr ts1

def parseEqLoop (fuel : Nat) (expr : Ast) (ts : List Token) :
    Except PErr (Ast × List Token) :=
  match fuel with
  | 0 => .error ⟨.fuel, ts⟩
  | fuel + 1 =>
    match matchTok .eqq ts with
    | some (_, ts1) => do
      let (right, ts2) ← parseComparison fuel ts1
      parseEqLoop fuel (.binop "==" expr right) ts2
    | Option.none =>
      match matchTok .neq ts with
      | some (_, ts1) => do
        let (right, ts2) ← parseComparison fuel ts1
        parseEqLoop fuel (.binop "!=" expr right) ts2
      | Option.none => .ok (expr, ts)

/-- `Parser.parse_comparison`. -/
def parseComparison (fuel : Nat) (ts : List Token) :
    Except PErr (Ast × List Token) :=
  match fuel with
  | 0 => .error ⟨.fuel, ts⟩
  | fuel + 1 => do
    let (expr, ts1) ← parseTerm fuel ts
    parseCompLoop fuel expr ts1

def parseCompLoop (fuel : Nat) (expr : Ast) (ts : List Token) :
    Except PErr (Ast × List Token) :=
  match fuel with
  | 0 => .error ⟨.fuel, ts⟩
  | fuel + 1 =>
    match matchTok .lt ts with
    | some (_, ts1) => do
      let (right, ts2) ← parseTerm fuel ts1
      parseCompLoop fuel (.binop "<" expr right) ts2
    | Option.none =>
      match matchTok .gt ts with
      | some (_, ts1) => do
        let (right, ts2) ← parseTerm fuel ts1
        parseCompLoop fuel (.binop ">" expr right) ts2
      | Option.none =>
        match matchTok .lte ts with
        | some (_, ts1) => do
          let (right, ts2) ← parseTerm fuel ts1
          parseCompLoop fuel (.binop "<=" expr right) ts2
        | Option.none =>
          match matchTok .gte ts with
          | some (_, ts1) => do
            let (right, ts2) ← parseTerm fuel ts1
            parseCompLoop fuel (.binop ">=" expr right) ts2
          | Option.none => .ok (expr, ts)

/-- `Parser.parse_term`. -/
def parseTerm (fuel : Nat) (ts : List Token) :
    Except PErr (Ast × List Token) :=
  match fuel with
  | 0 => .error ⟨.fuel, ts⟩
  | fuel + 1 => do
    let (expr, ts1) ← parseFactor fuel ts
    parseTermLoop fuel expr ts1

def parseTermLoop (fuel : Nat) (expr : Ast) (ts : List Token) :
    Except PErr (Ast × List Token) :=
  match fuel with
  | 0 => .error ⟨.fuel, ts⟩
  | fuel + 1 =>
    match matchTok .plus ts with
    | some (_, ts1) => do
      let (right, ts2) ← parseFactor fuel ts1
      parseTermLoop fuel (.binop "+" expr right) ts2
    | Option.none =>
      match matchTok .minus ts with
      | some (_, ts1) => do
        let (right, ts2) ← parseFactor fuel ts1
        parseTermLoop fuel (.binop "-" expr right) ts2
      | Option.none => .ok (expr, ts)

/-- `Parser.parse_factor`. -/
def parseFactor (fuel : Nat) (ts : List Token) :
    Except PErr (Ast × List Token) :=
  match fuel with
  | 0 => .error ⟨.fuel, ts⟩
  | fuel + 1 => do
    let (expr, ts1) ← parseUnary fuel ts
    parseFactorLoop fuel expr ts1

def parseFactorLoop (fuel : Nat) (expr : Ast) (ts : List Token) :
    Except PErr (Ast × List Token) :=
  match fuel with
  | 0 => .error ⟨.fuel, ts⟩
  | fuel + 1 =>
    match matchTok .mul ts with
    | some (_, ts1) => do
      let (right, ts2) ← parseUnary fuel ts1
      parseFactorLoop fuel (.binop "*" expr right) ts2
    | Option.none =>
      match matchTok .div ts with
      | some (_, ts1) => do
        let (right, ts2) ← parseUnary fuel ts1
        parseFactorLoop fuel (.binop "/" expr right) ts2
      | Option.none =>
        match matchTok .mod ts with
        | some (_, ts1) => do
          let (right, ts2) ← parseUnary fuel ts1
          parseFactorLoop fuel (.binop "%" expr right) ts2
        | Option.none => .ok (expr, ts)

/-- `Parser.parse_unary`: `-x` desugars to `0 - x`; `not x` becomes a
`BinaryOp("not", x, None)` with no right operand. -/
def parseUnary (fuel : Nat) (ts : List Token) :
    Except PErr (Ast × List Token) :=
  match fuel with
  | 0 => .error ⟨.fuel, ts⟩
  | fuel + 1 =>
    match matchTok .minus ts with
    | some (_, ts1) => do
      let (right, ts2) ← parseUnary fuel ts1
      .ok (.binop "-" (.intLit (.int 0)) right, ts2)
    | Option.none =>
      match matchTok .kwNot ts with
      | some (_, ts1) => do
        let (right, ts2) ← parseUnary fuel ts1
        .ok (.binop "not" right .nix, ts2)
      | Option.none => parsePower fuel ts

/-- `Parser.parse_power` (right-associative `**`). -/
def parsePower (fuel : Nat) (ts : List Token) :
    Except PErr (Ast × List Token) :=
  match fuel with
  | 0 => .error ⟨.fuel, ts⟩
  | fuel + 1 => do
    let (expr, ts1) ← parsePrimary fuel ts
    parsePowerLoop fuel expr ts1

def parsePowerLoop (fuel : Nat) (expr : Ast) (ts : List Token) :
    Except PErr (Ast × List Token) :=
  match fuel with
  | 0 => .error ⟨.fuel, ts⟩
  | fuel + 1 =>
    match matchTok .power ts with
    | Option.none => .ok (expr, ts)
    | some (_, ts1) => do
      let (right, ts2) ← parseUnary fuel ts1
      parsePowerLoop fuel (.binop "**" expr right) ts2

/-- `Parser.parse_primary`. -/
def parsePrimary (fuel : Nat) (ts : List Token) :
    Except PErr (Ast × List Token) :=
  match fuel with
  | 0 => .error ⟨.fuel, ts⟩
  | fuel + 1 =>
    match ts with
    | [] => .error ⟨.unexpected, []⟩
    | t :: r =>
      if t.kind = .intLit then .ok (.intLit t.val, r)
      else if t.kind = .floatLit then .ok (.floatLit t.val, r)
      else if t.kind = .strLit then .ok (.strLit t.val false, r)
      else if t.kind = .kwTrue then .ok (.boolLit true, r)
      else if t.kind = .kwFalse then .ok (.boolLit false, r)
      else if t.kind = .kwNone then .ok (.noneLit, r)
      else if t.kind = .identifier then
        finishIdentifier fuel (.ident (valStr t.val)) r
      else if t.kind = .lparen then do
        let (e, ts1) ← parseExpression fuel r
        let (_, ts2) ← expectTok .rparen ts1
        .ok (e, ts2)
      else if t.kind = .lbrack then do
        let (elems, ts1) ←
          match peekKind r with
          | Option.none => Except.error ⟨.noneType, r⟩
          | some k =>
            if k = .rbrack then Except.ok (([] : List Ast), r)
            else do
              let (e, ts') ← parseExpression fuel r
              parseListLoop fuel ts' [e]
        let (_, ts2) ← expectTok .rbrack ts1
        .ok (.listlit elems, ts2)
      else if t.kind = .lbrace then do
        let (items, ts1) ←
          match peekKind r with
          | Option.none => Except.error ⟨.noneType, r⟩
          | some k =>
            if k = .rbrace then Except.ok (([] : List (Ast × Ast)), r)
            else do
              let (key, tsA) ← parseExpression fuel r
              let (_, tsB) ← expectTok .colon tsA
              let (v, tsC) ← parseExpression fuel tsB
              parseDictLoop fuel tsC [(key, v)]
        let (_, ts2) ← expectTok .rbrace ts1
        .ok (.dictlit items, ts2)
      else .error ⟨.unexpected, ts⟩

/-- Trailing-comma element loop of the list literal in `parse_primary`. -/
def parseListLoop (fuel : Nat) (ts : List Token) (acc : List Ast) :
    Except PErr (List Ast × List Token) :=
  match fuel with
  | 0 => .error ⟨.fuel, ts⟩
  | fuel + 1 =>
    match matchTok .comma ts with
    | Option.none => .ok (acc, ts)
    | some (_, ts1) =>
      match peekKind ts1 with
      | Option.none => .error ⟨.noneType, ts1⟩
      | some k =>
        if k = .rbrack then .ok (acc, ts1)
        else do
          let (e, ts2) ← parseExpression fuel ts1
          parseListLoop fuel ts2 (acc ++ [e])

/-- Trailing-comma item loop of the dict literal in `parse_primary`. -/
def parseDictLoop (fuel : Nat) (ts : List Token) (acc : List (Ast × Ast)) :
    Except PErr (List (Ast × Ast) × List Token) :=
  match fuel with
  | 0 => .error ⟨.fuel, ts⟩
  | fuel + 1 =>
    match matchTok .comma ts with
    | Option.none => .ok (acc, ts)
    | some (_, ts1) =>
      match peekKind ts1 with
      | Option.none => .error ⟨.noneType, ts1⟩
      | some k =>
        if k = .rbrace then .ok (acc, ts1)
        else do
          let (key, ts2) ← parseExpression fuel ts1
          let (_, ts3) ← expectTok .colon ts2
          let (v, ts4) ← parseExpression fuel ts3
          parseDictLoop fuel ts4 (acc ++ [(key, v)])

/-- `Parser.finish_identifier`: postfix chain of `.attr`, `(args)` and
`[index]`. -/
def finishIdentifier (fuel : Nat) (expr : Ast) (ts : List Token) :
    Except PErr (Ast × List Token) :=
  match fuel with
  | 0 => .error ⟨.fuel, ts⟩
  | fuel + 1 =>
    match matchTok .dot ts with
    | some (_, ts1) => do
      let (attrTok, ts2) ← expectTok .identifier ts1
      finishIdentifier fuel (.attr expr (valStr attrTok.val)) ts2
    | Option.none =>
      match matchTok .lparen ts with
      | some (_, ts1) => do
        let (args, kwargs, ts2) ←
          match peekKind ts1 with
          | Option.none => Except.error ⟨.noneType, ts1⟩
          | some k =>
            if k = .rparen then
              Except.ok (([] : List Ast), ([] : List (String × Ast)), ts1)
            else do
              let (arg, ts') ← parseExpression fuel ts1
              let (args0, kw0) := classifyArg arg [] []
              parseArgsLoop fuel ts' args0 kw0
        let (_, ts3) ← expectTok .rparen ts2
        finishIdentifier fuel (.fncall expr args kwargs) ts3
      | Option.none =>
        match matchTok .lbrack ts with
        | some (_, ts1) => do
          let (index, ts2) ← parseExpression fuel ts1
          let (_, ts3) ← expectTok .rbrack ts2
          finishIdentifier fuel (.subscript expr index) ts3
        | Option.none => .ok (expr, ts)

/-- Comma loop of the call-argument list in `finish_identifier`. -/
def parseArgsLoop (fuel : Nat) (ts : List Token) (args : List Ast)
    (kwargs : List (String × Ast)) :
    Except PErr (List Ast × List (String × Ast) × List Token) :=
  match fuel with
  | 0 => .error ⟨.fuel, ts⟩
  | fuel + 1 =>
    match matchTok .comma ts with
    | Option.none => .ok (args, kwargs, ts)
    | some (_, ts1) =>
      match peekKind ts1 with
      | Option.none => .error ⟨.noneType, ts1⟩
      | some k =>
        if k = .rparen then .ok (args, kwargs, ts1)
        else do
          let (arg, ts2) ← parseExpression fuel ts1
          let (args', kw') := classifyArg arg args kwargs
          parseArgsLoop fuel ts2 args' kw'

end

/-- The `while`/`try` driver loop of `Parser.parse`: on an error,
synchronize from the raise point and continue; only the fuel artifact of
the embedding is propagated. -/
def parseProgramLoop (fuel : Nat) (ts : List Token) (acc : List Ast) :
    Except PErr (List Ast) :=
  match fuel with
  | 0 => .error ⟨.fuel, ts⟩
  | fuel + 1 =>
    match ts with
    | [] => .ok acc
    | t :: _ =>
      if t.kind = .endTok then .ok acc
      else
        match parseStatement fuel ts with
        | .ok (some n, ts') => parseProgramLoop fuel ts' (acc ++ [n])
        | .ok (Option.none, ts') => parseProgramLoop fuel ts' acc
        | .error e =>
          if e.kind = .fuel then .error e
          else parseProgramLoop fuel (synchronize e.rest) acc

/-- `Parser.parse` with ample fuel (the parser consumes at least one token
per statement round and descends a bounded number of levels per token). -/
def parseTokens (ts : List Token) : Except PErr (List Ast) :=
  parseProgramLoop (ts.length * 32 + 64) ts []

end PyC

namespace PyC

/-- IR nodes from `intermediate/ir_nodes.py`, as one closed variant.
Python stores arbitrary objects in instruction operand fields: an operand
may be an `IRConstant`/`IRVariable`, a *bare temp-name string*
(`rawstr`), `None` (`nil`), another instruction object, or even a Python
list of instructions (`pylist`, reachable only from hand-built ASTs).
Modelling the fields with the same closed type keeps all of those
representable exactly as in the source. -/
inductive IR where
  | prog (fns : List IR)
  | func (name : String) (params : List String) (body : List IR)
  | binop (op : String) (left right : IR) (result : String)
  | unop (op : String) (operand : IR) (result : String)
  | loadI (value : IR) (target : String)
  | store (source : IR) (target : String)
  | call (fn : String) (args : List IR) (result : String)
  | mcall (obj : IR) (method : String) (args : List IR) (result : String)
  | ccall (cls : String) (args : List IR) (result : String)
  | retI (value : IR)
  | jump (target : String)
  | condjump (cond : IR) (tTgt fTgt : String)
  | label (name : String)
  | cst (v : PyVal)
  | var (name : String)
  | rawstr (s : String)
  | pylist (xs : List IR)
  | nil
deriving Repr

/-- `IRGenerator` mutable state: the two counters and the current
function/class trackers. -/
structure Gen where
  tempC : Nat
  labelC : Nat
  currentFunction : Option String
  currentClass : Option String
deriving Repr, DecidableEq

/-- `IRGenerator.generate_temp`. -/
def generateTemp (g : Gen) : String × Gen :=
  ("t" ++ Nat.repr g.tempC, ⟨g.tempC + 1, g.labelC, g.currentFunction, g.currentClass⟩)

/-- `IRGenerator.generate_label`. -/
def generateLabel (g : Gen) : String × Gen :=
  ("L" ++ Nat.repr g.labelC, ⟨g.tempC, g.labelC + 1, g.currentFunction, g.currentClass⟩)

/-- Python-level failures of the IR generator: `NotImplementedError` from
`generic_visit`, `AttributeError` from a missing `.result`/`.name`
attribute, `IndexError` from `steps[-1]` on an empty list. -/
inductive IRErr where
  | notImplemented
  | attrError
  | indexError
deriving Repr, DecidableEq

/-- The dynamic result of `IRGenerator.visit`: a single IR object, a
Python list of IR objects, or Python `None` (for `visit(None)`). -/
inductive VRes where
  | node (n : IR)
  | list (l : List IR)
  | pynone
deriving Repr

/-- `x.result` (the destination-temp attribute of instruction objects). -/
def resultOf : IR → Except IRErr String
  | .binop _ _ _ r => .ok r
  | .unop _ _ r => .ok r
  | .call _ _ r => .ok r
  | .mcall _ _ _ r => .ok r
  | .ccall _ _ r => .ok r
  | _ => .error .attrError

/-- `x.name` (`IRVariable` and `IRFunction` carry a `name` attribute). -/
def nameOf : IR → Except IRErr String
  | .var n => .ok n
  | .func n _ _ => .ok n
  | _ => .error .attrError

/-- `steps[-1]` (raises `IndexError` on an empty list). -/
def lastOf (l : List IR) : Except IRErr IR :=
  match l.getLast? with
  | some x => .ok x
  | Option.none => .error .indexError

/-- Coerce a visit result into a single operand object exactly as Python
stores it into an instruction field (`None` stays `None`; a list stays a
list object). -/
def vresOperand : VRes → IR
  | .node n => n
  | .list l => .pylist l
  | .pynone => .nil

/-- The `isinstance(x, list) → extend else append` pattern used by every
statement-sequence walk in `ir_generator.py`. -/
def flattenInto (acc : List IR) : VRes → List IR
  | .list l => acc ++ l
  | .node n => acc ++ [n]
  | .pynone => acc ++ [.nil]

mutual

/-- `IRGenerator.visit` dispatch (`visit_<ClassName>` methods; AST shapes
with no visitor method fall to `generic_visit`, which raises). -/
def visit (a : Ast) (g : Gen) : Except IRErr (VRes × Gen) :=
  match a with
  | .nix => .ok (.pynone, g)
  | .intLit v => .ok (.node (.cst v), g)
  | .floatLit v => .ok (.node (.cst v), g)
  | .strLit v _ => .ok (.node (.cst v), g)
  | .boolLit b => .ok (.node (.cst (.bool b)), g)
  | .noneLit => .ok (.node (.cst .none), g)
  | .ident x => .ok (.node (.var x), g)
  | .attr value a => do
    -- visit_AttributeNode: Var("{obj.name}.{attr}")
    let (obj, g1) ← visit value g
    let n ← nameOf (vresOperand obj)
    .ok (.node (.var (n ++ "." ++ a)), g1)
  | .binop op l r => do
    -- visit_BinaryOpNode
    let (left, g1) ← visit l g
    let (right, g2) ← visit r g1
    let (result, g3) := generateTemp g2
    let (stepsL, leftOp) ←
      match left with
      | .list steps => do
        let lastI ← lastOf steps
        let res ← resultOf lastI
        Except.ok (steps, IR.rawstr res)
      | .node n =>
        match n with
        | .binop o a b res => Except.ok ([IR.binop o a b res], IR.rawstr res)
        | _ => Except.ok (([] : List IR), n)
      | .pynone => Except.ok (([] : List IR), IR.nil)
    let (stepsR, rightOp) ←
      match right with
      | .list steps => do
        let lastI ← lastOf steps
        let res ← resultOf lastI
        Except.ok (steps, IR.rawstr res)
      | .node n =>
        match n with
        | .binop o a b res => Except.ok ([IR.binop o a b res], IR.rawstr res)
        | _ => Except.ok (([] : List IR), n)
      | .pynone => Except.ok (([] : List IR), IR.nil)
    .ok (.list (stepsL ++ stepsR ++ [IR.binop op leftOp rightOp result]), g3)
  | .assign target value => do
    -- visit_AssignmentNode (value first, then target)
    let (v, g1) ← visit value g
    let (t, g2) ← visit target g1
    let tname ← nameOf (vresOperand t)
    match v with
    | .list steps => do
      let lastI ← lastOf steps
      let res ← resultOf lastI
      Except.ok (.list (steps ++ [IR.store (IR.rawstr res) tname]), g2)
    | .node n => Except.ok (.node (IR.store n tname), g2)
    | .pynone => Except.ok (.node (IR.store IR.nil tname), g2)
  | .fncall callee args _ => do
    -- visit_FunctionCallNode (keyword arguments are never consulted)
    let (fn, g1) ← visit callee g
    let (argl, g2) ← visitArgs args [] g1
    let (result, g3) := generateTemp g2
    match callee with
    | .attr obj m => do
      let (objV, g4) ← visit obj g3
      Except.ok (.node (IR.mcall (vresOperand objV) m argl result), g4)
    | .ident cname =>
      match g3.currentClass with
      | some _ => Except.ok (.node (IR.ccall cname argl result), g3)
      | Option.none => do
        let n ← nameOf (vresOperand fn)
        Except.ok (.node (IR.call n argl result), g3)
    | _ => do
      let n ← nameOf (vresOperand fn)
      Except.ok (.node (IR.call n argl result), g3)
  | .ifS cond thenB elseB => do
    -- visit_IfNode
    let (condV, g1) ← visit cond g
    let (trueL, g2) := generateLabel g1
    let (falseL, g3) := generateLabel g2
    let (endL, g4) := generateLabel g3
    let (condInstrs, cj) ←
      match condV with
      | .list steps => do
        let lastI ← lastOf steps
        let res ← resultOf lastI
        Except.ok (steps, IR.condjump (IR.rawstr res) trueL falseL)
      | .node n => Except.ok (([] : List IR), IR.condjump n trueL falseL)
      | .pynone => Except.ok (([] : List IR), IR.condjump IR.nil trueL falseL)
    let (trueBlock, g5) ← visitSeq thenB [] g4
    let (falseBlock, g6) ← visitSeq elseB [] g5
    .ok (.list (condInstrs ++ [cj] ++ [IR.label trueL] ++ trueBlock ++
      [IR.jump endL] ++ [IR.label falseL] ++ falseBlock ++ [IR.label endL]), g6)
  | .whileS cond body => do
    -- visit_WhileNode (labels are allocated before visiting the condition)
    let (startL, g1) := generateLabel g
    let (bodyL, g2) := generateLabel g1
    let (endL, g3) := generateLabel g2
    let (condV, g4) ← visit cond g3
    let (bodyIR, g5) ← visitSeq body [] g4
    let (condInstrs, cnd) ←
      match condV with
      | .list steps => do
        let lastI ← lastOf steps
        let res ← resultOf lastI
        Except.ok (steps, IR.rawstr res)
      | .node n => Except.ok (([] : List IR), n)
      | .pynone => Except.ok (([] : List IR), IR.nil)
    .ok (.list ([IR.label startL] ++ condInstrs ++
      [IR.condjump cnd bodyL endL] ++ [IR.label bodyL] ++ bodyIR ++
      [IR.jump startL] ++ [IR.label endL]), g5)
  | .ret value => do
    -- visit_ReturnNode (an absent value yields a bare Return)
    match value with
    | .nix => Except.ok (.node (IR.retI IR.nil), g)
    | v => do
      let (res, g1) ← visit v g
      match res with
      | .list steps => do
        let lastI ← lastOf steps
        let r ← resultOf lastI
        Except.ok (.list (steps ++ [IR.retI (IR.rawstr r)]), g1)
      | .node n => Except.ok (.node (IR.retI n), g1)
      | .pynone => Except.ok (.node (IR.retI IR.nil), g1)
  | .fndef name params body => do
    -- visit_FunctionDefNode
    let prev := g.currentFunction
    let g0 : Gen := ⟨g.tempC, g.labelC, some name, g.currentClass⟩
    let pnames ← paramNames params
    let (bodyIR, g1) ← visitSeq body [] g0
    .ok (.node (IR.func name pnames bodyIR),
         ⟨g1.tempC, g1.labelC, prev, g1.currentClass⟩)
  | .classdef name _ body => do
    -- visit_ClassDefNode (methods get `self` prepended; non-methods are
    -- skipped; the computed-but-unused `init_method` scan is omitted)
    let prev := g.currentClass
    let g0 : Gen := ⟨g.tempC, g.labelC, g.currentFunction, some name⟩
    let (fns, g1) ← visitClassBody body [] g0
    .ok (.list fns, ⟨g1.tempC, g1.labelC, g1.currentFunction, prev⟩)
  | .subscript _ _ => .error .notImplemented
  | .listlit _ => .error .notImplemented
  | .dictlit _ => .error .notImplemented
  | .param _ _ => .error .notImplemented
  | .forS _ _ _ => .error .notImplemented
  | .importS _ _ => .error .notImplemented
  | .fromImport _ _ => .error .notImplemented
  | .passS => .error .notImplemented
  | .breakS => .error .notImplemented
  | .continueS => .error .notImplemented

/-- The argument loop of `visit_FunctionCallNode`: a compound argument's
instruction list is spliced into the argument list, followed by its
result temp name. -/
def visitArgs (args : List Ast) (acc : List IR) (g : Gen) :
    Except IRErr (List IR × Gen) :=
  match args with
  | [] => .ok (acc, g)
  | a :: rest => do
    let (r, g1) ← visit a g
    match r with
    | .list l => do
      let lastI ← lastOf l
      let res ← resultOf lastI
      visitArgs rest (acc ++ l ++ [IR.rawstr res]) g1
    | .node n => visitArgs rest (acc ++ [n]) g1
    | .pynone => visitArgs rest (acc ++ [IR.nil]) g1

/-- The statement walk shared by function bodies, if branches and while
bodies (`extend` a list result, `append` anything else). -/
def visitSeq (stmts : List Ast) (acc : List IR) (g : Gen) :
    Except IRErr (List IR × Gen) :=
  match stmts with
  | [] => .ok (acc, g)
  | s :: rest => do
    let (r, g1) ← visit s g
    visitSeq rest (flattenInto acc r) g1

/-- The method loop of `visit_ClassDefNode`.  Python prepends a `self`
parameter to the method node and re-enters `visit`, which dispatches to
`visit_FunctionDefNode`; that dispatch is inlined here (same effect on
the same fields) so that the recursion stays structural. -/
def visitClassBody (stmts : List Ast) (acc : List IR) (g : Gen) :
    Except IRErr (List IR × Gen) :=
  match stmts with
  | [] => .ok (acc, g)
  | s :: rest =>
    match s with
    | .fndef name params body => do
      let prev := g.currentFunction
      let g0 : Gen := ⟨g.tempC, g.labelC, some name, g.currentClass⟩
      let pnames ← paramNames (.param "self" .nix :: params)
      let (bodyIR, g1) ← visitSeq body [] g0
      visitClassBody rest (acc ++ [IR.func name pnames bodyIR])
        ⟨g1.tempC, g1.labelC, prev, g1.currentClass⟩
    | _ => visitClassBody rest acc g

/-- `[param.name for param in node.parameters]` (a non-Parameter entry
with no `name` attribute would raise `AttributeError`). -/
def paramNames (params : List Ast) : Except IRErr (List String) :=
  match params with
  | [] => .ok []
  | p :: rest => do
    let n ←
      match p with
      | .param n _ => Except.ok n
      | .ident n => Except.ok n
      | .fndef n _ _ => Except.ok n
      | .classdef n _ _ => Except.ok n
      | _ => Except.error IRErr.attrError
    let ns ← paramNames rest
    .ok (n :: ns)

end

/-- Statement loop of `visit_ProgramNode`. -/
def visitProgramLoop (stmts : List Ast) (fns mainBody : List IR) (g : Gen) :
    Except IRErr (List IR × List IR × Gen) :=
  match stmts with
  | [] => .ok (fns, mainBody, g)
  | s :: rest =>
    match s with
    | .fndef _ _ _ => do
      let (r, g1) ← visit s g
      visitProgramLoop rest (flattenInto fns r) mainBody g1
    | _ => do
      let (r, g1) ← visit s g
      visitProgramLoop rest fns (flattenInto mainBody r) g1

/-- `IRGenerator.visit_ProgramNode` over the list of top-level statements:
only `FunctionDefNode`s go to the function list; **every other statement,
`ClassDefNode` included**, is routed to the main body. -/
def visitProgram (stmts : List Ast) (g : Gen) : Except IRErr (IR × Gen) := do
  let (fns, mainBody, g1) ← visitProgramLoop stmts [] [] g
  if mainBody.isEmpty then .ok (.prog fns, g1)
  else .ok (.prog (fns ++ [IR.func "main" [] mainBody]), g1)

/-- Fresh generator (`IRGenerator.__init__`). -/
def genInit : Gen := ⟨0, 0, Option.none, Option.none⟩

end PyC

namespace PyC

/-! ## Concrete pipeline inputs used as evidence

Each source string is paired with its token list (as the lexer produces
it) so the evaluation theorems can be checked stage by stage. -/

def srcKwArg : String := "f(a=1)\n"

def toksKwArg : List Token :=
  [⟨.identifier, .str "f", 1, 1⟩, ⟨.lparen, .str "(", 1, 2⟩,
   ⟨.identifier, .str "a", 1, 3⟩, ⟨.assign, .str "=", 1, 4⟩,
   ⟨.intLit, .int 1, 1, 5⟩, ⟨.rparen, .str ")", 1, 6⟩,
   ⟨.newline, .str "\\n", 1, 7⟩, ⟨.endTok, .str "", 2, 1⟩]

def srcIfElifElse : String :=
  "if a:\n    x = 1\nelif b:\n    x = 2\nelse:\n    x = 3\n"

def toksIfElifElse : List Token :=
  [⟨.kwIf, .str "if", 1, 1⟩, ⟨.identifier, .str "a", 1, 4⟩,
   ⟨.colon, .str ":", 1, 5⟩, ⟨.newline, .str "\\n", 1, 6⟩,
   ⟨.indent, .str "", 2, 5⟩, ⟨.identifier, .str "x", 2, 5⟩,
   ⟨.assign, .str "=", 2, 7⟩, ⟨.intLit, .int 1, 2, 9⟩,
   ⟨.newline, .str "\\n", 2, 10⟩, ⟨.dedent, .str "", 3, 1⟩,
   ⟨.kwElif, .str "elif", 3, 1⟩, ⟨.identifier, .str "b", 3, 6⟩,
   ⟨.colon, .str ":", 3, 7⟩, ⟨.newline, .str "\\n", 3, 8⟩,
   ⟨.indent, .str "", 4, 5⟩, ⟨.identifier, .str "x", 4, 5⟩,
   ⟨.assign, .str "=", 4, 7⟩, ⟨.intLit, .int 2, 4, 9⟩,
   ⟨.newline, .str "\\n", 4, 10⟩, ⟨.dedent, .str "", 5, 1⟩,
   ⟨.kwElse, .str "else", 5, 1⟩, ⟨.colon, .str ":", 5, 5⟩,
   ⟨.newline, .str "\\n", 5, 6⟩, ⟨.indent, .str "", 6, 5⟩,
   ⟨.identifier, .str "x", 6, 5⟩, ⟨.assign, .str "=", 6, 7⟩,
   ⟨.intLit, .int 3, 6, 9⟩, ⟨.newline, .str "\\n", 6, 10⟩,
   ⟨.dedent, .str "", 7, 1⟩, ⟨.endTok, .str "", 7, 1⟩]

def srcIfElif : String := "if a:\n    x = 1\nelif b:\n    x = 2\n"

def toksIfElif : List Token :=
  [⟨.kwIf, .str "if", 1, 1⟩, ⟨.identifier, .str "a", 1, 4⟩,
   ⟨.colon, .str ":", 1, 5⟩, ⟨.newline, .str "\\n", 1, 6⟩,
   ⟨.indent, .str "", 2, 5⟩, ⟨.identifier, .str "x", 2, 5⟩,
   ⟨.assign, .str "=", 2, 7⟩, ⟨.intLit, .int 1, 2, 9⟩,
   ⟨.newline, .str "\\n", 2, 10⟩, ⟨.dedent, .str "", 3, 1⟩,
   ⟨.kwElif, .str "elif", 3, 1⟩, ⟨.identifier, .str "b", 3, 6⟩,
   ⟨.colon, .str ":", 3, 7⟩, ⟨.newline, .str "\\n", 3, 8⟩,
   ⟨.indent, .str "", 4, 5⟩, ⟨.identifier, .str "x", 4, 5⟩,
   ⟨.assign, .str "=", 4, 7⟩, ⟨.intLit, .int 2, 4, 9⟩,
   ⟨.newline, .str "\\n", 4, 10⟩, ⟨.dedent, .str "", 5, 1⟩,
   ⟨.endTok, .str "", 5, 1⟩]

def srcClassM : String := "class P:\n    def m(self):\n        return 1\n"

def toksClassM : List Token :=
  [⟨.kwClass, .str "class", 1, 1⟩, ⟨.identifier, .str "P", 1, 7⟩,
   ⟨.colon, .str ":", 1, 8⟩, ⟨.newline, .str "\\n", 1, 9⟩,
   ⟨.indent, .str "", 2, 5⟩, ⟨.kwDef, .str "def", 2, 5⟩,
   ⟨.identifier, .str "m", 2, 9⟩, ⟨.lparen, .str "(", 2, 10⟩,
   ⟨.identifier, .str "self", 2, 11⟩, ⟨.rparen, .str ")", 2, 15⟩,
   ⟨.colon, .str ":", 2, 16⟩, ⟨.newline, .str "\\n", 2, 17⟩,
   ⟨.indent, .str "", 3, 9⟩, ⟨.kwReturn, .str "return", 3, 9⟩,
   ⟨.intLit, .int 1, 3, 16⟩, ⟨.newline, .str "\\n", 3, 17⟩,
   ⟨.dedent, .str "", 4, 1⟩, ⟨.dedent, .str "", 4, 1⟩,
   ⟨.endTok, .str "", 4, 1⟩]

def astClassM : List Ast :=
  [ .classdef ("P") [] [ .fndef ("m") [.param "self" .nix] [.ret (.intLit (.int 1))]]]

def srcCallArg : String := "y = f(1 + 2)\n"

def toksCallArg : List Token :=
  [⟨.identifier, .str "y", 1, 1⟩, ⟨.assign, .str "=", 1, 3⟩,
   ⟨.identifier, .str "f", 1, 5⟩, ⟨.lparen, .str "(", 1, 6⟩,
   ⟨.intLit, .int 1, 1, 7⟩, ⟨.plus, .str "+", 1, 9⟩,
   ⟨.intLit, .int 2, 1, 11⟩, ⟨.rparen, .str ")", 1, 12⟩,
   ⟨.newline, .str "\\n", 1, 13⟩, ⟨.endTok, .str "", 2, 1⟩]

def astCallArg : List Ast :=
  [.assign (.ident "y")
    (.fncall (.ident "f") [.binop "+" (.intLit (.int 1)) (.intLit (.int 2))] [])]

def srcAug : String := "x += 1 - 2\n"

def toksAug : List Token :=
  [⟨.identifier, .str "x", 1, 1⟩, ⟨.plusAssign, .str "+=", 1, 3⟩,
   ⟨.intLit, .int 1, 1, 6⟩, ⟨.minus, .str "-", 1, 8⟩,
   ⟨.intLit, .int 2, 1, 10⟩, ⟨.newline, .str "\\n", 1, 11⟩,
   ⟨.endTok, .str "", 2, 1⟩]

def srcExp : String := "x = x + 1 - 2\n"

def toksExp : List Token :=
  [⟨.identifier, .str "x", 1, 1⟩, ⟨.assign, .str "=", 1, 3⟩,
   ⟨.identifier, .str "x", 1, 5⟩, ⟨.plus, .str "+", 1, 7⟩,
   ⟨.intLit, .int 1, 1, 9⟩, ⟨.minus, .str "-", 1, 11⟩,
   ⟨.intLit, .int 2, 1, 13⟩, ⟨.newline, .str "\\n", 1, 14⟩,
   ⟨.endTok, .str "", 2, 1⟩]

set_option maxRecDepth 16384

/-! ## C1, C2, C3 evaluation theorems -/

/-- C1: the spec says an argument of the form `name = value` inside a
call is removed from the positional list and entered in the keyword map.
The code checks `isinstance(arg, BinaryOpNode) and arg.op == "="`, but an
assignment parses as `AssignmentNode`, so the test never fires: `f(a=1)`
keeps `Assignment(Identifier a, 1)` in the positional list and leaves the
keyword map empty. -/
theorem kwarg_assignment_stays_positional :
    tokenize srcKwArg = .ok toksKwArg ∧
    parseTokens toksKwArg =
      .ok [.fncall (.ident "f") [.assign (.ident "a") (.intLit (.int 1))] []] :=
  ⟨by rfl, by rfl⟩

/-- C2: the spec says a trailing `else` at the end of an `elif` chain is
attached to the innermost nested `If`.  In the code, the trailing `else`
is fed back into `parse_if_statement`, whose first `advance()` consumes
the `else` and then demands a condition where a `:` stands: the statement
raises and the recovery loop discards it entirely (first conjunct, empty
output).  Without the trailing `else` the elif chain parses as the
nested-If lowering (second conjunct). -/
theorem trailing_else_after_elif_lost :
    tokenize srcIfElifElse = .ok toksIfElifElse ∧
    parseTokens toksIfElifElse = .ok [] ∧
    tokenize srcIfElif = .ok toksIfElif ∧
    parseTokens toksIfElif =
      .ok [.ifS (.ident "a") [.assign (.ident "x") (.intLit (.int 1))]
        [.ifS (.ident "b") [.assign (.ident "x") (.intLit (.int 2))] []]] :=
  ⟨by rfl, by rfl, by rfl, by rfl⟩

/-- C3: the spec says the methods of a top-level `ClassDef` go into the
`Program`'s function list.  `visit_ProgramNode` tests only
`isinstance(stmt, FunctionDefNode)`, so a `ClassDefNode` falls into the
main-body branch: its method functions end up *inside the body of the
synthesized `main` function*, and the program's function list is
`[main]` alone.  (The doubled `self` is the unconditional prepend of
`visit_ClassDefNode` applied to a method that already declares it.) -/
theorem classdef_methods_routed_to_main :
    tokenize srcClassM = .ok toksClassM ∧
    parseTokens toksClassM = .ok astClassM ∧
    visitProgram astClassM genInit =
      .ok (.prog [.func "main" []
        [.func "m" ["self", "self"] [.retI (.cst (.int 1))]]],
        ⟨0, 0, Option.none, Option.none⟩) :=
  ⟨by rfl, by rfl, by rfl⟩

end PyC

namespace PyC

/-- `Except` bind reduction on a success value (used to step the
embedded parser/generator in proofs). -/
theorem bindOk {eps alp bet : Type} (a : alp) (f : alp → Except eps bet) :
    (Except.ok a >>= f : Except eps bet) = f a := rfl

/-- `Except` bind reduction on an error value. -/
theorem bindErr {eps alp bet : Type} (e : eps) (f : alp → Except eps bet) :
    (Except.error e >>= f : Except eps bet) = .error e := rfl

/-! ## C8: compound assignment -/

/-- C8 counterexample: `x += 1 - 2` and `x = x + 1 - 2` do not parse to
structurally identical ASTs.  The compound form parses the right-hand
side at full-expression precedence, yielding `x + (1 - 2)`; the expanded
spelling associates as `(x + 1) - 2`. -/
theorem compound_assign_differs_from_expansion :
    tokenize srcAug = .ok toksAug ∧
    parseTokens toksAug =
      .ok [.assign (.ident "x") (.binop "+" (.ident "x")
        (.binop "-" (.intLit (.int 1)) (.intLit (.int 2))))] ∧
    tokenize srcExp = .ok toksExp ∧
    parseTokens toksExp =
      .ok [.assign (.ident "x") (.binop "-"
        (.binop "+" (.ident "x") (.intLit (.int 1))) (.intLit (.int 2)))] ∧
    (Ast.assign (.ident "x") (.binop "+" (.ident "x")
        (.binop "-" (.intLit (.int 1)) (.intLit (.int 2)))) ≠
      Ast.assign (.ident "x") (.binop "-"
        (.binop "+" (.ident "x") (.intLit (.int 1))) (.intLit (.int 2)))) := by
  refine ⟨by rfl, by rfl, by rfl, by rfl, ?_⟩
  intro h
  injection h with h1 h2
  injection h2 with ho hl hr
  exact absurd ho (by decide)

/-- The four compound-assignment token kinds and the operator each one
desugars to in `Parser.parse_expression`. -/
def augAssignOp : TokKind → Option String
  | .plusAssign => some "+"
  | .minusAssign => some "-"
  | .mulAssign => some "*"
  | .divAssign => some "/"
  | _ => Option.none

/-- C8 amended: `x op= e` parses to `Assignment(x, BinaryOp(op, x, e))`,
where `x` is the target produced by the precedence climb and `e` is the
right-hand side parsed at *full expression* precedence (hence not, in
general, the same tree as `x = x op e`). -/
theorem compound_assign_desugars (fuel : Nat) (ts rest rest2 : List Token)
    (t : Token) (op : String) (x v : Ast)
    (hop : augAssignOp t.kind = some op)
    (h1 : parseLogicalOr fuel ts = .ok (x, t :: rest))
    (h2 : parseExpression fuel rest = .ok (v, rest2)) :
    parseExpression (fuel + 1) ts = .ok (.assign x (.binop op x v), rest2) := by
  cases htk : t.kind <;> simp [augAssignOp, htk] at hop <;>
    (subst hop; simp [parseExpression, h1, matchTok, htk, h2, bindOk])

/-- Witness for `compound_assign_desugars` at `x += 1 - 2`. -/
theorem compound_assign_desugars_witness :
    parseExpression 301 toksAug =
      .ok (.assign (.ident "x") (.binop "+" (.ident "x")
        (.binop "-" (.intLit (.int 1)) (.intLit (.int 2)))),
        [⟨.newline, .str "\\n", 1, 11⟩, ⟨.endTok, .str "", 2, 1⟩]) :=
  compound_assign_desugars 300 toksAug (toksAug.drop 2)
    [⟨.newline, .str "\\n", 1, 11⟩, ⟨.endTok, .str "", 2, 1⟩]
    ⟨.plusAssign, .str "+=", 1, 3⟩ "+" (.ident "x")
    (.binop "-" (.intLit (.int 1)) (.intLit (.int 2)))
    (by rfl) (by rfl) (by rfl)

/-- One-step unfolding of `visit` on a binary operation, proved by
definitional reduction (stated once so proofs need not unfold the full
mutual recursion). -/
theorem visit_binop_eq (op : String) (l r : Ast) (g : Gen) :
    visit (.binop op l r) g = (do
      let (left, g1) ← visit l g
      let (right, g2) ← visit r g1
      let (result, g3) := generateTemp g2
      let (stepsL, leftOp) ←
        match left with
        | .list steps => do
          let lastI ← lastOf steps
          let res ← resultOf lastI
          Except.ok (steps, IR.rawstr res)
        | .node n =>
          match n with
          | .binop o a b res => Except.ok ([IR.binop o a b res], IR.rawstr res)
          | _ => Except.ok (([] : List IR), n)
        | .pynone => Except.ok (([] : List IR), IR.nil)
      let (stepsR, rightOp) ←
        match right with
        | .list steps => do
          let lastI ← lastOf steps
          let res ← resultOf lastI
          Except.ok (steps, IR.rawstr res)
        | .node n =>
          match n with
          | .binop o a b res => Except.ok ([IR.binop o a b res], IR.rawstr res)
          | _ => Except.ok (([] : List IR), n)
        | .pynone => Except.ok (([] : List IR), IR.nil)
      Except.ok (.list (stepsL ++ stepsR ++ [IR.binop op leftOp rightOp result]), g3)) := rfl

/-- `visit` on the Python `None` stored in an AST field. -/
theorem visit_nix_eq (g : Gen) : visit .nix g = .ok (.pynone, g) := rfl

/-! ## C10: `not` as a BinaryOp with an absent right operand -/

/-- C10: `not E` parses as `BinaryOp("not", E, None)` — there is no
dedicated unary AST node (`ast_nodes.py` defines none, and `Ast` here has
no unary constructor) — and the IR generator lowers it through
`visit_BinaryOpNode`, producing a BinaryOp instruction whose right
operand is `None`. -/
theorem not_parses_and_lowers_as_binop (fuel : Nat) (t : Token)
    (ts rest : List Token) (e : Ast)
    (ht : t.kind = .kwNot) (h1 : parseUnary fuel ts = .ok (e, rest)) :
    parseUnary (fuel + 1) (t :: ts) = .ok (.binop "not" e .nix, rest) ∧
    ∀ g r g', visit (.binop "not" e .nix) g = .ok (r, g') →
      ∃ steps lOp res, r = .list (steps ++ [.binop "not" lOp .nil res]) := by
  constructor
  · have hm : t.kind ≠ .minus := by rw [ht]; intro hc; cases hc
    simp [parseUnary, matchTok, ht, hm, h1, bindOk]
  · intro g r g' h
    rw [visit_binop_eq] at h
    cases hv : visit e g with
    | error err => rw [hv] at h; exact absurd h (by simp [bindErr])
    | ok res =>
      rw [hv] at h
      obtain ⟨vr, g1⟩ := res
      simp only [bindOk] at h
      rw [visit_nix_eq] at h
      simp only [bindOk] at h
      cases vr with
      | node n =>
        cases n <;> (simp only [bindOk] at h; cases h; exact ⟨_, _, _, rfl⟩)
      | list l =>
        cases hl : lastOf l with
        | error e2 => simp only [bindOk, hl, bindErr] at h; cases h
        | ok lastI =>
          cases hr : resultOf lastI with
          | error e3 => simp only [bindOk, hl, hr, bindErr] at h; cases h
          | ok res2 =>
            simp only [bindOk, hl, hr] at h
            cases h
            exact ⟨_, _, _, rfl⟩
      | pynone =>
        simp only [bindOk] at h
        cases h
        exact ⟨_, _, _, rfl⟩

/-- Witness for `not_parses_and_lowers_as_binop` at `not x`. -/
theorem not_parses_and_lowers_as_binop_witness :
    parseUnary 5 [⟨.kwNot, .str "not", 1, 1⟩, ⟨.identifier, .str "x", 1, 5⟩] =
      .ok (.binop "not" (.ident "x") .nix, []) ∧
    ∃ steps lOp res,
      VRes.list [IR.binop "not" (.var "x") .nil "t0"] =
        .list (steps ++ [.binop "not" lOp .nil res]) := by
  have h := not_parses_and_lowers_as_binop 4 ⟨.kwNot, .str "not", 1, 1⟩
    [⟨.identifier, .str "x", 1, 5⟩] [] (.ident "x") rfl (by rfl)
  exact ⟨h.1, h.2 genInit _ ⟨1, 0, Option.none, Option.none⟩ (by rfl)⟩

end PyC

namespace PyC

/-! ## C5: shape of the lowered `if` -/

/-- One-step unfolding of `visit` on an If node, by definitional
reduction. -/
theorem visit_ifS_eq (cond : Ast) (thenB elseB : List Ast) (g : Gen) :
    visit (.ifS cond thenB elseB) g = (do
      let (condV, g1) ← visit cond g
      let (trueL, g2) := generateLabel g1
      let (falseL, g3) := generateLabel g2
      let (endL, g4) := generateLabel g3
      let (condInstrs, cj) ←
        match condV with
        | .list steps => do
          let lastI ← lastOf steps
          let res ← resultOf lastI
          Except.ok (steps, IR.condjump (IR.rawstr res) trueL falseL)
        | .node n => Except.ok (([] : List IR), IR.condjump n trueL falseL)
        | .pynone => Except.ok (([] : List IR), IR.condjump IR.nil trueL falseL)
      let (trueBlock, g5) ← visitSeq thenB [] g4
      let (falseBlock, g6) ← visitSeq elseB [] g5
      Except.ok (.list (condInstrs ++ [cj] ++ [IR.label trueL] ++ trueBlock ++
        [IR.jump endL] ++ [IR.label falseL] ++ falseBlock ++ [IR.label endL]), g6)) := rfl

/-- Label name produced by the `k`-th call to `generate_label`. -/
def lbl (k : Nat) : String := "L" ++ Nat.repr k

/-- Advancing only the label counter, as three consecutive
`generate_label` calls do. -/
def bumpLabels (g : Gen) (k : Nat) : Gen :=
  ⟨g.tempC, g.labelC + k, g.currentFunction, g.currentClass⟩

/-- C5: a successfully lowered `If(cond, then, else)` emits exactly the
condition's instructions, one CondJump to the true/false labels, the true
label, the then-branch instructions, a Jump to the end label, the false
label, the else-branch instructions, and the end label — with nothing
(in particular no dead jump) between the CondJump and `Label(true)`. -/
theorem if_lowering_shape (cond : Ast) (thenB elseB : List Ast) (g : Gen)
    (r : VRes) (gEnd : Gen)
    (h : visit (.ifS cond thenB elseB) g = .ok (r, gEnd)) :
    ∃ cres g1 condInstrs cOp thenIR g5 elseIR,
      visit cond g = .ok (cres, g1) ∧
      visitSeq thenB [] (bumpLabels g1 3) = .ok (thenIR, g5) ∧
      visitSeq elseB [] g5 = .ok (elseIR, gEnd) ∧
      ((∃ n, cres = .node n ∧ condInstrs = [] ∧ cOp = n) ∨
       (∃ steps resName, cres = .list steps ∧ condInstrs = steps ∧
         cOp = .rawstr resName) ∨
       (cres = .pynone ∧ condInstrs = [] ∧ cOp = .nil)) ∧
      r = .list (condInstrs ++
        [IR.condjump cOp (lbl g1.labelC) (lbl (g1.labelC + 1)),
         IR.label (lbl g1.labelC)] ++ thenIR ++
        [IR.jump (lbl (g1.labelC + 2)), IR.label (lbl (g1.labelC + 1))] ++
        elseIR ++ [IR.label (lbl (g1.labelC + 2))]) := by
  rw [visit_ifS_eq] at h
  cases hv : visit cond g with
  | error err => rw [hv] at h; exact absurd h (by simp [bindErr])
  | ok res =>
    rw [hv] at h
    obtain ⟨cres, g1⟩ := res
    simp only [bindOk, generateLabel] at h
    cases cres with
    | node n =>
      simp only [bindOk] at h
      cases hthen : visitSeq thenB [] (bumpLabels g1 3) with
      | error e2 =>
        rw [show bumpLabels g1 3 = ⟨g1.tempC, g1.labelC + 1 + 1 + 1,
          g1.currentFunction, g1.currentClass⟩ from by
            simp [bumpLabels]] at hthen
        rw [hthen] at h
        cases h
      | ok tres =>
        rw [show bumpLabels g1 3 = ⟨g1.tempC, g1.labelC + 1 + 1 + 1,
          g1.currentFunction, g1.currentClass⟩ from by
            simp [bumpLabels]] at hthen
        rw [hthen] at h
        obtain ⟨thenIR, g5⟩ := tres
        simp only [bindOk] at h
        cases helse : visitSeq elseB [] g5 with
        | error e3 => rw [helse] at h; cases h
        | ok eres =>
          rw [helse] at h
          obtain ⟨elseIR, g6⟩ := eres
          simp only [bindOk] at h
          cases h
          refine ⟨.node n, g1, [], n, thenIR, g5, elseIR, rfl, ?_, helse,
            .inl ⟨n, rfl, rfl, rfl⟩, ?_⟩
          · rw [show bumpLabels g1 3 = ⟨g1.tempC, g1.labelC + 1 + 1 + 1,
              g1.currentFunction, g1.currentClass⟩ from by simp [bumpLabels]]
            exact hthen
          · simp [lbl]
    | list steps =>
      cases hl : lastOf steps with
      | error e2 => simp only [bindOk, hl, bindErr] at h; cases h
      | ok lastI =>
        cases hr : resultOf lastI with
        | error e3 => simp only [bindOk, hl, hr, bindErr] at h; cases h
        | ok resName =>
          simp only [bindOk, hl, hr] at h
          cases hthen : visitSeq thenB [] (bumpLabels g1 3) with
          | error e2 =>
            rw [show bumpLabels g1 3 = ⟨g1.tempC, g1.labelC + 1 + 1 + 1,
              g1.currentFunction, g1.currentClass⟩ from by
                simp [bumpLabels]] at hthen
            rw [hthen] at h
            cases h
          | ok tres =>
            rw [show bumpLabels g1 3 = ⟨g1.tempC, g1.labelC + 1 + 1 + 1,
              g1.currentFunction, g1.currentClass⟩ from by
                simp [bumpLabels]] at hthen
            rw [hthen] at h
            obtain ⟨thenIR, g5⟩ := tres
            simp only [bindOk] at h
            cases helse : visitSeq elseB [] g5 with
            | error e3 => rw [helse] at h; cases h
            | ok eres =>
              rw [helse] at h
              obtain ⟨elseIR, g6⟩ := eres
              simp only [bindOk] at h
              cases h
              refine ⟨.list steps, g1, steps, .rawstr resName, thenIR, g5,
                elseIR, rfl, ?_, helse, .inr (.inl ⟨steps, resName, rfl, rfl, rfl⟩), ?_⟩
              · rw [show bumpLabels g1 3 = ⟨g1.tempC, g1.labelC + 1 + 1 + 1,
                  g1.currentFunction, g1.currentClass⟩ from by simp [bumpLabels]]
                exact hthen
              · simp [lbl]
    | pynone =>
      simp only [bindOk] at h
      cases hthen : visitSeq thenB [] (bumpLabels g1 3) with
      | error e2 =>
        rw [show bumpLabels g1 3 = ⟨g1.tempC, g1.labelC + 1 + 1 + 1,
          g1.currentFunction, g1.currentClass⟩ from by
            simp [bumpLabels]] at hthen
        rw [hthen] at h
        cases h
      | ok tres =>
        rw [show bumpLabels g1 3 = ⟨g1.tempC, g1.labelC + 1 + 1 + 1,
          g1.currentFunction, g1.currentClass⟩ from by
            simp [bumpLabels]] at hthen
        rw [hthen] at h
        obtain ⟨thenIR, g5⟩ := tres
        simp only [bindOk] at h
        cases helse : visitSeq elseB [] g5 with
        | error e3 => rw [helse] at h; cases h
        | ok eres =>
          rw [helse] at h
          obtain ⟨elseIR, g6⟩ := eres
          simp only [bindOk] at h
          cases h
          refine ⟨.pynone, g1, [], .nil, thenIR, g5, elseIR, rfl, ?_, helse,
            .inr (.inr ⟨rfl, rfl, rfl⟩), ?_⟩
          · rw [show bumpLabels g1 3 = ⟨g1.tempC, g1.labelC + 1 + 1 + 1,
              g1.currentFunction, g1.currentClass⟩ from by simp [bumpLabels]]
            exact hthen
          · simp [lbl]

end PyC

namespace PyC

/-- Witness for `if_lowering_shape` at Scenario D
(`if x < 10: y = 1 else: y = 2`). -/
theorem if_lowering_shape_witness :
    ∃ cres g1 condInstrs cOp thenIR g5 elseIR,
      visit (Ast.binop "<" (.ident "x") (.intLit (.int 10))) genInit =
        .ok (cres, g1) ∧
      visitSeq [Ast.assign (.ident "y") (.intLit (.int 1))] []
        (bumpLabels g1 3) = .ok (thenIR, g5) ∧
      visitSeq [Ast.assign (.ident "y") (.intLit (.int 2))] [] g5 =
        .ok (elseIR, ⟨1, 3, Option.none, Option.none⟩) ∧
      ((∃ n, cres = .node n ∧ condInstrs = [] ∧ cOp = n) ∨
       (∃ steps resName, cres = .list steps ∧ condInstrs = steps ∧
         cOp = .rawstr resName) ∨
       (cres = .pynone ∧ condInstrs = [] ∧ cOp = .nil)) ∧
      VRes.list [IR.binop "<" (.var "x") (.cst (.int 10)) "t0",
        .condjump (.rawstr "t0") "L0" "L1", .label "L0",
        .store (.cst (.int 1)) "y", .jump "L2", .label "L1",
        .store (.cst (.int 2)) "y", .label "L2"] =
      .list (condInstrs ++
        [IR.condjump cOp (lbl g1.labelC) (lbl (g1.labelC + 1)),
         IR.label (lbl g1.labelC)] ++ thenIR ++
        [IR.jump (lbl (g1.labelC + 2)), IR.label (lbl (g1.labelC + 1))] ++
        elseIR ++ [IR.label (lbl (g1.labelC + 2))]) :=
  if_lowering_shape (Ast.binop "<" (.ident "x") (.intLit (.int 10)))
    [Ast.assign (.ident "y") (.intLit (.int 1))]
    [Ast.assign (.ident "y") (.intLit (.int 2))] genInit
    (VRes.list [IR.binop "<" (.var "x") (.cst (.int 10)) "t0",
      .condjump (.rawstr "t0") "L0" "L1", .label "L0",
      .store (.cst (.int 1)) "y", .jump "L2", .label "L1",
      .store (.cst (.int 2)) "y", .label "L2"])
    ⟨1, 3, Option.none, Option.none⟩ (by rfl)

end PyC

namespace PyC

/-! ## Definitional one-step unfoldings of `visit` (used by the inductive
proofs; each is `rfl`). -/

theorem visit_intLit_eq (v : PyVal) (g : Gen) :
    visit (.intLit v) g = .ok (.node (.cst v), g) := rfl

theorem visit_floatLit_eq (v : PyVal) (g : Gen) :
    visit (.floatLit v) g = .ok (.node (.cst v), g) := rfl

theorem visit_strLit_eq (v : PyVal) (b : Bool) (g : Gen) :
    visit (.strLit v b) g = .ok (.node (.cst v), g) := rfl

theorem visit_boolLit_eq (b : Bool) (g : Gen) :
    visit (.boolLit b) g = .ok (.node (.cst (.bool b)), g) := rfl

theorem visit_noneLit_eq (g : Gen) :
    visit .noneLit g = .ok (.node (.cst .none), g) := rfl

theorem visit_ident_eq (x : String) (g : Gen) :
    visit (.ident x) g = .ok (.node (.var x), g) := rfl

theorem visit_attr_eq (value : Ast) (a : String) (g : Gen) :
    visit (.attr value a) g = (do
      let (obj, g1) ← visit value g
      let n ← nameOf (vresOperand obj)
      Except.ok (VRes.node (.var (n ++ "." ++ a)), g1)) := rfl

theorem visit_assign_eq (target value : Ast) (g : Gen) :
    visit (.assign target value) g = (do
      let (v, g1) ← visit value g
      let (t, g2) ← visit target g1
      let tname ← nameOf (vresOperand t)
      match v with
      | .list steps => do
        let lastI ← lastOf steps
        let res ← resultOf lastI
        Except.ok (VRes.list (steps ++ [IR.store (IR.rawstr res) tname]), g2)
      | .node n => Except.ok (VRes.node (IR.store n tname), g2)
      | .pynone => Except.ok (VRes.node (IR.store IR.nil tname), g2)) := rfl

theorem visit_fncall_eq (callee : Ast) (args : List Ast)
    (kwargs : List (String × Ast)) (g : Gen) :
    visit (.fncall callee args kwargs) g = (do
      let (fn, g1) ← visit callee g
      let (argl, g2) ← visitArgs args [] g1
      let (result, g3) := generateTemp g2
      match callee with
      | .attr obj m => do
        let (objV, g4) ← visit obj g3
        Except.ok (VRes.node (IR.mcall (vresOperand objV) m argl result), g4)
      | .ident cname =>
        match g3.currentClass with
        | some _ => Except.ok (VRes.node (IR.ccall cname argl result), g3)
        | Option.none => do
          let n ← nameOf (vresOperand fn)
          Except.ok (VRes.node (IR.call n argl result), g3)
      | _ => do
        let n ← nameOf (vresOperand fn)
        Except.ok (VRes.node (IR.call n argl result), g3)) := by
  cases callee <;> rfl

theorem visit_whileS_eq (cond : Ast) (body : List Ast) (g : Gen) :
    visit (.whileS cond body) g = (do
      let (startL, g1) := generateLabel g
      let (bodyL, g2) := generateLabel g1
      let (endL, g3) := generateLabel g2
      let (condV, g4) ← visit cond g3
      let (bodyIR, g5) ← visitSeq body [] g4
      let (condInstrs, cnd) ←
        match condV with
        | .list steps => do
          let lastI ← lastOf steps
          let res ← resultOf lastI
          Except.ok (steps, IR.rawstr res)
        | .node n => Except.ok (([] : List IR), n)
        | .pynone => Except.ok (([] : List IR), IR.nil)
      Except.ok (VRes.list ([IR.label startL] ++ condInstrs ++
        [IR.condjump cnd bodyL endL] ++ [IR.label bodyL] ++ bodyIR ++
        [IR.jump startL] ++ [IR.label endL]), g5)) := rfl

theorem visit_ret_eq (value : Ast) (g : Gen) :
    visit (.ret value) g = (match value with
      | .nix => Except.ok (VRes.node (IR.retI IR.nil), g)
      | v => do
        let (res, g1) ← visit v g
        match res with
        | .list steps => do
          let lastI ← lastOf steps
          let r ← resultOf lastI
          Except.ok (VRes.list (steps ++ [IR.retI (IR.rawstr r)]), g1)
        | .node n => Except.ok (VRes.node (IR.retI n), g1)
        | .pynone => Except.ok (VRes.node (IR.retI IR.nil), g1)) := by
  cases value <;> rfl

theorem visit_fndef_eq (name : String) (params body : List Ast) (g : Gen) :
    visit (.fndef name params body) g = (do
      let pnames ← paramNames params
      let (bodyIR, g1) ← visitSeq body []
        ⟨g.tempC, g.labelC, some name, g.currentClass⟩
      Except.ok (VRes.node (IR.func name pnames bodyIR),
        ⟨g1.tempC, g1.labelC, g.currentFunction, g1.currentClass⟩)) := rfl

theorem visit_classdef_eq (name : String) (bases body : List Ast) (g : Gen) :
    visit (.classdef name bases body) g = (do
      let (fns, g1) ← visitClassBody body []
        ⟨g.tempC, g.labelC, g.currentFunction, some name⟩
      Except.ok (VRes.list fns,
        ⟨g1.tempC, g1.labelC, g1.currentFunction, g.currentClass⟩)) := rfl

theorem visitSeq_nil_eq (acc : List IR) (g : Gen) :
    visitSeq [] acc g = .ok (acc, g) := rfl

theorem visitSeq_cons_eq (s : Ast) (rest : List Ast) (acc : List IR) (g : Gen) :
    visitSeq (s :: rest) acc g = (do
      let (r, g1) ← visit s g
      visitSeq rest (flattenInto acc r) g1) := rfl

theorem visitArgs_nil_eq (acc : List IR) (g : Gen) :
    visitArgs [] acc g = .ok (acc, g) := rfl

theorem visitArgs_cons_eq (a : Ast) (rest : List Ast) (acc : List IR) (g : Gen) :
    visitArgs (a :: rest) acc g = (do
      let (r, g1) ← visit a g
      match r with
      | .list l => do
        let lastI ← lastOf l
        let res ← resultOf lastI
        visitArgs rest (acc ++ l ++ [IR.rawstr res]) g1
      | .node n => visitArgs rest (acc ++ [n]) g1
      | .pynone => visitArgs rest (acc ++ [IR.nil]) g1) := rfl

theorem visitClassBody_nil_eq (acc : List IR) (g : Gen) :
    visitClassBody [] acc g = .ok (acc, g) := rfl

theorem visitClassBody_cons_fndef_eq (name : String) (params body : List Ast)
    (rest : List Ast) (acc : List IR) (g : Gen) :
    visitClassBody (.fndef name params body :: rest) acc g = (do
      let pnames ← paramNames (.param "self" .nix :: params)
      let (bodyIR, g1) ← visitSeq body []
        ⟨g.tempC, g.labelC, some name, g.currentClass⟩
      visitClassBody rest (acc ++ [IR.func name pnames bodyIR])
        ⟨g1.tempC, g1.labelC, g.currentFunction, g1.currentClass⟩) := rfl

theorem visitProgramLoop_nil_eq (fns mainBody : List IR) (g : Gen) :
    visitProgramLoop [] fns mainBody g = .ok (fns, mainBody, g) := rfl

theorem visitProgramLoop_cons_fndef_eq (name : String) (params body : List Ast)
    (rest : List Ast) (fns mainBody : List IR) (g : Gen) :
    visitProgramLoop (.fndef name params body :: rest) fns mainBody g = (do
      let (r, g1) ← visit (.fndef name params body) g
      visitProgramLoop rest (flattenInto fns r) mainBody g1) := rfl

end PyC

namespace PyC

/-! ## C4: operand discipline of emitted instructions -/

/-- An operand field value that is a `Const` leaf, a `Var` leaf, or a
bare temp-name string. -/
def operandIsLeaf : IR → Bool
  | .cst _ => true
  | .var _ => true
  | .rawstr _ => true
  | _ => false

/-- Leaf or the absent (`None`) operand — in particular, never an
instruction node or a list. -/
def operandOK (x : IR) : Bool := operandIsLeaf x || (match x with | .nil => true | _ => false)

/-- Per-instruction operand discipline: every operand field (and every
element of a call-style argument list) is a leaf or absent. -/
def instrOperandsOK : IR → Bool
  | .binop _ l r _ => operandOK l && operandOK r
  | .unop _ o _ => operandOK o
  | .loadI v _ => operandOK v
  | .store s _ => operandOK s
  | .call _ args _ => args.all operandOK
  | .mcall obj _ args _ => operandOK obj && args.all operandOK
  | .ccall _ args _ => args.all operandOK
  | .condjump c _ _ => operandOK c
  | .retI v => operandOK v
  | _ => true

mutual

/-- Operand discipline over a whole program/function tree. -/
def irOperandsOK : IR → Bool
  | .prog fns => irAllOperandsOK fns
  | .func _ _ body => irAllOperandsOK body
  | i => instrOperandsOK i

def irAllOperandsOK : List IR → Bool
  | [] => true
  | i :: rest => irOperandsOK i && irAllOperandsOK rest

end

/-- C4 counterexample: lowering `y = f(1 + 2)` emits a Store whose source
operand is the Call *instruction* itself, and the Call's argument list
contains the spliced BinaryOp instruction followed by the temp name —
so instruction operands are not only Const/Var/temp-string leaves. -/
theorem call_argument_embeds_instruction :
    tokenize srcCallArg = .ok toksCallArg ∧
    parseTokens toksCallArg = .ok astCallArg ∧
    visitProgram astCallArg genInit =
      .ok (.prog [.func "main" [] [.store (.call "f"
        [.binop "+" (.cst (.int 1)) (.cst (.int 2)) "t0", .rawstr "t0"] "t1")
        "y"]], ⟨2, 0, Option.none, Option.none⟩) ∧
    irOperandsOK (.prog [.func "main" [] [.store (.call "f"
        [.binop "+" (.cst (.int 1)) (.cst (.int 2)) "t0", .rawstr "t0"] "t1")
        "y"]]) = false :=
  ⟨by rfl, by rfl, by rfl, by rfl⟩

/-- Expressions whose lowering stays within the leaf-operand discipline:
literals, identifiers, attribute chains and binary operations (with the
absent `not` operand).  Function calls and nested assignments are the
shapes whose lowering embeds instructions in operand position. -/
def exprOK : Ast → Bool
  | .intLit _ => true
  | .floatLit _ => true
  | .strLit _ _ => true
  | .boolLit _ => true
  | .noneLit => true
  | .ident _ => true
  | .attr v _ => exprOK v
  | .binop _ l r => exprOK l && exprOK r
  | .nix => true
  | _ => false

mutual

/-- Statements built from `exprOK` expressions (assignments, returns,
if/while, function and class definitions over such statements). -/
def stmtOK : Ast → Bool
  | .assign t v => exprOK t && exprOK v
  | .ret v => exprOK v
  | .ifS c tb eb => exprOK c && stmtsOK tb && stmtsOK eb
  | .whileS c b => exprOK c && stmtsOK b
  | .fndef _ _ b => stmtsOK b
  | .classdef _ _ b => stmtsOK b
  | e => exprOK e

def stmtsOK : List Ast → Bool
  | [] => true
  | s :: rest => stmtOK s && stmtsOK rest

end

end PyC

namespace PyC

theorem irAllOperandsOK_append (a b : List IR) :
    irAllOperandsOK (a ++ b) = (irAllOperandsOK a && irAllOperandsOK b) := by
  induction a with
  | nil => simp [irAllOperandsOK]
  | cons x xs ih => simp [irAllOperandsOK, ih, Bool.and_assoc]

/-- Result discipline of an expression visit: an operand leaf, a list of
operand-clean instructions, or Python `None`. -/
def exprResOK : VRes → Bool
  | .node n => operandIsLeaf n
  | .list l => irAllOperandsOK l
  | .pynone => true

/-- Result discipline of a statement visit. -/
def stmtResOK : VRes → Bool
  | .node n => irOperandsOK n
  | .list l => irAllOperandsOK l
  | .pynone => true

theorem leaf_irOK (n : IR) (h : operandIsLeaf n = true) : irOperandsOK n = true := by
  cases n <;> simp_all [operandIsLeaf, irOperandsOK, instrOperandsOK]

theorem leaf_shape (n : IR) (h : operandIsLeaf n = true) :
    (∃ v, n = .cst v) ∨ (∃ s, n = .var s) ∨ (∃ s, n = .rawstr s) := by
  cases n <;> simp_all [operandIsLeaf]

theorem exprOK_visit : ∀ (a : Ast) (g : Gen) (r : VRes) (g1 : Gen), exprOK a = true →
    visit a g = .ok (r, g1) → exprResOK r = true
  | .intLit v, g, r, g1 => by intro hok h; rw [visit_intLit_eq] at h; cases h; rfl
  | .floatLit v, g, r, g1 => by intro hok h; rw [visit_floatLit_eq] at h; cases h; rfl
  | .strLit v b, g, r, g1 => by intro hok h; rw [visit_strLit_eq] at h; cases h; rfl
  | .boolLit b, g, r, g1 => by intro hok h; rw [visit_boolLit_eq] at h; cases h; rfl
  | .noneLit, g, r, g1 => by intro hok h; rw [visit_noneLit_eq] at h; cases h; rfl
  | .ident x, g, r, g1 => by intro hok h; rw [visit_ident_eq] at h; cases h; rfl
  | .nix, g, r, g1 => by intro hok h; rw [visit_nix_eq] at h; cases h; rfl
  | .attr v s, g, r, g1 => by
    intro hok h
    rw [visit_attr_eq] at h
    cases hv : visit v g with
    | error e => rw [hv, bindErr] at h; cases h
    | ok res =>
      rw [hv] at h
      obtain ⟨obj, g2⟩ := res
      simp only [bindOk] at h
      cases hn : nameOf (vresOperand obj) with
      | error e => rw [hn, bindErr] at h; cases h
      | ok n => rw [hn, bindOk] at h; cases h; rfl
  | .binop op l r, g, r0, g1 => by
    intro hok h
    simp only [exprOK, Bool.and_eq_true] at hok
    rw [visit_binop_eq] at h
    cases hvl : visit l g with
    | error e => rw [hvl, bindErr] at h; cases h
    | ok resl =>
      rw [hvl] at h
      obtain ⟨left, gA⟩ := resl
      simp only [bindOk] at h
      cases hvr : visit r gA with
      | error e => rw [hvr, bindErr] at h; cases h
      | ok resr =>
        rw [hvr] at h
        obtain ⟨right, gB⟩ := resr
        simp only [bindOk, generateTemp] at h
        have IHl := exprOK_visit l g left gA hok.1 hvl
        have IHr := exprOK_visit r gA right gB hok.2 hvr
        -- reduce the left-operand match
        cases left with
        | pynone =>
          simp only [bindOk] at h
          cases right with
          | pynone => simp only [bindOk] at h; cases h
                      simp [exprResOK, irAllOperandsOK, irOperandsOK,
                        instrOperandsOK, operandOK]
          | node m =>
            rcases leaf_shape m IHr with ⟨v, rfl⟩ | ⟨s, rfl⟩ | ⟨s, rfl⟩ <;>
              (simp only [bindOk] at h; cases h;
               simp [exprResOK, irAllOperandsOK, irOperandsOK,
                 instrOperandsOK, operandOK, operandIsLeaf])
          | list steps =>
            cases hlast : lastOf steps with
            | error e => simp only [bindOk, hlast, bindErr] at h; cases h
            | ok lastI =>
              cases hres : resultOf lastI with
              | error e => simp only [bindOk, hlast, hres, bindErr] at h; cases h
              | ok resName =>
                simp only [bindOk, hlast, hres] at h
                cases h
                simp only [exprResOK] at IHr ⊢
                simp [irAllOperandsOK_append, irAllOperandsOK, irOperandsOK,
                  instrOperandsOK, operandOK, operandIsLeaf, IHr]
        | node m =>
          rcases leaf_shape m IHl with ⟨v, rfl⟩ | ⟨s, rfl⟩ | ⟨s, rfl⟩ <;>
          · simp only [bindOk] at h
            cases right with
            | pynone =>
              simp only [bindOk] at h; cases h
              simp [exprResOK, irAllOperandsOK, irOperandsOK,
                instrOperandsOK, operandOK, operandIsLeaf]
            | node m2 =>
              rcases leaf_shape m2 IHr with ⟨v2, rfl⟩ | ⟨s2, rfl⟩ | ⟨s2, rfl⟩ <;>
                (simp only [bindOk] at h; cases h;
                 simp [exprResOK, irAllOperandsOK, irOperandsOK,
                   instrOperandsOK, operandOK, operandIsLeaf])
            | list steps =>
              cases hlast : lastOf steps with
              | error e => simp only [bindOk, hlast, bindErr] at h; cases h
              | ok lastI =>
                cases hres : resultOf lastI with
                | error e => simp only [bindOk, hlast, hres, bindErr] at h; cases h
                | ok resName =>
                  simp only [bindOk, hlast, hres] at h
                  cases h
                  simp only [exprResOK] at IHr ⊢
                  simp [irAllOperandsOK_append, irAllOperandsOK, irOperandsOK,
                    instrOperandsOK, operandOK, operandIsLeaf, IHr]
        | list stepsL =>
          cases hlastL : lastOf stepsL with
          | error e => simp only [bindOk, hlastL, bindErr] at h; cases h
          | ok lastL =>
            cases hresL : resultOf lastL with
            | error e => simp only [bindOk, hlastL, hresL, bindErr] at h; cases h
            | ok resNameL =>
              simp only [bindOk, hlastL, hresL] at h
              simp only [exprResOK] at IHl
              cases right with
              | pynone =>
                simp only [bindOk] at h; cases h
                simp [exprResOK, irAllOperandsOK_append, irAllOperandsOK,
                  irOperandsOK, instrOperandsOK, operandOK, operandIsLeaf, IHl]
              | node m2 =>
                rcases leaf_shape m2 IHr with ⟨v2, rfl⟩ | ⟨s2, rfl⟩ | ⟨s2, rfl⟩ <;>
                  (simp only [bindOk] at h; cases h;
                   simp [exprResOK, irAllOperandsOK_append, irAllOperandsOK,
                     irOperandsOK, instrOperandsOK, operandOK, operandIsLeaf, IHl])
              | list stepsR =>
                cases hlastR : lastOf stepsR with
                | error e => simp only [bindOk, hlastR, bindErr] at h; cases h
                | ok lastR =>
                  cases hresR : resultOf lastR with
                  | error e => simp only [bindOk, hlastR, hresR, bindErr] at h; cases h
                  | ok resNameR =>
                    simp only [bindOk, hlastR, hresR] at h
                    cases h
                    simp only [exprResOK] at IHr ⊢
                    simp [irAllOperandsOK_append, irAllOperandsOK, irOperandsOK,
                      instrOperandsOK, operandOK, operandIsLeaf, IHl, IHr]
  | .assign t v, g, r, g1 => by intro hok h; simp [exprOK] at hok
  | .fncall c a k, g, r, g1 => by intro hok h; simp [exprOK] at hok
  | .subscript a b, g, r, g1 => by intro hok h; simp [exprOK] at hok
  | .listlit l, g, r, g1 => by intro hok h; simp [exprOK] at hok
  | .dictlit l, g, r, g1 => by intro hok h; simp [exprOK] at hok
  | .param n d, g, r, g1 => by intro hok h; simp [exprOK] at hok
  | .fndef n p b, g, r, g1 => by intro hok h; simp [exprOK] at hok
  | .classdef n bs b, g, r, g1 => by intro hok h; simp [exprOK] at hok
  | .ifS c tb eb, g, r, g1 => by intro hok h; simp [exprOK] at hok
  | .whileS c b, g, r, g1 => by intro hok h; simp [exprOK] at hok
  | .forS t i b, g, r, g1 => by intro hok h; simp [exprOK] at hok
  | .ret v, g, r, g1 => by intro hok h; simp [exprOK] at hok
  | .importS m al, g, r, g1 => by intro hok h; simp [exprOK] at hok
  | .fromImport m i, g, r, g1 => by intro hok h; simp [exprOK] at hok
  | .passS, g, r, g1 => by intro hok h; simp [exprOK] at hok
  | .breakS, g, r, g1 => by intro hok h; simp [exprOK] at hok
  | .continueS, g, r, g1 => by intro hok h; simp [exprOK] at hok

end PyC

namespace PyC

theorem visit_ret_nix_eq (g : Gen) :
    visit (.ret .nix) g = .ok (.node (.retI .nil), g) := rfl

theorem visit_ret_other_eq (v : Ast) (g : Gen)
    (hv : (match v with | .nix => false | _ => true) = true) :
    visit (.ret v) g = (do
      let (res, g1) ← visit v g
      match res with
      | .list steps => do
        let lastI ← lastOf steps
        let r ← resultOf lastI
        Except.ok (VRes.list (steps ++ [IR.retI (IR.rawstr r)]), g1)
      | .node n => Except.ok (VRes.node (IR.retI n), g1)
      | .pynone => Except.ok (VRes.node (IR.retI IR.nil), g1)) := by
  cases v <;> first | (exfalso; revert hv; simp; done) | rfl

/-- Splitting an `Except` bind known to succeed. -/
theorem bind_eq_ok {eps alp bet : Type} (x : Except eps alp)
    (f : alp → Except eps bet) (b : bet) :
    (x >>= f) = .ok b ↔ ∃ a, x = .ok a ∧ f a = .ok b := by
  cases x with
  | error e => simp [bindErr]
  | ok a => simp [bindOk]

theorem exprRes_stmtRes (r : VRes) (h : exprResOK r = true) : stmtResOK r = true := by
  cases r with
  | node n => exact leaf_irOK n h
  | list l => exact h
  | pynone => rfl

theorem flatten_ok (acc : List IR) (r : VRes) (hacc : irAllOperandsOK acc = true)
    (hr : stmtResOK r = true) : irAllOperandsOK (flattenInto acc r) = true := by
  cases r with
  | node n =>
    simp only [stmtResOK] at hr
    simp [flattenInto, irAllOperandsOK_append, irAllOperandsOK, hacc, hr]
  | list l =>
    simp only [stmtResOK] at hr
    simp [flattenInto, irAllOperandsOK_append, hacc, hr]
  | pynone =>
    simp [flattenInto, irAllOperandsOK_append, irAllOperandsOK, hacc,
      irOperandsOK, instrOperandsOK]

theorem visitClassBody_cons_other_eq (s : Ast) (rest : List Ast)
    (acc : List IR) (g : Gen)
    (hs : (match s with | .fndef _ _ _ => false | _ => true) = true) :
    visitClassBody (s :: rest) acc g = visitClassBody rest acc g := by
  cases s <;> first | (exfalso; revert hs; simp; done) | rfl

theorem visitProgramLoop_cons_other_eq (s : Ast) (rest : List Ast)
    (fns mainBody : List IR) (g : Gen)
    (hs : (match s with | .fndef _ _ _ => false | _ => true) = true) :
    visitProgramLoop (s :: rest) fns mainBody g = (do
      let (r, g1) ← visit s g
      visitProgramLoop rest fns (flattenInto mainBody r) g1) := by
  cases s <;> first | (exfalso; revert hs; simp; done) | rfl

mutual

theorem stmtOK_visit : ∀ (s : Ast) (g : Gen) (r : VRes) (g1 : Gen), stmtOK s = true →
    visit s g = .ok (r, g1) → stmtResOK r = true
  | .intLit v, g, r, g1 => fun hok h => exprRes_stmtRes r (exprOK_visit _ g r g1 hok h)
  | .floatLit v, g, r, g1 => fun hok h => exprRes_stmtRes r (exprOK_visit _ g r g1 hok h)
  | .strLit v b, g, r, g1 => fun hok h => exprRes_stmtRes r (exprOK_visit _ g r g1 hok h)
  | .boolLit b, g, r, g1 => fun hok h => exprRes_stmtRes r (exprOK_visit _ g r g1 hok h)
  | .noneLit, g, r, g1 => fun hok h => exprRes_stmtRes r (exprOK_visit _ g r g1 hok h)
  | .ident x, g, r, g1 => fun hok h => exprRes_stmtRes r (exprOK_visit _ g r g1 hok h)
  | .nix, g, r, g1 => fun hok h => exprRes_stmtRes r (exprOK_visit _ g r g1 hok h)
  | .attr v s, g, r, g1 => fun hok h => exprRes_stmtRes r (exprOK_visit _ g r g1 hok h)
  | .binop op l rr, g, r, g1 => fun hok h => exprRes_stmtRes r (exprOK_visit _ g r g1 hok h)
  | .assign t v, g, r, g1 => by
    intro hok h
    simp only [stmtOK, Bool.and_eq_true] at hok
    rw [visit_assign_eq, bind_eq_ok] at h
    obtain ⟨⟨vr, gA⟩, hv, h⟩ := h
    simp only [] at h
    rw [bind_eq_ok] at h
    obtain ⟨⟨tr, gB⟩, ht, h⟩ := h
    simp only [] at h
    rw [bind_eq_ok] at h
    obtain ⟨tname, hn, h⟩ := h
    have IHv := exprOK_visit v g vr gA hok.2 hv
    cases vr with
    | node n =>
      simp only [exprResOK] at IHv
      cases h
      simp [stmtResOK, irOperandsOK, instrOperandsOK, operandOK, IHv]
    | pynone =>
      cases h
      simp [stmtResOK, irOperandsOK, instrOperandsOK, operandOK]
    | list steps =>
      simp only [exprResOK] at IHv
      simp only [] at h
      rw [bind_eq_ok] at h
      obtain ⟨lastI, hlast, h⟩ := h
      rw [bind_eq_ok] at h
      obtain ⟨resName, hres, h⟩ := h
      cases h
      simp [stmtResOK, irAllOperandsOK_append, irAllOperandsOK, irOperandsOK,
        instrOperandsOK, operandOK, operandIsLeaf, IHv]
  | .ret v, g, r, g1 => by
    intro hok h
    cases v
    case nix => rw [visit_ret_nix_eq] at h; cases h; rfl
    all_goals (
      first
        | (simp [stmtOK, exprOK] at hok; done)
        | (rw [visit_ret_other_eq _ _ (by rfl)] at h
           rw [bind_eq_ok] at h
           obtain ⟨⟨res, gA⟩, hv, h⟩ := h
           have IH := exprOK_visit _ g res gA hok hv
           cases res with
           | node n =>
             simp only [exprResOK] at IH
             cases h
             simp [stmtResOK, irOperandsOK, instrOperandsOK, operandOK, IH]
           | pynone =>
             cases h
             simp [stmtResOK, irOperandsOK, instrOperandsOK, operandOK]
           | list steps =>
             simp only [exprResOK] at IH
             simp only [] at h
             rw [bind_eq_ok] at h
             obtain ⟨lastI, hlast, h⟩ := h
             rw [bind_eq_ok] at h
             obtain ⟨resName, hres, h⟩ := h
             cases h
             simp [stmtResOK, irAllOperandsOK_append, irAllOperandsOK,
               irOperandsOK, instrOperandsOK, operandOK, operandIsLeaf, IH]))
  | .ifS c tb eb, g, r, g1 => by
    intro hok h
    simp only [stmtOK, Bool.and_eq_true] at hok
    obtain ⟨⟨hc, htb⟩, heb⟩ := hok
    rw [visit_ifS_eq, bind_eq_ok] at h
    obtain ⟨⟨condV, gA⟩, hv, h⟩ := h
    simp only [generateLabel] at h
    have IHc := exprOK_visit c g condV gA hc hv
    have hcont : ∀ (condInstrs : List IR) (cOp : IR) gx res2 g5 res3 g6,
        irAllOperandsOK condInstrs = true → operandOK cOp = true →
        visitSeq tb [] gx = .ok (res2, g5) →
        visitSeq eb [] g5 = .ok (res3, g6) →
        ∀ trueL falseL endL,
        r = .list (condInstrs ++ [IR.condjump cOp trueL falseL] ++
          [IR.label trueL] ++ res2 ++ [IR.jump endL] ++ [IR.label falseL] ++
          res3 ++ [IR.label endL]) →
        stmtResOK r = true := by
      intro condInstrs cOp gx res2 g5 res3 g6 h1 h2 h3 h4 tL fL eL hr
      have htt := stmtsOK_visitSeq tb [] gx res2 g5 htb rfl h3
      have hee := stmtsOK_visitSeq eb [] g5 res3 g6 heb rfl h4
      subst hr
      simp [stmtResOK, irAllOperandsOK_append, irAllOperandsOK, irOperandsOK,
        instrOperandsOK, h1, h2, htt, hee]
    cases condV with
    | node n =>
      simp only [exprResOK] at IHc
      simp only [bindOk] at h
      rw [bind_eq_ok] at h
      obtain ⟨⟨thenIR, g5⟩, hthen, h⟩ := h
      simp only [] at h
      rw [bind_eq_ok] at h
      obtain ⟨⟨elseIR, g6⟩, helse, h⟩ := h
      simp only [] at h
      cases h
      exact hcont [] n _ thenIR g5 elseIR _ rfl
        (by simp [operandOK, IHc]) hthen helse _ _ _ rfl
    | pynone =>
      simp only [bindOk] at h
      rw [bind_eq_ok] at h
      obtain ⟨⟨thenIR, g5⟩, hthen, h⟩ := h
      simp only [] at h
      rw [bind_eq_ok] at h
      obtain ⟨⟨elseIR, g6⟩, helse, h⟩ := h
      simp only [] at h
      cases h
      exact hcont [] .nil _ thenIR g5 elseIR _ rfl
        (by simp [operandOK]) hthen helse _ _ _ rfl
    | list steps =>
      simp only [exprResOK] at IHc
      simp only [] at h
      rw [bind_eq_ok] at h
      obtain ⟨lastI, hlast, h⟩ := h
      rw [bind_eq_ok] at h
      obtain ⟨resName, hres, h⟩ := h
      simp only [bindOk] at h
      rw [bind_eq_ok] at h
      obtain ⟨⟨thenIR, g5⟩, hthen, h⟩ := h
      simp only [] at h
      rw [bind_eq_ok] at h
      obtain ⟨⟨elseIR, g6⟩, helse, h⟩ := h
      simp only [] at h
      cases h
      exact hcont steps (.rawstr resName) _ thenIR g5 elseIR _ IHc
        (by simp [operandOK, operandIsLeaf]) hthen helse _ _ _ rfl
  | .whileS c b, g, r, g1 => by
    intro hok h
    simp only [stmtOK, Bool.and_eq_true] at hok
    obtain ⟨hc, hb⟩ := hok
    rw [visit_whileS_eq] at h
    simp only [generateLabel] at h
    rw [bind_eq_ok] at h
    obtain ⟨⟨condV, gA⟩, hv, h⟩ := h
    simp only [] at h
    rw [bind_eq_ok] at h
    obtain ⟨⟨bodyIR, g5⟩, hbody, h⟩ := h
    simp only [] at h
    have IHc := exprOK_visit c _ condV gA hc hv
    have hbb := stmtsOK_visitSeq b [] gA bodyIR g5 hb rfl hbody
    cases condV with
    | node n =>
      simp only [exprResOK] at IHc
      simp only [bindOk] at h
      cases h
      simp [stmtResOK, irAllOperandsOK_append, irAllOperandsOK, irOperandsOK,
        instrOperandsOK, operandOK, hbb, IHc]
    | pynone =>
      simp only [bindOk] at h
      cases h
      simp [stmtResOK, irAllOperandsOK_append, irAllOperandsOK, irOperandsOK,
        instrOperandsOK, operandOK, hbb]
    | list steps =>
      simp only [exprResOK] at IHc
      simp only [] at h
      rw [bind_eq_ok] at h
      obtain ⟨lastI, hlast, h⟩ := h
      rw [bind_eq_ok] at h
      obtain ⟨resName, hres, h⟩ := h
      cases h
      simp [stmtResOK, irAllOperandsOK_append, irAllOperandsOK, irOperandsOK,
        instrOperandsOK, operandOK, operandIsLeaf, hbb, IHc]
  | .fndef n p b, g, r, g1 => by
    intro hok h
    simp only [stmtOK] at hok
    rw [visit_fndef_eq, bind_eq_ok] at h
    obtain ⟨pnames, hp, h⟩ := h
    rw [bind_eq_ok] at h
    obtain ⟨⟨bodyIR, gA⟩, hbody, h⟩ := h
    simp only [] at h
    cases h
    have hbb := stmtsOK_visitSeq b [] _ bodyIR gA hok rfl hbody
    simp [stmtResOK, irOperandsOK, hbb]
  | .classdef n bs b, g, r, g1 => by
    intro hok h
    simp only [stmtOK] at hok
    rw [visit_classdef_eq, bind_eq_ok] at h
    obtain ⟨⟨fns, gA⟩, hcb, h⟩ := h
    simp only [] at h
    cases h
    have hbb := stmtsOK_visitClassBody b [] _ fns gA hok rfl hcb
    simpa [stmtResOK] using hbb
  | .fncall c a k, g, r, g1 => by intro hok h; simp [stmtOK, exprOK] at hok
  | .subscript a b, g, r, g1 => by intro hok h; simp [stmtOK, exprOK] at hok
  | .listlit l, g, r, g1 => by intro hok h; simp [stmtOK, exprOK] at hok
  | .dictlit l, g, r, g1 => by intro hok h; simp [stmtOK, exprOK] at hok
  | .param n d, g, r, g1 => by intro hok h; simp [stmtOK, exprOK] at hok
  | .forS t i b, g, r, g1 => by intro hok h; simp [stmtOK, exprOK] at hok
  | .importS m al, g, r, g1 => by intro hok h; simp [stmtOK, exprOK] at hok
  | .fromImport m i, g, r, g1 => by intro hok h; simp [stmtOK, exprOK] at hok
  | .passS, g, r, g1 => by intro hok h; simp [stmtOK, exprOK] at hok
  | .breakS, g, r, g1 => by intro hok h; simp [stmtOK, exprOK] at hok
  | .continueS, g, r, g1 => by intro hok h; simp [stmtOK, exprOK] at hok

theorem stmtsOK_visitSeq : ∀ (l : List Ast) (acc : List IR) (g : Gen)
    (res : List IR) (g1 : Gen), stmtsOK l = true → irAllOperandsOK acc = true →
    visitSeq l acc g = .ok (res, g1) → irAllOperandsOK res = true
  | [], acc, g, res, g1 => by
    intro hok hacc h
    rw [visitSeq_nil_eq] at h
    cases h
    exact hacc
  | s :: rest, acc, g, res, g1 => by
    intro hok hacc h
    simp only [stmtsOK, Bool.and_eq_true] at hok
    rw [visitSeq_cons_eq, bind_eq_ok] at h
    obtain ⟨⟨r0, gA⟩, hv, h⟩ := h
    simp only [] at h
    have hr := stmtOK_visit s g r0 gA hok.1 hv
    exact stmtsOK_visitSeq rest (flattenInto acc r0) gA res g1 hok.2
      (flatten_ok acc r0 hacc hr) h

theorem stmtsOK_visitClassBody : ∀ (l : List Ast) (acc : List IR) (g : Gen)
    (res : List IR) (g1 : Gen), stmtsOK l = true → irAllOperandsOK acc = true →
    visitClassBody l acc g = .ok (res, g1) → irAllOperandsOK res = true
  | [], acc, g, res, g1 => by
    intro hok hacc h
    rw [visitClassBody_nil_eq] at h
    cases h
    exact hacc
  | .fndef n p b :: rest, acc, g, res, g1 => by
    intro hok hacc h
    simp only [stmtsOK, Bool.and_eq_true, stmtOK] at hok
    rw [visitClassBody_cons_fndef_eq, bind_eq_ok] at h
    obtain ⟨pnames, hp, h⟩ := h
    rw [bind_eq_ok] at h
    obtain ⟨⟨bodyIR, gA⟩, hbody, h⟩ := h
    simp only [] at h
    have hbb := stmtsOK_visitSeq b [] _ bodyIR gA hok.1 rfl hbody
    refine stmtsOK_visitClassBody rest (acc ++ [IR.func n pnames bodyIR]) _ res g1 hok.2 ?_ h
    simp [irAllOperandsOK_append, irAllOperandsOK, irOperandsOK, hacc, hbb]
  | .intLit v :: rest, acc, g, res, g1 => by
    intro hok hacc h
    simp only [stmtsOK, Bool.and_eq_true] at hok
    rw [visitClassBody_cons_other_eq _ _ _ _ (by simp)] at h
    exact stmtsOK_visitClassBody rest acc g res g1 hok.2 hacc h
  | .floatLit v :: rest, acc, g, res, g1 => by
    intro hok hacc h
    simp only [stmtsOK, Bool.and_eq_true] at hok
    rw [visitClassBody_cons_other_eq _ _ _ _ (by simp)] at h
    exact stmtsOK_visitClassBody rest acc g res g1 hok.2 hacc h
  | .strLit v b :: rest, acc, g, res, g1 => by
    intro hok hacc h
    simp only [stmtsOK, Bool.and_eq_true] at hok
    rw [visitClassBody_cons_other_eq _ _ _ _ (by simp)] at h
    exact stmtsOK_visitClassBody rest acc g res g1 hok.2 hacc h
  | .boolLit b :: rest, acc, g, res, g1 => by
    intro hok hacc h
    simp only [stmtsOK, Bool.and_eq_true] at hok
    rw [visitClassBody_cons_other_eq _ _ _ _ (by simp)] at h
    exact stmtsOK_visitClassBody rest acc g res g1 hok.2 hacc h
  | .noneLit :: rest, acc, g, res, g1 => by
    intro hok hacc h
    simp only [stmtsOK, Bool.and_eq_true] at hok
    rw [visitClassBody_cons_other_eq _ _ _ _ (by simp)] at h
    exact stmtsOK_visitClassBody rest acc g res g1 hok.2 hacc h
  | .ident x :: rest, acc, g, res, g1 => by
    intro hok hacc h
    simp only [stmtsOK, Bool.and_eq_true] at hok
    rw [visitClassBody_cons_other_eq _ _ _ _ (by simp)] at h
    exact stmtsOK_visitClassBody rest acc g res g1 hok.2 hacc h
  | .binop op l r :: rest, acc, g, res, g1 => by
    intro hok hacc h
    simp only [stmtsOK, Bool.and_eq_true] at hok
    rw [visitClassBody_cons_other_eq _ _ _ _ (by simp)] at h
    exact stmtsOK_visitClassBody rest acc g res g1 hok.2 hacc h
  | .assign t v :: rest, acc, g, res, g1 => by
    intro hok hacc h
    simp only [stmtsOK, Bool.and_eq_true] at hok
    rw [visitClassBody_cons_other_eq _ _ _ _ (by simp)] at h
    exact stmtsOK_visitClassBody rest acc g res g1 hok.2 hacc h
  | .fncall c a k :: rest, acc, g, res, g1 => by
    intro hok hacc h
    simp only [stmtsOK, Bool.and_eq_true] at hok
    rw [visitClassBody_cons_other_eq _ _ _ _ (by simp)] at h
    exact stmtsOK_visitClassBody rest acc g res g1 hok.2 hacc h
  | .attr v a :: rest, acc, g, res, g1 => by
    intro hok hacc h
    simp only [stmtsOK, Bool.and_eq_true] at hok
    rw [visitClassBody_cons_other_eq _ _ _ _ (by simp)] at h
    exact stmtsOK_visitClassBody rest acc g res g1 hok.2 hacc h
  | .subscript v i :: rest, acc, g, res, g1 => by
    intro hok hacc h
    simp only [stmtsOK, Bool.and_eq_true] at hok
    rw [visitClassBody_cons_other_eq _ _ _ _ (by simp)] at h
    exact stmtsOK_visitClassBody rest acc g res g1 hok.2 hacc h
  | .listlit l :: rest, acc, g, res, g1 => by
    intro hok hacc h
    simp only [stmtsOK, Bool.and_eq_true] at hok
    rw [visitClassBody_cons_other_eq _ _ _ _ (by simp)] at h
    exact stmtsOK_visitClassBody rest acc g res g1 hok.2 hacc h
  | .dictlit l :: rest, acc, g, res, g1 => by
    intro hok hacc h
    simp only [stmtsOK, Bool.and_eq_true] at hok
    rw [visitClassBody_cons_other_eq _ _ _ _ (by simp)] at h
    exact stmtsOK_visitClassBody rest acc g res g1 hok.2 hacc h
  | .param n d :: rest, acc, g, res, g1 => by
    intro hok hacc h
    simp only [stmtsOK, Bool.and_eq_true] at hok
    rw [visitClassBody_cons_other_eq _ _ _ _ (by simp)] at h
    exact stmtsOK_visitClassBody rest acc g res g1 hok.2 hacc h
  | .classdef n bs b :: rest, acc, g, res, g1 => by
    intro hok hacc h
    simp only [stmtsOK, Bool.and_eq_true] at hok
    rw [visitClassBody_cons_other_eq _ _ _ _ (by simp)] at h
    exact stmtsOK_visitClassBody rest acc g res g1 hok.2 hacc h
  | .ifS c tb eb :: rest, acc, g, res, g1 => by
    intro hok hacc h
    simp only [stmtsOK, Bool.and_eq_true] at hok
    rw [visitClassBody_cons_other_eq _ _ _ _ (by simp)] at h
    exact stmtsOK_visitClassBody rest acc g res g1 hok.2 hacc h
  | .whileS c b :: rest, acc, g, res, g1 => by
    intro hok hacc h
    simp only [stmtsOK, Bool.and_eq_true] at hok
    rw [visitClassBody_cons_other_eq _ _ _ _ (by simp)] at h
    exact stmtsOK_visitClassBody rest acc g res g1 hok.2 hacc h
  | .forS t i b :: rest, acc, g, res, g1 => by
    intro hok hacc h
    simp only [stmtsOK, Bool.and_eq_true] at hok
    rw [visitClassBody_cons_other_eq _ _ _ _ (by simp)] at h
    exact stmtsOK_visitClassBody rest acc g res g1 hok.2 hacc h
  | .ret v :: rest, acc, g, res, g1 => by
    intro hok hacc h
    simp only [stmtsOK, Bool.and_eq_true] at hok
    rw [visitClassBody_cons_other_eq _ _ _ _ (by simp)] at h
    exact stmtsOK_visitClassBody rest acc g res g1 hok.2 hacc h
  | .importS m al :: rest, acc, g, res, g1 => by
    intro hok hacc h
    simp only [stmtsOK, Bool.and_eq_true] at hok
    rw [visitClassBody_cons_other_eq _ _ _ _ (by simp)] at h
    exact stmtsOK_visitClassBody rest acc g res g1 hok.2 hacc h
  | .fromImport m i :: rest, acc, g, res, g1 => by
    intro hok hacc h
    simp only [stmtsOK, Bool.and_eq_true] at hok
    rw [visitClassBody_cons_other_eq _ _ _ _ (by simp)] at h
    exact stmtsOK_visitClassBody rest acc g res g1 hok.2 hacc h
  | .passS :: rest, acc, g, res, g1 => by
    intro hok hacc h
    simp only [stmtsOK, Bool.and_eq_true] at hok
    rw [visitClassBody_cons_other_eq _ _ _ _ (by simp)] at h
    exact stmtsOK_visitClassBody rest acc g res g1 hok.2 hacc h
  | .breakS :: rest, acc, g, res, g1 => by
    intro hok hacc h
    simp only [stmtsOK, Bool.and_eq_true] at hok
    rw [visitClassBody_cons_other_eq _ _ _ _ (by simp)] at h
    exact stmtsOK_visitClassBody rest acc g res g1 hok.2 hacc h
  | .continueS :: rest, acc, g, res, g1 => by
    intro hok hacc h
    simp only [stmtsOK, Bool.and_eq_true] at hok
    rw [visitClassBody_cons_other_eq _ _ _ _ (by simp)] at h
    exact stmtsOK_visitClassBody rest acc g res g1 hok.2 hacc h
  | .nix :: rest, acc, g, res, g1 => by
    intro hok hacc h
    simp only [stmtsOK, Bool.and_eq_true] at hok
    rw [visitClassBody_cons_other_eq _ _ _ _ (by simp)] at h
    exact stmtsOK_visitClassBody rest acc g res g1 hok.2 hacc h

end

end PyC

namespace PyC

theorem visitProgramLoop_operands : ∀ (stmts : List Ast) (fns mainBody : List IR)
    (g : Gen) (fns2 mb2 : List IR) (g2 : Gen),
    stmtsOK stmts = true → irAllOperandsOK fns = true →
    irAllOperandsOK mainBody = true →
    visitProgramLoop stmts fns mainBody g = .ok (fns2, mb2, g2) →
    irAllOperandsOK fns2 = true ∧ irAllOperandsOK mb2 = true
  | [], fns, mainBody, g, fns2, mb2, g2 => by
    intro hok hf hm h
    rw [visitProgramLoop_nil_eq] at h
    cases h
    exact ⟨hf, hm⟩
  | s :: rest, fns, mainBody, g, fns2, mb2, g2 => by
    intro hok hf hm h
    simp only [stmtsOK, Bool.and_eq_true] at hok
    cases s
    case fndef n p b =>
      rw [visitProgramLoop_cons_fndef_eq, bind_eq_ok] at h
      obtain ⟨⟨r0, gA⟩, hv, h⟩ := h
      simp only [] at h
      have hr := stmtOK_visit _ g r0 gA hok.1 hv
      exact visitProgramLoop_operands rest _ mainBody gA fns2 mb2 g2 hok.2
        (flatten_ok fns r0 hf hr) hm h
    all_goals (
      rw [visitProgramLoop_cons_other_eq _ _ _ _ _ (by rfl), bind_eq_ok] at h
      obtain ⟨⟨r0, gA⟩, hv, h⟩ := h
      have hr := stmtOK_visit _ g r0 gA hok.1 hv
      exact visitProgramLoop_operands rest fns _ gA fns2 mb2 g2 hok.2 hf
        (flatten_ok mainBody r0 hm hr) h)

/-- C4 amended: for translations of statements whose expressions are
literals, identifiers, attribute chains and binary operations (no calls,
no nested assignments), every operand field of every emitted instruction
is a Const leaf, a Var leaf, a temp-name string, or the absent (`None`)
operand — never another instruction.  (With calls, a compound argument's
instruction list is spliced into the args list and a call result is
embedded as an operand, per `call_argument_embeds_instruction`.) -/
theorem operands_leaf_for_call_free (stmts : List Ast) (g : Gen) (p : IR)
    (gEnd : Gen) (hok : stmtsOK stmts = true)
    (h : visitProgram stmts g = .ok (p, gEnd)) :
    irOperandsOK p = true := by
  simp only [visitProgram] at h
  rw [bind_eq_ok] at h
  obtain ⟨⟨fns2, mb2, g2⟩, hloop, h⟩ := h
  have hres := visitProgramLoop_operands stmts [] [] g fns2 mb2 g2 hok rfl rfl hloop
  cases mb2 with
  | nil =>
    simp only [List.isEmpty] at h
    cases h
    simpa [irOperandsOK] using hres.1
  | cons x xs =>
    simp only [List.isEmpty] at h
    cases h
    simp only [irOperandsOK]
    simp [irAllOperandsOK_append, irAllOperandsOK, irOperandsOK, hres.1,
      hres.2.symm ▸ hres.2]
    have h2 := hres.2
    simp [irAllOperandsOK] at h2 ⊢
    exact ⟨h2.1, h2.2⟩

/-- Witness for `operands_leaf_for_call_free` at `z = 4 + 5`. -/
theorem operands_leaf_for_call_free_witness :
    stmtsOK [Ast.assign (.ident "z")
      (.binop "+" (.intLit (.int 4)) (.intLit (.int 5)))] = true ∧
    irOperandsOK (.prog [.func "main" []
      [.binop "+" (.cst (.int 4)) (.cst (.int 5)) "t0",
       .store (.rawstr "t0") "z"]]) = true :=
  ⟨by rfl, operands_leaf_for_call_free
    [Ast.assign (.ident "z") (.binop "+" (.intLit (.int 4)) (.intLit (.int 5)))]
    genInit
    (.prog [.func "main" []
      [.binop "+" (.cst (.int 4)) (.cst (.int 5)) "t0",
       .store (.rawstr "t0") "z"]])
    ⟨1, 0, Option.none, Option.none⟩ (by rfl) (by rfl)⟩

end PyC


namespace PyC

theorem lexbind_eq_ok {eps alp bet : Type} (x : Except eps alp)
    (f : alp → Except eps bet) (b : bet) :
    (x >>= f) = .ok b ↔ ∃ a, x = .ok a ∧ f a = .ok b := by
  cases x with
  | error e => simp [Bind.bind, Except.bind]
  | ok a => simp [Bind.bind, Except.bind]

/-- Number of tokens of kind `k` in a token list. -/
def countKind (k : TokKind) (ts : List Token) : Nat :=
  ts.countP (fun t => decide (t.kind = k))

/-- The three block-structure token kinds whose counts the balance
invariant tracks. -/
def isStructural (k : TokKind) : Bool :=
  decide (k = .indent) || decide (k = .dedent) || decide (k = .endTok)

theorem countKind_append (k : TokKind) (a b : List Token) :
    countKind k (a ++ b) = countKind k a + countKind k b := by
  simp [countKind, List.countP_append]

theorem countKind_cons_skip (k : TokKind) (t : Token) (ts : List Token)
    (hk : isStructural k = true) (ht : isStructural t.kind = false) :
    countKind k (t :: ts) = countKind k ts := by
  simp only [countKind, List.countP_cons]
  have hne : decide (t.kind = k) = false := by
    by_contra hc
    simp only [Bool.not_eq_false, decide_eq_true_eq] at hc
    rw [hc] at ht
    rw [ht] at hk
    cases hk
  simp [hne]

theorem prefix_split {α : Type} : ∀ (a : List α) (b p : List α), p <+: a ++ b →
    p <+: a ∨ ∃ q, p = a ++ q ∧ q <+: b
  | [], b, p, h => Or.inr ⟨p, rfl, h⟩
  | x :: a, b, p, h => by
    cases p with
    | nil => exact Or.inl List.nil_prefix
    | cons y q =>
      obtain ⟨t, ht⟩ := h
      simp only [List.cons_append] at ht
      injection ht with h1 h2
      subst h1
      rcases prefix_split a b q ⟨t, h2⟩ with hq | ⟨r, hr, hrb⟩
      · exact Or.inl (List.cons_prefix_cons.mpr ⟨rfl, hq⟩)
      · exact Or.inr ⟨r, by rw [hr, List.cons_append], hrb⟩

theorem prefix_cons_cases {α : Type} (x : α) (l p : List α) (h : p <+: x :: l) :
    p = [] ∨ ∃ q, p = x :: q ∧ q <+: l := by
  cases p with
  | nil => exact Or.inl rfl
  | cons y q =>
    obtain ⟨t, ht⟩ := h
    injection ht with h1 h2
    exact Or.inr ⟨q, by rw [h1], ⟨t, h2⟩⟩

theorem prefix_replicate {α : Type} : ∀ (k : Nat) (x : α) (p : List α),
    p <+: List.replicate k x → p = List.replicate p.length x ∧ p.length ≤ k
  | k, _, [], _ => ⟨rfl, Nat.zero_le k⟩
  | 0, x, p, h => by
    rw [List.replicate_zero, List.prefix_nil] at h
    subst h
    exact ⟨rfl, Nat.le_refl 0⟩
  | k + 1, x, y :: q, h => by
    obtain ⟨t, ht⟩ := h
    rw [List.replicate_succ] at ht
    injection ht with h1 h2
    subst h1
    obtain ⟨hq, hlen⟩ := prefix_replicate k y q ⟨t, h2⟩
    constructor
    · simp only [List.length_cons, List.replicate_succ]
      rw [← hq]
    · simp only [List.length_cons]
      omega

/-- The running INDENT/DEDENT balance invariant of a token segment `toks`
emitted while the indentation stack went from depth `d0` to depth `d1`:
the counts track the depth change, no prefix closes more levels than were
open, and the segment contains no END token. -/
def balInv (toks : List Token) (d0 d1 : Nat) : Prop :=
  countKind .indent toks + d0 = countKind .dedent toks + d1 ∧
  (∀ p, p <+: toks → countKind .dedent p + 1 ≤ countKind .indent p + d0) ∧
  countKind .endTok toks = 0

theorem balInv_nil (d : Nat) (hd : 1 ≤ d) : balInv [] d d := by
  refine ⟨rfl, ?_, rfl⟩
  intro p hp
  rw [List.prefix_nil] at hp
  subst hp
  simpa [countKind] using hd

theorem balInv_append {a b : List Token} {d0 d1 d2 : Nat}
    (ha : balInv a d0 d1) (hb : balInv b d1 d2) : balInv (a ++ b) d0 d2 := by
  obtain ⟨hae, hap, han⟩ := ha
  obtain ⟨hbe, hbp, hbn⟩ := hb
  refine ⟨?_, ?_, ?_⟩
  · rw [countKind_append, countKind_append]
    omega
  · intro p hp
    rcases prefix_split a b p hp with hpa | ⟨q, hpq, hqb⟩
    · exact hap p hpa
    · subst hpq
      rw [countKind_append, countKind_append]
      have := hbp q hqb
      omega
  · rw [countKind_append]
    omega

theorem balInv_cons_tok {ts : List Token} {d1 d2 : Nat} (t : Token)
    (ht : isStructural t.kind = false) (hd1 : 1 ≤ d1)
    (hts : balInv ts d1 d2) : balInv (t :: ts) d1 d2 := by
  obtain ⟨he, hp, hn⟩ := hts
  refine ⟨?_, ?_, ?_⟩
  · rw [countKind_cons_skip _ _ _ (by rfl) ht]
    rw [countKind_cons_skip _ _ _ (by rfl) ht]
    exact he
  · intro p hpp
    rcases prefix_cons_cases t ts p hpp with hnil | ⟨q, hpq, hqts⟩
    · subst hnil
      simpa [countKind] using hd1
    · subst hpq
      rw [countKind_cons_skip _ _ _ (by rfl) ht,
        countKind_cons_skip _ _ _ (by rfl) ht]
      exact hp q hqts
  · rw [countKind_cons_skip _ _ _ (by rfl) ht]
    exact hn

theorem countKind_replicate (k : TokKind) (n : Nat) (t : Token) :
    countKind k (List.replicate n t) =
      if t.kind = k then n else 0 := by
  induction n with
  | zero => simp [countKind]
  | succ n ih =>
    rw [List.replicate_succ]
    simp only [countKind, List.countP_cons] at ih ⊢
    split <;> simp_all

theorem balInv_single_indent (d ln cl : Nat) (hd : 1 ≤ d) :
    balInv [⟨.indent, .str "", ln, cl⟩] d (d + 1) := by
  refine ⟨by simp [countKind, Nat.add_comm], ?_, by simp [countKind]⟩
  intro p hp
  rcases prefix_cons_cases _ _ p hp with hnil | ⟨q, hpq, hq⟩
  · subst hnil
    simpa [countKind] using hd
  · rw [List.prefix_nil] at hq
    subst hq
    subst hpq
    simp [countKind]

theorem balInv_replicate_dedent (k d ln cl : Nat) (hk : k + 1 ≤ d) :
    balInv (List.replicate k ⟨.dedent, .str "", ln, cl⟩) d (d - k) := by
  refine ⟨?_, ?_, ?_⟩
  · rw [countKind_replicate, countKind_replicate]
    simp only [reduceCtorEq, if_false, if_true, reduceIte]
    omega
  · intro p hp
    obtain ⟨hpeq, hple⟩ := prefix_replicate k _ p hp
    rw [hpeq, countKind_replicate, countKind_replicate]
    simp only [reduceCtorEq, if_false, if_true, reduceIte]
    omega
  · rw [countKind_replicate]
    simp


/-! State-preservation lemmas: none of the character-consuming helpers of
the scanner touches the indentation stack. -/

theorem advancec_indent (st : LexState) :
    (advancec st).2.indentLevels = st.indentLevels := by
  rcases st with ⟨_ | ⟨c, r⟩, line, col, ind, als⟩
  · rfl
  · simp only [advancec]
    split <;> rfl

theorem skipWs_indent : ∀ (fuel : Nat) (st : LexState),
    (skipWs fuel st).indentLevels = st.indentLevels
  | 0, st => rfl
  | fuel + 1, st => by
    rw [skipWs]
    split
    · rw [skipWs_indent fuel _, advancec_indent]
    · rfl

theorem skipWhitespace_indent (st : LexState) :
    (skipWhitespace st).indentLevels = st.indentLevels := by
  rw [skipWhitespace]
  split
  · rfl
  · exact skipWs_indent _ _

theorem skipCommentLoop_indent : ∀ (fuel : Nat) (st : LexState),
    (skipCommentLoop fuel st).indentLevels = st.indentLevels
  | 0, st => rfl
  | fuel + 1, st => by
    rw [skipCommentLoop]
    split
    · rw [skipCommentLoop_indent fuel _, advancec_indent]
    · rfl

theorem skipComment_indent (st : LexState) :
    (skipComment st).indentLevels = st.indentLevels :=
  skipCommentLoop_indent _ _

theorem countIndentLoop_indent : ∀ (fuel : Nat) (st : LexState) (acc : Nat),
    (countIndentLoop fuel st acc).2.indentLevels = st.indentLevels
  | 0, st, acc => rfl
  | fuel + 1, st, acc => by
    rw [countIndentLoop]
    split
    · rw [countIndentLoop_indent fuel _ _, advancec_indent]
    · split
      · rw [countIndentLoop_indent fuel _ _, advancec_indent]
      · rfl

theorem digitsLoopF_indent : ∀ (fuel : Nat) (st : LexState) (acc : List Char),
    (digitsLoopF fuel st acc).2.indentLevels = st.indentLevels
  | 0, st, acc => rfl
  | fuel + 1, st, acc => by
    rw [digitsLoopF]
    split
    · rw [digitsLoopF_indent fuel _ _, advancec_indent]
    · rfl

theorem digitsLoop_indent (st : LexState) (acc : List Char) :
    (digitsLoop st acc).2.indentLevels = st.indentLevels :=
  digitsLoopF_indent _ _ _

theorem identLoopF_indent : ∀ (fuel : Nat) (st : LexState) (acc : List Char),
    (identLoopF fuel st acc).2.indentLevels = st.indentLevels
  | 0, st, acc => rfl
  | fuel + 1, st, acc => by
    rw [identLoopF]
    split
    · rw [identLoopF_indent fuel _ _, advancec_indent]
    · rfl

theorem identLoop_indent (st : LexState) (acc : List Char) :
    (identLoop st acc).2.indentLevels = st.indentLevels :=
  identLoopF_indent _ _ _

theorem hexCollect_indent : ∀ (n : Nat) (st : LexState),
    (hexCollect n st).2.indentLevels = st.indentLevels
  | 0, st => rfl
  | n + 1, st => by
    rw [hexCollect]
    split
    · simp only []
      rw [hexCollect_indent n _, advancec_indent]
    · rfl

theorem parseEscape_indent {st : LexState} {c : Char} {st2 : LexState}
    (h : parseEscape st = .ok (c, st2)) :
    st2.indentLevels = st.indentLevels := by
  rw [parseEscape] at h
  repeat' split at h
  all_goals
    first
    | (cases h; simp [advancec_indent, hexCollect_indent])
    | cases h

theorem scanStr_indent : ∀ (fuel : Nat) (q : Char) (isTriple : Bool)
    (st : LexState) (acc cs : List Char) (st2 : LexState),
    scanStr fuel q isTriple st acc = .ok (cs, st2) →
    st2.indentLevels = st.indentLevels
  | 0, q, isTriple, st, acc, cs, st2 => by
    intro h
    cases h
    rfl
  | fuel + 1, q, isTriple, st, acc, cs, st2 => by
    intro h
    rw [scanStr] at h
    split at h
    · cases h; rfl
    · split at h
      · split at h
        · cases h
        · rename_i c2 st3 heq
          rw [scanStr_indent fuel q isTriple st3 _ cs st2 h]
          exact parseEscape_indent heq
      · rw [scanStr_indent fuel q isTriple _ _ cs st2 h, advancec_indent]

theorem parseString_ok {st : LexState} {tok : Token} {st2 : LexState}
    (h : parseString st = .ok (tok, st2)) :
    st2.indentLevels = st.indentLevels ∧ tok.kind = .strLit := by
  rw [parseString] at h
  split at h
  rename_i q st2a hadv
  have hst2a : st2a.indentLevels = st.indentLevels := by
    have := congrArg (fun p => p.2.indentLevels) hadv
    simp only at this
    rw [← this, advancec_indent]
    split <;> simp [advancec_indent]
  dsimp only at h
  split at h
  · cases h
  · rename_i cs st4 hscan
    split at h
    · cases h
    · have h4 := scanStr_indent _ _ _ _ _ _ _ hscan
      have h5 : st4.indentLevels = st2a.indentLevels := by
        rw [h4]
        split <;> simp [advancec_indent]
      simp only [Except.ok.injEq, Prod.mk.injEq] at h
      obtain ⟨h6, h7⟩ := h
      constructor
      · rw [← h7]
        split <;> simp [advancec_indent, h5, hst2a]
      · rw [← h6]

theorem parseNumber_st (st : LexState) :
    (parseNumber st).2.indentLevels = st.indentLevels ∧
    isStructural (parseNumber st).1.kind = false := by
  rcases h1 : digitsLoop st [] with ⟨ds, st1⟩
  have e1 : st1.indentLevels = st.indentLevels := by
    have h2 := digitsLoop_indent st []
    rw [h1] at h2
    exact h2
  simp only [parseNumber, h1]
  simp only [apply_ite (Prod.fst (α := List Char) (β := LexState)),
    apply_ite (Prod.snd (α := List Char) (β := LexState)),
    apply_ite (Prod.fst (α := Bool) (β := List Char × LexState)),
    apply_ite (Prod.snd (α := Bool) (β := List Char × LexState)),
    apply_ite (Prod.fst (α := Token) (β := LexState)),
    apply_ite (Prod.snd (α := Token) (β := LexState)),
    apply_ite LexState.indentLevels, apply_ite Token.kind,
    apply_ite isStructural]
  simp [digitsLoop_indent, advancec_indent, e1, isStructural,
    apply_ite LexState.indentLevels]

theorem kwLookup_not_structural (s : String) :
    isStructural (kwLookup s) = false := by
  simp only [kwLookup, apply_ite isStructural]
  simp [isStructural]

theorem parseIdentifier_st (st : LexState) :
    (parseIdentifier st).2.indentLevels = st.indentLevels ∧
    isStructural (parseIdentifier st).1.kind = false := by
  rw [parseIdentifier]
  split
  rename_i first st1 heq1
  have e1 : st1.indentLevels = st.indentLevels := by
    split at heq1 <;> (injection heq1 with h1 h2; rw [← h2]) <;>
      simp [advancec_indent]
  split
  rename_i cs st2 heq2
  have e2 : st2.indentLevels = st1.indentLevels := by
    have h3 := identLoop_indent st1 first
    rw [heq2] at h3
    exact h3
  exact ⟨e2.trans e1, kwLookup_not_structural _⟩

theorem adv1_indent (st : LexState) : (adv1 st).indentLevels = st.indentLevels :=
  advancec_indent st

theorem adv2_indent (st : LexState) : (adv2 st).indentLevels = st.indentLevels := by
  rw [adv2, advancec_indent, advancec_indent]

theorem popLevels_length : ∀ (levels : List Nat) (cur : Nat),
    (popLevels levels cur).1.length + (popLevels levels cur).2 = levels.length
  | [], cur => rfl
  | top :: rest, cur => by
    rw [popLevels]
    split
    · have ih := popLevels_length rest cur
      cases hp : popLevels rest cur with
      | mk l k =>
        rw [hp] at ih
        simp only [hp, List.length_cons]
        simp only at ih
        omega
    · simp

/-- `handle_indentation` preserves a non-empty indentation stack and emits
a balanced structural-token segment. -/
theorem handleIndentation_balance {st : LexState} {itoks : List Token}
    {st1 : LexState} (h : handleIndentation st = .ok (itoks, st1))
    (hd : 1 ≤ st.indentLevels.length) :
    1 ≤ st1.indentLevels.length ∧
    balInv itoks st.indentLevels.length st1.indentLevels.length := by
  rw [handleIndentation] at h
  split at h
  rename_i cur st1a hcil
  have e1 : st1a.indentLevels = st.indentLevels := by
    have h2 := countIndentLoop_indent st.rest.length st 0
    rw [hcil] at h2
    exact h2
  split at h
  · cases h
    rw [e1]
    exact ⟨hd, balInv_nil _ hd⟩
  · split at h
    · cases h
    · rename_i prev below hlev
      have hlen : st.indentLevels.length = below.length + 1 := by
        rw [← e1, hlev]
        rfl
      split at h
      · cases h
        constructor
        · simp
        · rw [hlen]
          simp only [List.length_cons]
          exact balInv_single_indent (below.length + 1) st1a.line st1a.col
            (by omega)
      · split at h
        · split at h
          rename_i lev k hpop
          split at h
          · cases h
          · split at h
            · cases h
              have hpl := popLevels_length (prev :: below) cur
              rw [hpop] at hpl
              simp only [List.length_cons] at hpl
              constructor
              · simp
              · rw [hlen]
                have hk : k + 1 ≤ below.length + 1 := by omega
                have h9 := balInv_replicate_dedent k (below.length + 1)
                  st1a.line st1a.col hk
                convert h9 using 2
                simp only [List.length_cons]
                omega
            · cases h
        · cases h
          have h11 : (prev :: below).length = st.indentLevels.length := by
            rw [← hlev, e1]
          constructor
          · simp
          · rw [h11]
            exact balInv_nil _ hd


theorem balStep_noTok {itoks ts toks : List Token} {d0 d1 d2 : Nat}
    (hB1 : 1 ≤ d1 ∧ balInv itoks d0 d1)
    (hIH : 1 ≤ d2 ∧ balInv ts d1 d2)
    (heq : toks = itoks ++ ts) :
    1 ≤ d2 ∧ balInv toks d0 d2 :=
  ⟨hIH.1, heq ▸ balInv_append hB1.2 hIH.2⟩

theorem balStep_tok {itoks ts toks : List Token} {t : Token} {d0 d1 d2 : Nat}
    (ht : isStructural t.kind = false)
    (hB1 : 1 ≤ d1 ∧ balInv itoks d0 d1)
    (hIH : 1 ≤ d2 ∧ balInv ts d1 d2)
    (heq : toks = itoks ++ t :: ts) :
    1 ≤ d2 ∧ balInv toks d0 d2 :=
  ⟨hIH.1, heq ▸ balInv_append hB1.2 (balInv_cons_tok t ht hB1.1 hIH.2)⟩

theorem punctKind_not_structural (c : Char) (k : TokKind)
    (h : (if c = '.' then some TokKind.dot
      else if c = ',' then some TokKind.comma
      else if c = ':' then some TokKind.colon
      else if c = ';' then some TokKind.semicolon
      else if c = '(' then some TokKind.lparen
      else if c = ')' then some TokKind.rparen
      else if c = '[' then some TokKind.lbrack
      else if c = ']' then some TokKind.rbrack
      else if c = '{' then some TokKind.lbrace
      else if c = '}' then some TokKind.rbrace
      else Option.none) = some k) : isStructural k = false := by
  repeat' split at h
  all_goals first | (cases h; rfl) | cases h

theorem lexBindOk {eps alp bet : Type} (a : alp) (f : alp → Except eps bet) :
    (Except.ok a >>= f : Except eps bet) = f a := rfl

theorem lexBindErr {eps alp bet : Type} (e : eps) (f : alp → Except eps bet) :
    (Except.error e >>= f : Except eps bet) = .error e := rfl

set_option maxHeartbeats 1000000 in
/-- The operator arm never touches the indentation stack and never emits
a structural token. -/
theorem opDispatch_st {st1 : LexState} {tokO : Option Token}
    {stM : LexState} (h : opDispatch st1 = .ok (tokO, stM)) :
    stM.indentLevels = st1.indentLevels ∧
    ∀ t, tokO = some t → isStructural t.kind = false := by
  rw [opDispatch] at h
  simp only [] at h
  by_cases hop1 : peekc st1 = '+'
  · rw [if_pos hop1] at h
    by_cases hop2 : peekNext st1 = '='
    · rw [if_pos hop2] at h
      cases h
      exact ⟨by simp [adv2_indent],
        by intro t ht; cases ht; rfl⟩
    · rw [if_neg hop2] at h
      cases h
      exact ⟨by simp [adv1_indent],
        by intro t ht; cases ht; rfl⟩
  · rw [if_neg hop1] at h
    by_cases hop3 : peekc st1 = '-'
    · rw [if_pos hop3] at h
      by_cases hop4 : peekNext st1 = '='
      · rw [if_pos hop4] at h
        cases h
        exact ⟨by simp [adv2_indent],
          by intro t ht; cases ht; rfl⟩
      · rw [if_neg hop4] at h
        cases h
        exact ⟨by simp [adv1_indent],
          by intro t ht; cases ht; rfl⟩
    · rw [if_neg hop3] at h
      by_cases hop5 : peekc st1 = '*'
      · rw [if_pos hop5] at h
        by_cases hop6 : peekNext st1 = '*'
        · rw [if_pos hop6] at h
          cases h
          exact ⟨by simp [adv2_indent],
            by intro t ht; cases ht; rfl⟩
        · rw [if_neg hop6] at h
          by_cases hop7 : peekNext st1 = '='
          · rw [if_pos hop7] at h
            cases h
            exact ⟨by simp [adv2_indent],
              by intro t ht; cases ht; rfl⟩
          · rw [if_neg hop7] at h
            cases h
            exact ⟨by simp [adv1_indent],
              by intro t ht; cases ht; rfl⟩
      · rw [if_neg hop5] at h
        by_cases hop8 : peekc st1 = '/'
        · rw [if_pos hop8] at h
          by_cases hop9 : peekNext st1 = '='
          · rw [if_pos hop9] at h
            cases h
            exact ⟨by simp [adv2_indent],
              by intro t ht; cases ht; rfl⟩
          · rw [if_neg hop9] at h
            by_cases hop10 : peekNext st1 = '/'
            · rw [if_pos hop10] at h
              cases h
              exact ⟨by simp [adv2_indent],
                by intro t ht; cases ht; rfl⟩
            · rw [if_neg hop10] at h
              cases h
              exact ⟨by simp [adv1_indent],
                by intro t ht; cases ht; rfl⟩
        · rw [if_neg hop8] at h
          by_cases hop11 : peekc st1 = '%'
          · rw [if_pos hop11] at h
            cases h
            exact ⟨by simp [adv1_indent],
              by intro t ht; cases ht; rfl⟩
          · rw [if_neg hop11] at h
            by_cases hop12 : peekc st1 = '='
            · rw [if_pos hop12] at h
              by_cases hop13 : peekNext st1 = '='
              · rw [if_pos hop13] at h
                cases h
                exact ⟨by simp [adv2_indent],
                  by intro t ht; cases ht; rfl⟩
              · rw [if_neg hop13] at h
                cases h
                exact ⟨by simp [adv1_indent],
                  by intro t ht; cases ht; rfl⟩
            · rw [if_neg hop12] at h
              by_cases hop14 : peekc st1 = '!'
              · rw [if_pos hop14] at h
                by_cases hop15 : peekNext st1 = '='
                · rw [if_pos hop15] at h
                  cases h
                  exact ⟨by simp [adv2_indent],
                    by intro t ht; cases ht; rfl⟩
                · rw [if_neg hop15] at h
                  cases h
              · rw [if_neg hop14] at h
                by_cases hop16 : peekc st1 = '<'
                · rw [if_pos hop16] at h
                  by_cases hop17 : peekNext st1 = '='
                  · rw [if_pos hop17] at h
                    cases h
                    exact ⟨by simp [adv2_indent],
                      by intro t ht; cases ht; rfl⟩
                  · rw [if_neg hop17] at h
                    cases h
                    exact ⟨by simp [adv1_indent],
                      by intro t ht; cases ht; rfl⟩
                · rw [if_neg hop16] at h
                  by_cases hop18 : peekc st1 = '>'
                  · rw [if_pos hop18] at h
                    by_cases hop19 : peekNext st1 = '='
                    · rw [if_pos hop19] at h
                      cases h
                      exact ⟨by simp [adv2_indent],
                        by intro t ht; cases ht; rfl⟩
                    · rw [if_neg hop19] at h
                      cases h
                      exact ⟨by simp [adv1_indent],
                        by intro t ht; cases ht; rfl⟩
                  · rw [if_neg hop18] at h
                    split at h
                    · cases h
                      exact ⟨by simp [adv1_indent],
                        by intro t ht; cases ht;
                           exact punctKind_not_structural _ _ (by assumption)⟩
                    · cases h

set_option maxHeartbeats 2000000 in
/-- Balance transfer across the per-character dispatch of one "tokenize"
loop iteration (the loop body after the line-start indentation handling),
assuming the invariant for all recursive calls at the smaller fuel. -/
theorem tokenizeCont_balance (fuel : Nat)
    (IH : ∀ (stA : LexState) (toksA : List Token) (st2A : LexState),
      tokenizeLoop fuel stA = Except.ok (toksA, st2A) →
      1 ≤ stA.indentLevels.length →
      1 ≤ st2A.indentLevels.length ∧
      balInv toksA stA.indentLevels.length st2A.indentLevels.length)
    (d0 : Nat) (itoks : List Token) (st1 : LexState)
    (hB1 : 1 ≤ st1.indentLevels.length ∧
      balInv itoks d0 st1.indentLevels.length)
    (toks : List Token) (stF : LexState)
    (h : (let c := peekc st1
      if c = '\x00' then Except.ok (itoks, st1)
      else
        let startCol := st1.col
        if c = '#' then do
          let (ts, st') ← tokenizeLoop fuel (skipComment st1)
          Except.ok (itoks ++ ts, st')
        else if c = '\n' then do
          let tok : Token := ⟨.newline, .str "\\n", st1.line, startCol⟩
          let st2 := adv1 st1
          let (ts, st') ← tokenizeLoop fuel
            ⟨st2.rest, st2.line, st2.col, st2.indentLevels, true⟩
          Except.ok (itoks ++ tok :: ts, st')
        else if !st1.atLineStart && pyIsSpace c then do
          let (ts, st') ← tokenizeLoop fuel (skipWhitespace st1)
          Except.ok (itoks ++ ts, st')
        else if st1.atLineStart then do
          let (itoks2, st2) ← handleIndentation st1
          let (ts, st') ← tokenizeLoop fuel st2
          Except.ok (itoks ++ itoks2 ++ ts, st')
        else if pyIsDigit c then do
          let (tok, st2) := parseNumber st1
          let (ts, st') ← tokenizeLoop fuel st2
          Except.ok (itoks ++ tok :: ts, st')
        else if pyIsAlpha c || c = '_' then do
          let (tok, st2) := parseIdentifier st1
          let (ts, st') ← tokenizeLoop fuel st2
          Except.ok (itoks ++ tok :: ts, st')
        else if c = '"' || c = '\'' ||
            ((c = 'f' || c = 'F') && (peekNext st1 = '"' || peekNext st1 = '\'')) then do
          let (tok, st2) ← parseString st1
          let (ts, st') ← tokenizeLoop fuel st2
          Except.ok (itoks ++ tok :: ts, st')
        else do
          let (tok?, st2) ← opDispatch st1
          let (ts, st') ← tokenizeLoop fuel st2
          match tok? with
          | some tok => .ok (itoks ++ tok :: ts, st')
          | Option.none => .ok (itoks ++ ts, st')) = Except.ok (toks, stF)) :
    1 ≤ stF.indentLevels.length ∧ balInv toks d0 stF.indentLevels.length := by
  simp only [] at h
  by_cases hc0 : peekc st1 = '\x00'
  · rw [if_pos hc0] at h
    cases h
    exact hB1
  · rw [if_neg hc0] at h
    by_cases hcH : peekc st1 = '#'
    · rw [if_pos hcH] at h
      rw [lexbind_eq_ok] at h
      obtain ⟨⟨ts, stB⟩, hRec, h⟩ := h
      simp only [] at h
      cases h
      have hIH := IH _ _ _ hRec
        (by rw [skipComment_indent]; exact hB1.1)
      rw [skipComment_indent] at hIH
      exact balStep_noTok hB1 hIH rfl
    · rw [if_neg hcH] at h
      by_cases hcN : peekc st1 = '\n'
      · rw [if_pos hcN] at h
        rw [lexbind_eq_ok] at h
        obtain ⟨⟨ts, stB⟩, hRec, h⟩ := h
        simp only [] at h
        cases h
        have hIH := IH _ _ _ hRec
          (by simpa [adv1_indent] using hB1.1)
        simp only [adv1_indent] at hIH
        exact balStep_tok (by rfl) hB1 hIH rfl
      · rw [if_neg hcN] at h
        by_cases hws : (!st1.atLineStart && pyIsSpace (peekc st1)) = true
        · rw [if_pos hws] at h
          rw [lexbind_eq_ok] at h
          obtain ⟨⟨ts, stB⟩, hRec, h⟩ := h
          simp only [] at h
          cases h
          have hIH := IH _ _ _ hRec
            (by rw [skipWhitespace_indent]; exact hB1.1)
          rw [skipWhitespace_indent] at hIH
          exact balStep_noTok hB1 hIH rfl
        · rw [if_neg hws] at h
          by_cases hals2 : st1.atLineStart = true
          · rw [if_pos hals2] at h
            rw [lexbind_eq_ok] at h
            obtain ⟨⟨itoks2, stC⟩, hInd2, h⟩ := h
            simp only [] at h
            rw [lexbind_eq_ok] at h
            obtain ⟨⟨ts, stB⟩, hRec, h⟩ := h
            simp only [] at h
            cases h
            have hB2 := handleIndentation_balance hInd2 hB1.1
            have hIH := IH _ _ _ hRec hB2.1
            exact ⟨hIH.1,
              balInv_append (balInv_append hB1.2 hB2.2) hIH.2⟩
          · rw [if_neg hals2] at h
            by_cases hdig : pyIsDigit (peekc st1) = true
            · rw [if_pos hdig] at h
              rcases hpn : parseNumber st1 with ⟨tok, stM⟩
              rw [hpn] at h
              simp only [] at h
              rw [lexbind_eq_ok] at h
              obtain ⟨⟨ts, stB⟩, hRec, h⟩ := h
              simp only [] at h
              cases h
              have hps := parseNumber_st st1
              rw [hpn] at hps
              have hIH := IH _ _ _ hRec
                (by rw [hps.1]; exact hB1.1)
              rw [hps.1] at hIH
              exact balStep_tok hps.2 hB1 hIH rfl
            · rw [if_neg hdig] at h
              by_cases halpha :
                  (pyIsAlpha (peekc st1) || decide (peekc st1 = '_')) = true
              · rw [if_pos halpha] at h
                rcases hpn : parseIdentifier st1 with ⟨tok, stM⟩
                rw [hpn] at h
                simp only [] at h
                rw [lexbind_eq_ok] at h
                obtain ⟨⟨ts, stB⟩, hRec, h⟩ := h
                simp only [] at h
                cases h
                have hps := parseIdentifier_st st1
                rw [hpn] at hps
                have hIH := IH _ _ _ hRec
                  (by rw [hps.1]; exact hB1.1)
                rw [hps.1] at hIH
                exact balStep_tok hps.2 hB1 hIH rfl
              · rw [if_neg halpha] at h
                by_cases hstr :
                    (decide (peekc st1 = '"') || decide (peekc st1 = '\'') ||
                      ((decide (peekc st1 = 'f') || decide (peekc st1 = 'F')) &&
                        (decide (peekNext st1 = '"') ||
                          decide (peekNext st1 = '\'')))) = true
                · rw [if_pos hstr] at h
                  rw [lexbind_eq_ok] at h
                  obtain ⟨⟨tok, stM⟩, hpsr, h⟩ := h
                  simp only [] at h
                  rw [lexbind_eq_ok] at h
                  obtain ⟨⟨ts, stB⟩, hRec, h⟩ := h
                  simp only [] at h
                  cases h
                  have hst := parseString_ok hpsr
                  have hIH := IH _ _ _ hRec
                    (by rw [hst.1]; exact hB1.1)
                  rw [hst.1] at hIH
                  exact balStep_tok (by rw [hst.2]; rfl) hB1 hIH rfl
                · rw [if_neg hstr] at h
                  rw [lexbind_eq_ok] at h
                  obtain ⟨⟨tokO, stM⟩, hOp, h⟩ := h
                  simp only [] at h
                  rw [lexbind_eq_ok] at h
                  obtain ⟨⟨ts, stB⟩, hRec, h⟩ := h
                  simp only [] at h
                  have hM := opDispatch_st hOp
                  have hIH := IH _ _ _ hRec (by rw [hM.1]; exact hB1.1)
                  rw [hM.1] at hIH
                  cases tokO with
                  | none =>
                    simp only [] at h
                    cases h
                    exact balStep_noTok hB1 hIH rfl
                  | some tok =>
                    simp only [] at h
                    cases h
                    exact balStep_tok (hM.2 tok rfl) hB1 hIH rfl

set_option maxHeartbeats 1000000 in
/-- The scanning loop preserves a non-empty indentation stack and emits a
token segment satisfying the INDENT/DEDENT balance invariant; END tokens
are never emitted by the loop itself. -/
theorem tokenizeLoop_balance : ∀ (fuel : Nat) (st : LexState)
    (toks : List Token) (st2 : LexState),
    tokenizeLoop fuel st = .ok (toks, st2) →
    1 ≤ st.indentLevels.length →
    1 ≤ st2.indentLevels.length ∧
    balInv toks st.indentLevels.length st2.indentLevels.length
  | 0, st, toks, st2 => by
    intro h
    cases h
  | fuel + 1, st, toks, st2 => by
    intro h hd
    rw [tokenizeLoop] at h
    by_cases hrest : st.rest = []
    · rw [if_pos hrest] at h
      cases h
      exact ⟨hd, balInv_nil _ hd⟩
    · rw [if_neg hrest] at h
      by_cases hals : st.atLineStart = true
      · rw [if_pos hals] at h
        rcases hInd : handleIndentation st with e | y
        · rw [hInd] at h
          exact absurd h (by simp [lexBindErr])
        · obtain ⟨itoks, st1⟩ := y
          rw [hInd] at h
          simp only [lexBindOk] at h
          exact tokenizeCont_balance fuel
            (fun stA toksA st2A hh hdd =>
              tokenizeLoop_balance fuel stA toksA st2A hh hdd)
            st.indentLevels.length itoks st1
            (handleIndentation_balance hInd hd) toks st2 h
      · rw [if_neg hals] at h
        simp only [lexBindOk] at h
        exact tokenizeCont_balance fuel
          (fun stA toksA st2A hh hdd =>
            tokenizeLoop_balance fuel stA toksA st2A hh hdd)
          st.indentLevels.length [] st
          ⟨hd, balInv_nil _ hd⟩ toks st2 h


/-- C7: for every successfully tokenized source, INDENT and DEDENT tokens
balance exactly; no prefix of the token stream closes more levels than
were opened before it; and the stream ends in a single END token,
preceded by the run of DEDENTs closing the still-open indentation
levels. -/
theorem indent_dedent_balance (src : String) (toks : List Token)
    (h : tokenize src = .ok toks) :
    countKind .indent toks = countKind .dedent toks ∧
    (∀ p, p <+: toks → countKind .dedent p ≤ countKind .indent p) ∧
    countKind .endTok toks = 1 ∧
    ∃ body k ln cl, toks = body ++
        List.replicate k ⟨.dedent, .str "", ln, cl⟩ ++
        [⟨.endTok, .str "", ln, cl⟩] ∧
      countKind .endTok body = 0 := by
  rw [tokenize] at h
  split at h
  · cases h
  · rename_i toksL stL hLoop
    cases h
    have hB := tokenizeLoop_balance _ _ _ _ hLoop (by simp)
    simp only [List.length_singleton] at hB
    obtain ⟨hd1, hEq, hPre, hEnd⟩ := hB
    have eI : countKind .indent
        ([⟨.endTok, .str "", stL.line, stL.col⟩] : List Token) = 0 := by
      simp [countKind]
    have eD : countKind .dedent
        ([⟨.endTok, .str "", stL.line, stL.col⟩] : List Token) = 0 := by
      simp [countKind]
    have eE : countKind .endTok
        ([⟨.endTok, .str "", stL.line, stL.col⟩] : List Token) = 1 := by
      simp [countKind]
    have rI : countKind .indent (List.replicate
        (stL.indentLevels.length - 1)
        (⟨.dedent, .str "", stL.line, stL.col⟩ : Token)) = 0 := by
      rw [countKind_replicate]
      simp
    have rD : countKind .dedent (List.replicate
        (stL.indentLevels.length - 1)
        (⟨.dedent, .str "", stL.line, stL.col⟩ : Token)) =
        stL.indentLevels.length - 1 := by
      rw [countKind_replicate]
      simp
    have rE : countKind .endTok (List.replicate
        (stL.indentLevels.length - 1)
        (⟨.dedent, .str "", stL.line, stL.col⟩ : Token)) = 0 := by
      rw [countKind_replicate]
      simp
    refine ⟨?_, ?_, ?_, toksL, stL.indentLevels.length - 1,
      stL.line, stL.col, rfl, hEnd⟩
    · rw [countKind_append, countKind_append, countKind_append,
        countKind_append, eI, eD, rI, rD]
      omega
    · intro p hp
      rcases prefix_split _ _ p hp with h1 | ⟨q, hpq, hq⟩
      · rcases prefix_split _ _ p h1 with h2 | ⟨q, hpq, hq⟩
        · have h3 := hPre p h2
          omega
        · subst hpq
          obtain ⟨hq1, hq2⟩ := prefix_replicate _ _ _ hq
          rw [hq1, countKind_append, countKind_append,
            countKind_replicate, countKind_replicate]
          simp only [reduceCtorEq, if_false, if_true, reduceIte]
          have h3 := hPre toksL (List.prefix_refl _)
          omega
      · subst hpq
        rcases prefix_cons_cases _ _ q hq with hnil | ⟨r, hqr, hr⟩
        · subst hnil
          rw [List.append_nil, countKind_append, countKind_append,
            rI, rD]
          have h3 := hPre toksL (List.prefix_refl _)
          omega
        · rw [List.prefix_nil] at hr
          subst hr
          subst hqr
          rw [countKind_append, countKind_append, countKind_append,
            countKind_append, rI, rD]
          have h4 : countKind .indent
              ([⟨.endTok, .str "", stL.line, stL.col⟩] : List Token) = 0 := by
            simp [countKind]
          have h5 : countKind .dedent
              ([⟨.endTok, .str "", stL.line, stL.col⟩] : List Token) = 0 := by
            simp [countKind]
          rw [h4, h5]
          have h3 := hPre toksL (List.prefix_refl _)
          omega
    · rw [countKind_append, countKind_append, eE, rE, hEnd]

def srcBalW : String := "if a:\n    x = 1\n"

def toksBalW : List Token :=
  [⟨.kwIf, .str "if", 1, 1⟩, ⟨.identifier, .str "a", 1, 4⟩,
   ⟨.colon, .str ":", 1, 5⟩, ⟨.newline, .str "\\n", 1, 6⟩,
   ⟨.indent, .str "", 2, 5⟩, ⟨.identifier, .str "x", 2, 5⟩,
   ⟨.assign, .str "=", 2, 7⟩, ⟨.intLit, .int 1, 2, 9⟩,
   ⟨.newline, .str "\\n", 2, 10⟩, ⟨.dedent, .str "", 3, 1⟩,
   ⟨.endTok, .str "", 3, 1⟩]

/-- Witness for `indent_dedent_balance` on a two-line indented source. -/
theorem indent_dedent_balance_witness :
    tokenize srcBalW = .ok toksBalW ∧
    (countKind .indent toksBalW = countKind .dedent toksBalW ∧
      (∀ p, p <+: toksBalW →
        countKind .dedent p ≤ countKind .indent p) ∧
      countKind .endTok toksBalW = 1 ∧
      ∃ body k ln cl, toksBalW = body ++
          List.replicate k ⟨.dedent, .str "", ln, cl⟩ ++
          [⟨.endTok, .str "", ln, cl⟩] ∧
        countKind .endTok body = 0) :=
  ⟨by rfl, indent_dedent_balance srcBalW toksBalW (by rfl)⟩

end PyC

namespace PyC

/-- The three errors `parse_escape_sequence` can raise (everything the
string-scan loop can fail with other than the post-loop unterminated
check). -/
def isEscErr (e : LexErr) : Bool :=
  decide (e = .badEscape) || decide (e = .badUnicode) || decide (e = .valueError)

theorem parseEscape_err {st : LexState} {e : LexErr}
    (h : parseEscape st = .error e) : isEscErr e = true := by
  rw [parseEscape] at h
  repeat' split at h
  all_goals first | (cases h; rfl) | cases h

theorem scanStr_err : ∀ (fuel : Nat) (q : Char) (b : Bool) (st : LexState)
    (acc : List Char) (e : LexErr),
    scanStr fuel q b st acc = .error e → isEscErr e = true
  | 0, q, b, st, acc, e => by
    intro h
    cases h
  | fuel + 1, q, b, st, acc, e => by
    intro h
    rw [scanStr] at h
    split at h
    · cases h
    · split at h
      · split at h
        · cases h
          exact parseEscape_err (by assumption)
        · exact scanStr_err fuel q b _ _ e h
      · exact scanStr_err fuel q b _ _ e h

theorem strBreak_false_ne_nul {q : Char} {b : Bool} {st : LexState}
    (h : strBreak q b st = false) : peekc st ≠ '\x00' := by
  intro hn
  rw [strBreak_of_peek_nul q b st hn] at h
  cases h

theorem scanStr_stop : ∀ (fuel : Nat) (q : Char) (b : Bool) (st : LexState)
    (acc cs : List Char) (st4 : LexState),
    st.rest.length ≤ fuel →
    scanStr fuel q b st acc = .ok (cs, st4) → strBreak q b st4 = true
  | 0, q, b, st, acc, cs, st4 => by
    intro hle h
    cases h
    apply strBreak_of_peek_nul
    have : st.rest = [] := by
      cases hr : st.rest with
      | nil => rfl
      | cons a r => rw [hr] at hle; simp at hle
    simp [peekc, this]
  | fuel + 1, q, b, st, acc, cs, st4 => by
    intro hle h
    rw [scanStr] at h
    split at h
    · cases h
      assumption
    · split at h
      · split at h
        · cases h
        · rename_i hbrk hesc c2 st5 hpe
          exact scanStr_stop fuel q b st5 _ cs st4
            (by have := parseEscape_rest_lt hpe; omega) h
      · rename_i hbrk hesc
        have hb2 : strBreak q b st = false := by
          cases hs : strBreak q b st
          · rfl
          · exact absurd hs hbrk
        have hne : st.rest ≠ [] :=
          peekc_ne_nul_rest_ne_nil (strBreak_false_ne_nul hb2)
        exact scanStr_stop fuel q b _ _ cs st4
          (by have := advancec_rest_length_lt st hne; omega) h

/-- C9: a string literal fails with the unterminated-string error exactly
when its scan stops at end of input or (for the single-quote form) at a
newline, before reaching the closing quote; when the error is not raised
the scan stopped at the matching closing quote (one quote for the single
form, three for the triple form), so a triple-quoted literal tolerates
embedded newlines and fails only at end of input.  Any other scan failure
is one of the escape-sequence errors, not the unterminated error. -/
theorem string_unterminated_iff (st st1 st2 st3 : LexState) (q : Char)
    (isTriple : Bool)
    (h1 : st1 = (if peekc st = 'f' || peekc st = 'F' then (advancec st).2 else st))
    (h2 : advancec st1 = (q, st2))
    (h3 : isTriple = (peekc st2 = q && peekNext st2 = q))
    (h4 : st3 = (if isTriple = true then (advancec (advancec st2).2).2 else st2)) :
    (∀ e, scanStr st3.rest.length q isTriple st3 [] = .error e →
      isEscErr e = true ∧ e ≠ .unterminated) ∧
    (parseString st = .error .unterminated ↔
      ∃ cs st4, scanStr st3.rest.length q isTriple st3 [] = .ok (cs, st4) ∧
        (peekc st4 = '\x00' ∨ (isTriple = false ∧ peekc st4 = '\n'))) ∧
    (∀ cs st4, scanStr st3.rest.length q isTriple st3 [] = .ok (cs, st4) →
      parseString st ≠ .error .unterminated →
      (isTriple = false → peekc st4 = q) ∧
      (isTriple = true → peekc st4 = q ∧ peekNext st4 = q ∧
        peek2 st4 = some q)) := by
  have hps : parseString st = (match scanStr st3.rest.length q isTriple st3 [] with
    | .error e => .error e
    | .ok (cs, st4) =>
      if peekc st4 = '\x00' || (!isTriple && peekc st4 = '\n') then
        .error .unterminated
      else
        let st5 := if !isTriple then (advancec st4).2
                   else (advancec (advancec (advancec st4).2).2).2
        .ok (⟨.strLit, .str (String.mk cs), st5.line, st.col⟩, st5)) := by
    rw [parseString, ← h1, h2]
    simp only [← h3, ← h4]
  refine ⟨?_, ?_, ?_⟩
  · intro e he
    refine ⟨scanStr_err _ _ _ _ _ _ he, ?_⟩
    have := scanStr_err _ _ _ _ _ _ he
    intro hu
    subst hu
    cases this
  · rw [hps]
    constructor
    · intro hu
      split at hu
      · cases hu
        exfalso
        have h9 := scanStr_err _ _ _ _ _ _ (by assumption)
        simp [isEscErr] at h9
      · rename_i cs st4 hscan
        split at hu
        · rename_i hcond
          refine ⟨cs, st4, hscan, ?_⟩
          simp only [Bool.or_eq_true, Bool.and_eq_true, Bool.not_eq_true',
            decide_eq_true_eq] at hcond
          rcases hcond with hc | ⟨hT, hc⟩
          · exact Or.inl hc
          · exact Or.inr ⟨hT, hc⟩
        · cases hu
    · rintro ⟨cs, st4, hscan, hcond⟩
      rw [hscan]
      simp only []
      split
      · rfl
      · rename_i hfalse
        exfalso
        apply hfalse
        simp only [Bool.or_eq_true, Bool.and_eq_true, Bool.not_eq_true',
          decide_eq_true_eq]
        rcases hcond with hc | ⟨hT, hc⟩
        · exact Or.inl hc
        · exact Or.inr ⟨hT, hc⟩
  · intro cs st4 hscan hnu
    have hstop := scanStr_stop _ _ _ _ _ _ _ (Nat.le_refl _) hscan
    rw [hps, hscan] at hnu
    simp only [] at hnu
    have hcond : ¬(peekc st4 = '\x00' ∨ (isTriple = false ∧ peekc st4 = '\n')) := by
      intro hc
      apply hnu
      split
      · rfl
      · rename_i hfalse
        exfalso
        apply hfalse
        simp only [Bool.or_eq_true, Bool.and_eq_true, Bool.not_eq_true',
          decide_eq_true_eq]
        rcases hc with hc | ⟨hT, hc⟩
        · exact Or.inl hc
        · exact Or.inr ⟨hT, hc⟩
    push_neg at hcond
    constructor
    · intro hT
      rw [hT] at hstop
      have hstop2 : (decide (peekc st4 = q) || decide (peekc st4 = '\x00') ||
          decide (peekc st4 = '\n')) = true := hstop
      simp only [Bool.or_eq_true, decide_eq_true_eq] at hstop2
      rcases hstop2 with (hq | hn) | hn
      · exact hq
      · exact absurd hn hcond.1
      · exact absurd hn (hcond.2 hT)
    · intro hT
      rw [hT] at hstop
      have hstop2 : ((decide (peekc st4 = q) && decide (peekNext st4 = q) &&
          (match peek2 st4 with
           | some c => decide (c = q)
           | Option.none => false)) ||
          decide (peekc st4 = '\x00')) = true := hstop
      simp only [Bool.or_eq_true, Bool.and_eq_true, decide_eq_true_eq] at hstop2
      rcases hstop2 with ⟨⟨hq1, hq2⟩, hq3⟩ | hn
      · refine ⟨hq1, hq2, ?_⟩
        cases hp : peek2 st4 with
        | none => rw [hp] at hq3; cases hq3
        | some c =>
          rw [hp] at hq3
          simp only [decide_eq_true_eq] at hq3
          rw [hq3]
      · exact absurd hn hcond.1

/-- Witness for `string_unterminated_iff` at the unterminated single-quote
input `"ab` (EOF before a closing quote). -/
theorem string_unterminated_iff_witness :
    parseString ⟨['"', 'a', 'b'], 1, 5, [0], false⟩ = .error .unterminated ∧
    ((∀ e, scanStr (⟨['a', 'b'], 1, 6, [0], false⟩ : LexState).rest.length '"'
        false ⟨['a', 'b'], 1, 6, [0], false⟩ [] = .error e →
        isEscErr e = true ∧ e ≠ .unterminated) ∧
      (parseString ⟨['"', 'a', 'b'], 1, 5, [0], false⟩ = .error .unterminated ↔
        ∃ cs st4, scanStr (⟨['a', 'b'], 1, 6, [0], false⟩ : LexState).rest.length
            '"' false ⟨['a', 'b'], 1, 6, [0], false⟩ [] = .ok (cs, st4) ∧
          (peekc st4 = '\x00' ∨ (false = false ∧ peekc st4 = '\n'))) ∧
      (∀ cs st4, scanStr (⟨['a', 'b'], 1, 6, [0], false⟩ : LexState).rest.length
          '"' false ⟨['a', 'b'], 1, 6, [0], false⟩ [] = .ok (cs, st4) →
        parseString ⟨['"', 'a', 'b'], 1, 5, [0], false⟩ ≠ .error .unterminated →
        (false = false → peekc st4 = '"') ∧
        (false = true → peekc st4 = '"' ∧ peekNext st4 = '"' ∧
          peek2 st4 = some '"'))) :=
  ⟨by rfl,
   string_unterminated_iff ⟨['"', 'a', 'b'], 1, 5, [0], false⟩
     ⟨['"', 'a', 'b'], 1, 5, [0], false⟩
     ⟨['a', 'b'], 1, 6, [0], false⟩
     ⟨['a', 'b'], 1, 6, [0], false⟩
     '"' false (by rfl) (by rfl) (by rfl) (by rfl)⟩

end PyC

namespace PyC

/-! ## C6: counter monotonicity and name freshness -/

set_option maxHeartbeats 4000000 in
mutual

theorem visit_mono : ∀ (a : Ast) (g : Gen) (r : VRes) (g2 : Gen),
    visit a g = .ok (r, g2) → g.tempC ≤ g2.tempC ∧ g.labelC ≤ g2.labelC
  | .nix, g, r, g2 => by
    intro h
    rw [visit_nix_eq] at h
    cases h
    exact ⟨Nat.le_refl _, Nat.le_refl _⟩
  | .intLit v, g, r, g2 => by
    intro h
    rw [visit_intLit_eq] at h
    cases h
    exact ⟨Nat.le_refl _, Nat.le_refl _⟩
  | .floatLit v, g, r, g2 => by
    intro h
    rw [visit_floatLit_eq] at h
    cases h
    exact ⟨Nat.le_refl _, Nat.le_refl _⟩
  | .strLit v b, g, r, g2 => by
    intro h
    rw [visit_strLit_eq] at h
    cases h
    exact ⟨Nat.le_refl _, Nat.le_refl _⟩
  | .boolLit b, g, r, g2 => by
    intro h
    rw [visit_boolLit_eq] at h
    cases h
    exact ⟨Nat.le_refl _, Nat.le_refl _⟩
  | .noneLit, g, r, g2 => by
    intro h
    rw [visit_noneLit_eq] at h
    cases h
    exact ⟨Nat.le_refl _, Nat.le_refl _⟩
  | .ident x, g, r, g2 => by
    intro h
    rw [visit_ident_eq] at h
    cases h
    exact ⟨Nat.le_refl _, Nat.le_refl _⟩
  | .attr v s, g, r, g2 => by
    intro h
    rw [visit_attr_eq, bind_eq_ok] at h
    obtain ⟨⟨obj, gA⟩, hv, h⟩ := h
    try simp only [] at h
    rw [bind_eq_ok] at h
    obtain ⟨n, hn, h⟩ := h
    try simp only [] at h
    have IH := visit_mono v g obj gA hv
    cases h
    exact IH
  | .binop op l r, g, r0, g2 => by
    intro h
    rw [visit_binop_eq, bind_eq_ok] at h
    obtain ⟨⟨left, gA⟩, hvl, h⟩ := h
    try simp only [] at h
    rw [bind_eq_ok] at h
    obtain ⟨⟨right, gB⟩, hvr, h⟩ := h
    simp only [generateTemp] at h
    obtain ⟨l1, l2⟩ := visit_mono l g left gA hvl
    obtain ⟨r1, r2⟩ := visit_mono r gA right gB hvr
    cases left with
    | pynone =>
      try simp only [bindOk] at h
      cases right with
      | pynone =>
        try simp only [bindOk] at h
        cases h
        exact ⟨show g.tempC ≤ gB.tempC + 1 by omega,
          show g.labelC ≤ gB.labelC by omega⟩
      | list sr =>
        try simp only [] at h
        rw [bind_eq_ok] at h
        obtain ⟨lastI2, hc1, h⟩ := h
        try simp only [] at h
        rw [bind_eq_ok] at h
        obtain ⟨rs2, hc2, h⟩ := h
        try simp only [bindOk] at h
        cases h
        exact ⟨show g.tempC ≤ gB.tempC + 1 by omega,
          show g.labelC ≤ gB.labelC by omega⟩
      | node n2 =>
        cases n2 <;> (try simp only [bindOk] at h) <;>
          (cases h
           exact ⟨show g.tempC ≤ gB.tempC + 1 by omega,
             show g.labelC ≤ gB.labelC by omega⟩)
    | list sl =>
      try simp only [] at h
      rw [bind_eq_ok] at h
      obtain ⟨lastI, hb1, h⟩ := h
      try simp only [] at h
      rw [bind_eq_ok] at h
      obtain ⟨rs, hb2, h⟩ := h
      try simp only [bindOk] at h
      cases right with
      | pynone =>
        try simp only [bindOk] at h
        cases h
        exact ⟨show g.tempC ≤ gB.tempC + 1 by omega,
          show g.labelC ≤ gB.labelC by omega⟩
      | list sr =>
        try simp only [] at h
        rw [bind_eq_ok] at h
        obtain ⟨lastI2, hc1, h⟩ := h
        try simp only [] at h
        rw [bind_eq_ok] at h
        obtain ⟨rs2, hc2, h⟩ := h
        try simp only [bindOk] at h
        cases h
        exact ⟨show g.tempC ≤ gB.tempC + 1 by omega,
          show g.labelC ≤ gB.labelC by omega⟩
      | node n2 =>
        cases n2 <;> (try simp only [bindOk] at h) <;>
          (cases h
           exact ⟨show g.tempC ≤ gB.tempC + 1 by omega,
             show g.labelC ≤ gB.labelC by omega⟩)
    | node n =>
      cases n <;> (try simp only [bindOk] at h) <;>
        (cases right with
        | pynone =>
          try simp only [bindOk] at h
          cases h
          exact ⟨show g.tempC ≤ gB.tempC + 1 by omega,
            show g.labelC ≤ gB.labelC by omega⟩
        | list sr =>
          try simp only [] at h
          rw [bind_eq_ok] at h
          obtain ⟨lastI2, hc1, h⟩ := h
          try simp only [] at h
          rw [bind_eq_ok] at h
          obtain ⟨rs2, hc2, h⟩ := h
          try simp only [bindOk] at h
          cases h
          exact ⟨show g.tempC ≤ gB.tempC + 1 by omega,
            show g.labelC ≤ gB.labelC by omega⟩
        | node n2 =>
          cases n2 <;> (try simp only [bindOk] at h) <;>
            (cases h
             exact ⟨show g.tempC ≤ gB.tempC + 1 by omega,
               show g.labelC ≤ gB.labelC by omega⟩))
  | .assign t v, g, r, g2 => by
    intro h
    rw [visit_assign_eq, bind_eq_ok] at h
    obtain ⟨⟨vr, gA⟩, hvv, h⟩ := h
    try simp only [] at h
    rw [bind_eq_ok] at h
    obtain ⟨⟨tr, gB⟩, hvt, h⟩ := h
    try simp only [] at h
    rw [bind_eq_ok] at h
    obtain ⟨tn, htn, h⟩ := h
    try simp only [] at h
    obtain ⟨v1, v2⟩ := visit_mono v g vr gA hvv
    obtain ⟨t1, t2⟩ := visit_mono t gA tr gB hvt
    cases vr with
    | list steps =>
      rw [bind_eq_ok] at h
      obtain ⟨lastI, h1, h⟩ := h
      try simp only [] at h
      rw [bind_eq_ok] at h
      obtain ⟨res, h2, h⟩ := h
      try simp only [] at h
      cases h
      exact ⟨by omega, by omega⟩
    | node n =>
      try simp only [] at h
      cases h
      exact ⟨by omega, by omega⟩
    | pynone =>
      try simp only [] at h
      cases h
      exact ⟨by omega, by omega⟩
  | .fncall callee args kw, g, r, g2 => by
    intro h
    rw [visit_fncall_eq, bind_eq_ok] at h
    obtain ⟨⟨fn, gA⟩, hvc, h⟩ := h
    try simp only [] at h
    rw [bind_eq_ok] at h
    obtain ⟨⟨argl, gB⟩, hva, h⟩ := h
    simp only [generateTemp] at h
    obtain ⟨c1, c2⟩ := visit_mono callee g fn gA hvc
    obtain ⟨a1, a2⟩ := visitArgs_mono args [] gA argl gB hva
    cases callee
    case attr obj m =>
      rw [bind_eq_ok] at h
      obtain ⟨⟨objV, gC⟩, hvo, h⟩ := h
      try simp only [] at h
      have ho := visit_mono obj _ objV gC hvo
      have o1 : gB.tempC + 1 ≤ gC.tempC := ho.1
      have o2 : gB.labelC ≤ gC.labelC := ho.2
      cases h
      exact ⟨by omega, by omega⟩
    case ident cname =>
      cases hcc : gB.currentClass with
      | some c =>
        rw [hcc] at h
        try simp only [] at h
        cases h
        exact ⟨show g.tempC ≤ gB.tempC + 1 by omega,
          show g.labelC ≤ gB.labelC by omega⟩
      | none =>
        rw [hcc] at h
        try simp only [] at h
        rw [bind_eq_ok] at h
        obtain ⟨n, hn, h⟩ := h
        try simp only [] at h
        cases h
        exact ⟨show g.tempC ≤ gB.tempC + 1 by omega,
          show g.labelC ≤ gB.labelC by omega⟩
    all_goals (
      rw [bind_eq_ok] at h
      obtain ⟨n, hn, h⟩ := h
      try simp only [] at h
      cases h
      exact ⟨show g.tempC ≤ gB.tempC + 1 by omega,
        show g.labelC ≤ gB.labelC by omega⟩)
  | .ifS cond thenB elseB, g, r, g2 => by
    intro h
    rw [visit_ifS_eq, bind_eq_ok] at h
    obtain ⟨⟨condV, gA⟩, hvc, h⟩ := h
    simp only [generateLabel] at h
    obtain ⟨c1, c2⟩ := visit_mono cond g condV gA hvc
    cases condV with
    | pynone =>
      try simp only [bindOk] at h
      rw [bind_eq_ok] at h
      obtain ⟨⟨tB, gT⟩, hvt, h⟩ := h
      try simp only [] at h
      rw [bind_eq_ok] at h
      obtain ⟨⟨eB, gE⟩, hve, h⟩ := h
      try simp only [] at h
      have ht := visitSeq_mono thenB [] _ tB gT hvt
      have t1 : gA.tempC ≤ gT.tempC := ht.1
      have t2 : gA.labelC + 1 + 1 + 1 ≤ gT.labelC := ht.2
      obtain ⟨e1, e2⟩ := visitSeq_mono elseB [] gT eB gE hve
      cases h
      exact ⟨by omega, by omega⟩
    | node n =>
      try simp only [bindOk] at h
      rw [bind_eq_ok] at h
      obtain ⟨⟨tB, gT⟩, hvt, h⟩ := h
      try simp only [] at h
      rw [bind_eq_ok] at h
      obtain ⟨⟨eB, gE⟩, hve, h⟩ := h
      try simp only [] at h
      have ht := visitSeq_mono thenB [] _ tB gT hvt
      have t1 : gA.tempC ≤ gT.tempC := ht.1
      have t2 : gA.labelC + 1 + 1 + 1 ≤ gT.labelC := ht.2
      obtain ⟨e1, e2⟩ := visitSeq_mono elseB [] gT eB gE hve
      cases h
      exact ⟨by omega, by omega⟩
    | list sl =>
      try simp only [] at h
      rw [bind_eq_ok] at h
      obtain ⟨lastI, hL1, h⟩ := h
      try simp only [] at h
      rw [bind_eq_ok] at h
      obtain ⟨res2, hL2, h⟩ := h
      try simp only [bindOk] at h
      rw [bind_eq_ok] at h
      obtain ⟨⟨tB, gT⟩, hvt, h⟩ := h
      try simp only [] at h
      rw [bind_eq_ok] at h
      obtain ⟨⟨eB, gE⟩, hve, h⟩ := h
      try simp only [] at h
      have ht := visitSeq_mono thenB [] _ tB gT hvt
      have t1 : gA.tempC ≤ gT.tempC := ht.1
      have t2 : gA.labelC + 1 + 1 + 1 ≤ gT.labelC := ht.2
      obtain ⟨e1, e2⟩ := visitSeq_mono elseB [] gT eB gE hve
      cases h
      exact ⟨by omega, by omega⟩
  | .whileS cond body, g, r, g2 => by
    intro h
    rw [visit_whileS_eq] at h
    simp only [generateLabel] at h
    rw [bind_eq_ok] at h
    obtain ⟨⟨condV, gA⟩, hvc, h⟩ := h
    try simp only [] at h
    rw [bind_eq_ok] at h
    obtain ⟨⟨bodyIR, gB⟩, hvb, h⟩ := h
    try simp only [] at h
    have hc := visit_mono cond _ condV gA hvc
    have c1 : g.tempC ≤ gA.tempC := hc.1
    have c2 : g.labelC + 1 + 1 + 1 ≤ gA.labelC := hc.2
    obtain ⟨b1, b2⟩ := visitSeq_mono body [] gA bodyIR gB hvb
    cases condV with
    | pynone =>
      try simp only [bindOk] at h
      cases h
      exact ⟨by omega, by omega⟩
    | node n =>
      try simp only [bindOk] at h
      cases h
      exact ⟨by omega, by omega⟩
    | list sl =>
      try simp only [] at h
      rw [bind_eq_ok] at h
      obtain ⟨lastI, hL1, h⟩ := h
      try simp only [] at h
      rw [bind_eq_ok] at h
      obtain ⟨res2, hL2, h⟩ := h
      try simp only [bindOk] at h
      cases h
      exact ⟨by omega, by omega⟩
  | .ret value, g, r, g2 => by
    intro h
    cases value
    case nix =>
      rw [visit_ret_nix_eq] at h
      cases h
      exact ⟨Nat.le_refl _, Nat.le_refl _⟩
    all_goals (
      rw [visit_ret_other_eq _ _ (by rfl), bind_eq_ok] at h
      obtain ⟨⟨res, gA⟩, hv, h⟩ := h
      try simp only [] at h
      obtain ⟨v1, v2⟩ := visit_mono _ g res gA hv
      cases res with
      | list steps =>
        try simp only [] at h
        rw [bind_eq_ok] at h
        obtain ⟨lastI, h1, h⟩ := h
        try simp only [] at h
        rw [bind_eq_ok] at h
        obtain ⟨rn, h2, h⟩ := h
        try simp only [] at h
        cases h
        exact ⟨v1, v2⟩
      | node n =>
        try simp only [] at h
        cases h
        exact ⟨v1, v2⟩
      | pynone =>
        try simp only [] at h
        cases h
        exact ⟨v1, v2⟩)
  | .fndef name params body, g, r, g2 => by
    intro h
    rw [visit_fndef_eq, bind_eq_ok] at h
    obtain ⟨pnames, hp, h⟩ := h
    try simp only [] at h
    rw [bind_eq_ok] at h
    obtain ⟨⟨bodyIR, gA⟩, hvb, h⟩ := h
    try simp only [] at h
    cases h
    have hb := visitSeq_mono body [] _ bodyIR gA hvb
    have b1 : g.tempC ≤ gA.tempC := hb.1
    have b2 : g.labelC ≤ gA.labelC := hb.2
    exact ⟨show g.tempC ≤ gA.tempC from b1, show g.labelC ≤ gA.labelC from b2⟩
  | .classdef name bases body, g, r, g2 => by
    intro h
    rw [visit_classdef_eq, bind_eq_ok] at h
    obtain ⟨⟨fns, gA⟩, hvb, h⟩ := h
    try simp only [] at h
    cases h
    have hb := visitClassBody_mono body [] _ fns gA hvb
    have b1 : g.tempC ≤ gA.tempC := hb.1
    have b2 : g.labelC ≤ gA.labelC := hb.2
    exact ⟨show g.tempC ≤ gA.tempC from b1, show g.labelC ≤ gA.labelC from b2⟩
  | .subscript a b, g, r, g2 => by intro h; cases h
  | .listlit l, g, r, g2 => by intro h; cases h
  | .dictlit l, g, r, g2 => by intro h; cases h
  | .param n d, g, r, g2 => by intro h; cases h
  | .forS t i b, g, r, g2 => by intro h; cases h
  | .importS m al, g, r, g2 => by intro h; cases h
  | .fromImport m i, g, r, g2 => by intro h; cases h
  | .passS, g, r, g2 => by intro h; cases h
  | .breakS, g, r, g2 => by intro h; cases h
  | .continueS, g, r, g2 => by intro h; cases h

theorem visitArgs_mono : ∀ (args : List Ast) (acc : List IR) (g : Gen)
    (l : List IR) (g2 : Gen),
    visitArgs args acc g = .ok (l, g2) →
    g.tempC ≤ g2.tempC ∧ g.labelC ≤ g2.labelC
  | [], acc, g, l, g2 => by
    intro h
    rw [visitArgs_nil_eq] at h
    cases h
    exact ⟨Nat.le_refl _, Nat.le_refl _⟩
  | a :: rest, acc, g, l, g2 => by
    intro h
    rw [visitArgs_cons_eq, bind_eq_ok] at h
    obtain ⟨⟨r, gA⟩, hv, h⟩ := h
    try simp only [] at h
    obtain ⟨v1, v2⟩ := visit_mono a g r gA hv
    cases r with
    | list lr =>
      try simp only [] at h
      rw [bind_eq_ok] at h
      obtain ⟨lastI, h1, h⟩ := h
      try simp only [] at h
      rw [bind_eq_ok] at h
      obtain ⟨res, h2, h⟩ := h
      try simp only [] at h
      obtain ⟨w1, w2⟩ := visitArgs_mono rest _ gA l g2 h
      exact ⟨by omega, by omega⟩
    | node n =>
      try simp only [] at h
      obtain ⟨w1, w2⟩ := visitArgs_mono rest _ gA l g2 h
      exact ⟨by omega, by omega⟩
    | pynone =>
      try simp only [] at h
      obtain ⟨w1, w2⟩ := visitArgs_mono rest _ gA l g2 h
      exact ⟨by omega, by omega⟩

theorem visitSeq_mono : ∀ (stmts : List Ast) (acc : List IR) (g : Gen)
    (l : List IR) (g2 : Gen),
    visitSeq stmts acc g = .ok (l, g2) →
    g.tempC ≤ g2.tempC ∧ g.labelC ≤ g2.labelC
  | [], acc, g, l, g2 => by
    intro h
    rw [visitSeq_nil_eq] at h
    cases h
    exact ⟨Nat.le_refl _, Nat.le_refl _⟩
  | s :: rest, acc, g, l, g2 => by
    intro h
    rw [visitSeq_cons_eq, bind_eq_ok] at h
    obtain ⟨⟨r, gA⟩, hv, h⟩ := h
    try simp only [] at h
    obtain ⟨v1, v2⟩ := visit_mono s g r gA hv
    obtain ⟨w1, w2⟩ := visitSeq_mono rest _ gA l g2 h
    exact ⟨by omega, by omega⟩

theorem visitClassBody_mono : ∀ (stmts : List Ast) (acc : List IR) (g : Gen)
    (l : List IR) (g2 : Gen),
    visitClassBody stmts acc g = .ok (l, g2) →
    g.tempC ≤ g2.tempC ∧ g.labelC ≤ g2.labelC
  | [], acc, g, l, g2 => by
    intro h
    rw [visitClassBody_nil_eq] at h
    cases h
    exact ⟨Nat.le_refl _, Nat.le_refl _⟩
  | s :: rest, acc, g, l, g2 => by
    intro h
    cases s
    case fndef name params body =>
      rw [visitClassBody_cons_fndef_eq, bind_eq_ok] at h
      obtain ⟨pnames, hp, h⟩ := h
      try simp only [] at h
      rw [bind_eq_ok] at h
      obtain ⟨⟨bodyIR, gA⟩, hvb, h⟩ := h
      try simp only [] at h
      have hb := visitSeq_mono body [] _ bodyIR gA hvb
      have b1 : g.tempC ≤ gA.tempC := hb.1
      have b2 : g.labelC ≤ gA.labelC := hb.2
      have hr := visitClassBody_mono rest _ _ l g2 h
      have r1 : gA.tempC ≤ g2.tempC := hr.1
      have r2 : gA.labelC ≤ g2.labelC := hr.2
      exact ⟨by omega, by omega⟩
    all_goals (
      rw [visitClassBody_cons_other_eq _ _ _ _ (by rfl)] at h
      exact visitClassBody_mono rest acc g l g2 h)

end

theorem visitProgramLoop_mono : ∀ (stmts : List Ast) (fns mainBody : List IR)
    (g : Gen) (fns2 mb2 : List IR) (g2 : Gen),
    visitProgramLoop stmts fns mainBody g = .ok (fns2, mb2, g2) →
    g.tempC ≤ g2.tempC ∧ g.labelC ≤ g2.labelC
  | [], fns, mainBody, g, fns2, mb2, g2 => by
    intro h
    rw [visitProgramLoop_nil_eq] at h
    cases h
    exact ⟨Nat.le_refl _, Nat.le_refl _⟩
  | s :: rest, fns, mainBody, g, fns2, mb2, g2 => by
    intro h
    cases s
    case fndef name params body =>
      rw [visitProgramLoop_cons_fndef_eq, bind_eq_ok] at h
      obtain ⟨⟨r, gA⟩, hv, h⟩ := h
      try simp only [] at h
      obtain ⟨v1, v2⟩ := visit_mono _ g r gA hv
      obtain ⟨w1, w2⟩ := visitProgramLoop_mono rest _ mainBody gA fns2 mb2 g2 h
      exact ⟨by omega, by omega⟩
    all_goals (
      rw [visitProgramLoop_cons_other_eq _ _ _ _ _ (by rfl), bind_eq_ok] at h
      obtain ⟨⟨r, gA⟩, hv, h⟩ := h
      try simp only [] at h
      obtain ⟨v1, v2⟩ := visit_mono _ g r gA hv
      obtain ⟨w1, w2⟩ := visitProgramLoop_mono rest fns _ gA fns2 mb2 g2 h
      exact ⟨by omega, by omega⟩)

end PyC

namespace PyC

theorem visitProgram_mono (stmts : List Ast) (g : Gen) (p : IR) (g2 : Gen)
    (h : visitProgram stmts g = .ok (p, g2)) :
    g.tempC ≤ g2.tempC ∧ g.labelC ≤ g2.labelC := by
  simp only [visitProgram] at h
  rw [bind_eq_ok] at h
  obtain ⟨⟨fns2, mb2, gA⟩, hloop, h⟩ := h
  have hm := visitProgramLoop_mono stmts [] [] g fns2 mb2 gA hloop
  cases mb2 with
  | nil =>
    simp only [List.isEmpty] at h
    cases h
    exact hm
  | cons x xs =>
    simp only [List.isEmpty] at h
    cases h
    exact hm

/-! Decimal spellings of distinct counter values are distinct: `Nat.repr`
is injective.  Proved by relating the fueled `Nat.toDigitsCore` to
`Nat.digits` and using `Nat.ofDigits_digits`. -/

theorem digitChar_inj_lt :
    ∀ a, a < 10 → ∀ b, b < 10 → Nat.digitChar a = Nat.digitChar b → a = b := by
  decide

theorem mapDigitChar_inj : ∀ (l1 l2 : List Nat),
    (∀ d ∈ l1, d < 10) → (∀ d ∈ l2, d < 10) →
    l1.map Nat.digitChar = l2.map Nat.digitChar → l1 = l2
  | [], [], _, _, _ => rfl
  | [], b :: l2, _, _, h => by cases h
  | a :: l1, [], _, _, h => by cases h
  | a :: l1, b :: l2, h1, h2, h => by
    simp only [List.map] at h
    injection h with hh ht
    have ha := h1 a (by simp)
    have hb := h2 b (by simp)
    have hab := digitChar_inj_lt a ha b hb hh
    subst hab
    rw [mapDigitChar_inj l1 l2 (fun d hd => h1 d (by simp [hd]))
      (fun d hd => h2 d (by simp [hd])) ht]

theorem toDigitsCore_digits : ∀ (fuel n : Nat) (acc : List Char),
    1 ≤ n → n ≤ fuel →
    Nat.toDigitsCore 10 fuel n acc =
      ((Nat.digits 10 n).map Nat.digitChar).reverse ++ acc
  | 0, n, acc => by
    intro h1 h2
    omega
  | fuel + 1, n, acc => by
    intro h1 h2
    rw [Nat.toDigitsCore]
    by_cases h10 : n / 10 = 0
    · rw [if_pos h10]
      have hlt : n < 10 := (Nat.div_eq_zero_iff (by norm_num)).mp h10
      rw [Nat.digits_def' (by norm_num : 1 < 10) (by omega : 0 < n)]
      rw [Nat.mod_eq_of_lt hlt, h10]
      simp
    · rw [if_neg h10]
      have hlt : n / 10 < n := Nat.div_lt_self (by omega) (by norm_num)
      rw [toDigitsCore_digits fuel (n / 10) _
        (by omega : 1 ≤ n / 10) (by omega)]
      rw [Nat.digits_def' (by norm_num : 1 < 10) (by omega : 0 < n)]
      simp [List.reverse_cons, List.append_assoc]

theorem asString_inj {l1 l2 : List Char}
    (h : List.asString l1 = List.asString l2) : l1 = l2 := by
  have h2 := congrArg String.data h
  simpa [List.asString] using h2

theorem repr_pos_eq (n : Nat) (hn : 1 ≤ n) :
    Nat.repr n = List.asString (((Nat.digits 10 n).map Nat.digitChar).reverse) := by
  show (Nat.toDigitsCore 10 (n + 1) n []).asString = _
  rw [toDigitsCore_digits (n + 1) n [] hn (by omega)]
  simp

theorem repr_zero_ne_pos (j : Nat) (hj : 0 < j) (h : Nat.repr 0 = Nat.repr j) :
    False := by
  rw [repr_pos_eq j hj] at h
  have h0 : Nat.repr 0 = List.asString ['0'] := rfl
  rw [h0] at h
  have hl := asString_inj h
  have hrev := congrArg List.reverse hl
  simp only [List.reverse_reverse, List.reverse_cons, List.reverse_nil,
    List.nil_append] at hrev
  cases hd : Nat.digits 10 j with
  | nil =>
    rw [hd] at hrev
    simp at hrev
  | cons d tl =>
    rw [hd] at hrev
    simp only [List.map] at hrev
    injection hrev with hh ht
    have htl : tl = [] := by
      cases tl
      · rfl
      · simp at ht
    subst htl
    have hdlt : d < 10 := Nat.digits_lt_base (by norm_num) (by rw [hd]; simp)
    have hd0 : d = 0 := digitChar_inj_lt d hdlt 0 (by norm_num) (by rw [← hh]; rfl)
    subst hd0
    have hof := Nat.ofDigits_digits 10 j
    rw [hd] at hof
    simp [Nat.ofDigits] at hof
    omega

theorem nat_repr_inj (i j : Nat) (h : Nat.repr i = Nat.repr j) : i = j := by
  rcases Nat.eq_zero_or_pos i with hi | hi
  · rcases Nat.eq_zero_or_pos j with hj | hj
    · omega
    · subst hi
      exact absurd h (fun hh => repr_zero_ne_pos j hj hh)
  · rcases Nat.eq_zero_or_pos j with hj | hj
    · subst hj
      exact absurd h.symm (fun hh => repr_zero_ne_pos i hi hh)
    · rw [repr_pos_eq i hi, repr_pos_eq j hj] at h
      have hl := asString_inj h
      have hrev := congrArg List.reverse hl
      simp only [List.reverse_reverse] at hrev
      have hdig := mapDigitChar_inj _ _
        (fun d hd => Nat.digits_lt_base (by norm_num) hd)
        (fun d hd => Nat.digits_lt_base (by norm_num) hd) hrev
      have hoi := Nat.ofDigits_digits 10 i
      have hoj := Nat.ofDigits_digits 10 j
      rw [hdig] at hoi
      rw [hoj] at hoi
      omega

end PyC

namespace PyC

/-- C6: the generator state is single-threaded through a translation and
its two counters only increase (they are never reset); each
`generate_temp` call advances the temp counter by exactly one, leaves the
label counter alone, and names its temporary `t{tempC}`; each
`generate_label` call advances the label counter by exactly one, leaves
the temp counter alone, and names its label `L{labelC}`; and two
`generate_temp` (resp. `generate_label`) calls return the same name only
when made at the same counter value — so within one translation every
temporary name `t{k}` and every label name `L{k}` is generated at most
once and never reused. -/
theorem temp_label_names_unique (stmts : List Ast) (g : Gen) (p : IR)
    (g2 : Gen) (h : visitProgram stmts g = .ok (p, g2)) :
    (g.tempC ≤ g2.tempC ∧ g.labelC ≤ g2.labelC) ∧
    (∀ gx : Gen, (generateTemp gx).2.tempC = gx.tempC + 1 ∧
      (generateTemp gx).2.labelC = gx.labelC ∧
      (generateTemp gx).1 = "t" ++ Nat.repr gx.tempC) ∧
    (∀ gx : Gen, (generateLabel gx).2.labelC = gx.labelC + 1 ∧
      (generateLabel gx).2.tempC = gx.tempC ∧
      (generateLabel gx).1 = "L" ++ Nat.repr gx.labelC) ∧
    (∀ gx gy : Gen, (generateTemp gx).1 = (generateTemp gy).1 →
      gx.tempC = gy.tempC) ∧
    (∀ gx gy : Gen, (generateLabel gx).1 = (generateLabel gy).1 →
      gx.labelC = gy.labelC) := by
  refine ⟨visitProgram_mono stmts g p g2 h,
    fun gx => ⟨rfl, rfl, rfl⟩, fun gx => ⟨rfl, rfl, rfl⟩, ?_, ?_⟩
  · intro gx gy hname
    have hd : ('t' : Char) :: (Nat.repr gx.tempC).data =
        't' :: (Nat.repr gy.tempC).data := congrArg String.data hname
    have hdt : (Nat.repr gx.tempC).data = (Nat.repr gy.tempC).data := by
      injection hd
    exact nat_repr_inj _ _ (String.ext hdt)
  · intro gx gy hname
    have hd : ('L' : Char) :: (Nat.repr gx.labelC).data =
        'L' :: (Nat.repr gy.labelC).data := congrArg String.data hname
    have hdt : (Nat.repr gx.labelC).data = (Nat.repr gy.labelC).data := by
      injection hd
    exact nat_repr_inj _ _ (String.ext hdt)

/-- Witness for `temp_label_names_unique` on the translation of
`z = 4 + 5` from a fresh generator. -/
theorem temp_label_names_unique_witness :
    visitProgram [Ast.assign (.ident "z")
      (.binop "+" (.intLit (.int 4)) (.intLit (.int 5)))] genInit =
      .ok (.prog [ .func ("main") []
        [.binop "+" (.cst (.int 4)) (.cst (.int 5)) "t0",
         .store (.rawstr "t0") "z"]],
        (⟨1, 0, Option.none, Option.none⟩ : Gen)) ∧
    ((genInit.tempC ≤ (⟨1, 0, Option.none, Option.none⟩ : Gen).tempC ∧
      genInit.labelC ≤ (⟨1, 0, Option.none, Option.none⟩ : Gen).labelC) ∧
    (∀ gx : Gen, (generateTemp gx).2.tempC = gx.tempC + 1 ∧
      (generateTemp gx).2.labelC = gx.labelC ∧
      (generateTemp gx).1 = "t" ++ Nat.repr gx.tempC) ∧
    (∀ gx : Gen, (generateLabel gx).2.labelC = gx.labelC + 1 ∧
      (generateLabel gx).2.tempC = gx.tempC ∧
      (generateLabel gx).1 = "L" ++ Nat.repr gx.labelC) ∧
    (∀ gx gy : Gen, (generateTemp gx).1 = (generateTemp gy).1 →
      gx.tempC = gy.tempC) ∧
    (∀ gx gy : Gen, (generateLabel gx).1 = (generateLabel gy).1 →
      gx.labelC = gy.labelC)) :=
  ⟨by rfl,
   temp_label_names_unique
     [Ast.assign (.ident "z")
       (.binop "+" (.intLit (.int 4)) (.intLit (.int 5)))]
     genInit
     (.prog [ .func ("main") []
       [.binop "+" (.cst (.int 4)) (.cst (.int 5)) "t0",
        .store (.rawstr "t0") "z"]])
     ⟨1, 0, Option.none, Option.none⟩ (by rfl)⟩

end PyC
